import Mathlib

/-!
# The interactive render loop of im-mts (`src/im-mts/scene.cpp`, `src/im-mts/shell.cpp`)

A shallow embedding of `impl::InteractiveSceneProcess` (constructor, `pause`,
`render`), of the interrupt callback handed to the computation kernel, of the
part of `Document::Renderer` that drives one generation and synchronises with the
controller, of `impl::WorkLane` (`synchronized`, `synchronize`, destructor), of the
batch process `impl::SceneProcess`, of the pause methods of `Document`, of
`Session::reconfigure`, and of `Properties::operator==` (`libcore/properties.cpp`).

Conventions of the embedding.

* Sample counts are C++ `double`s.  They are modelled as exact rationals; the
  rounding of floating point arithmetic is not modelled.
* C++ `int`s are modelled as unbounded integers (signed overflow is undefined
  behaviour in the source and is not modelled), with one exception: the sample count
  computed by `Scene::cloneSampler` goes through single precision arithmetic and a
  conversion to `int`, which are modelled with their rounding and with the range of
  `int` (`roundFloat`, `floatToInt`).  Theorems that count rounds state the range of
  `int` as a hypothesis where they depend on it.
* A nullable pointer to a flag is an `Option`: `none` is `nullptr`, `some v` is the
  value read through the pointer at the moment of the read.
* The worker threads of one round run concurrently in the source.  Every worker
  writes only its own counter slot, and the shared `returnCode` is only ever
  overwritten with non-zero values, so the round is modelled by running the workers
  one after the other in the order of their thread index.
* The wait on the pause gate inside the interrupt callback delays a worker but writes
  nothing; it is modelled on its own (`Interrupt.waitLoop`, `Interrupt.progress`), and
  the round loop uses only the store made by the callback (`Interrupt.store`).  The loop
  condition is evaluated on entry and again each time `condition.wait` returns, which
  takes a `notify_all` or a spurious wake-up; the model is given the state found at each
  evaluation and does not decide when a wake-up comes.
* A loop that need not terminate (the round loop, the wait loops) is a function with
  fuel that returns `none` when the fuel runs out.
* The computation kernel, the sampler plugin and the preview are external.  The
  kernel is a parameter of the model (`Kernel`), quantified over in the theorems.
* The scheduler, the render jobs and the render queues of the batch path are
  external.  The scheduler is modelled by its running flag; jobs and queues are
  named by the order of their creation and the calls made on them are recorded.
* The lane thread and the controller thread of a document are interleaved step by
  step (`Shell.run`); the code that holds the lane mutex is one step, a read of shared
  state outside the mutex is a step of its own, and the return of a timed wait can
  be scheduled at any time.
-/

namespace Mitsuba

/-! ## Controls, samplers, kernel -/

/-- The fields `continu` and `abort` of `ResponsiveIntegrator::Controls`, as read at one
moment: each is a nullable pointer to a volatile flag (`lane->continu`, a `bool`, and
`Renderer::restart`, an `int`, in `Document::Renderer::work`). -/
structure Controls where
  continu : Option Bool
  abort : Option Int
  deriving DecidableEq, Repr

/-- The configuration of a sampler that `Scene::cloneSampler` touches: the `sampleCount`
(the value of `getSampleCount()`, which a clone receives as its `sampleCount` property) and
the `scramble` property (absent until it is first set).  A `sampleCount` of `none` is a count
produced by a conversion `int(x)` whose operand lies outside the range of `int`: the language
leaves that value undefined. -/
structure Sampler where
  sampleCount : Option Int
  scramble : Option Int
  deriving DecidableEq, Repr

/-- The C++ conversion `int(x)` of a floating point value: truncation towards zero. -/
def truncToInt (x : ℚ) : Int :=
  if 0 ≤ x then Rat.floor x else -Rat.floor (-x)

/-- Rounding to the nearest integer, ties to the even one (the IEEE 754 default mode). -/
def roundTiesEven (q : ℚ) : Int :=
  if q - (Rat.floor q : ℚ) < 1 / 2 then Rat.floor q
  else if 1 / 2 < q - (Rat.floor q : ℚ) then Rat.floor q + 1
  else if Rat.floor q % 2 = 0 then Rat.floor q
  else Rat.floor q + 1

/-- The single precision value nearest to `x` (`mitsuba::Float` is `float` in the single
precision build, the type of the parameter `sampleMultiplier` in every build): the significand
is rounded to 24 bits at the binary exponent of `x`, not below the exponent -126 of the
subnormal numbers.  Overflow to infinity is not modelled; the operands of `cloneSampler` are
sample counts, far below `2^128`. -/
def roundFloat (x : ℚ) : ℚ :=
  (roundTiesEven (x / (2 : ℚ) ^ (max (Int.log 2 |x|) (-126) - 23)) : ℚ)
    * (2 : ℚ) ^ (max (Int.log 2 |x|) (-126) - 23)

/-- The conversion `int(x)` of a `float` to a 32-bit `int`: truncation towards zero when the
truncated value is in the range of `int`, undefined (`none`) otherwise. -/
def floatToInt (x : ℚ) : Option Int :=
  if -(2 : Int) ^ 31 ≤ truncToInt x ∧ truncToInt x < (2 : Int) ^ 31 then some (truncToInt x)
  else none

/-- The function `Scene::cloneSampler(sampler, scramble, sampleMultiplier)`: the properties
of the new sampler are those of `sampler`, with `sampleCount` set to
`int(sampleMultiplier * (mitsuba::Float) sampler.getSampleCount())` when the multiplier is not
1 (the count is converted to `float`, the product is rounded to `float` and converted to
`int`) and `scramble` overwritten when the scramble index is not 0. -/
def Scene.cloneSampler (sampler : Sampler) (scramble : Int) (sampleMultiplier : ℚ) : Sampler :=
  { sampleCount :=
      if sampleMultiplier ≠ 1 then
        sampler.sampleCount.bind (fun count =>
          floatToInt (roundFloat (sampleMultiplier * roundFloat (count : ℚ))))
      else sampler.sampleCount
    scramble := if scramble ≠ 0 then some scramble else sampler.scramble }

/-- What one call `integrator->render(scene, sensor, sampler, block, controls, tid, n)` does,
seen from the render loop: the `spp` arguments of its successive calls of
`controls.interrupt->progress`, its effect on the pixels of the block it is given, and its
return code. -/
structure KernelRun where
  progress : List ℚ
  write : List ℚ → List ℚ
  rc : Int

/-- The computation kernel (`mitsuba::ResponsiveIntegrator`), external to the render loop.
`render round tid n` is the run of worker `tid` of `n` in round `round` (counted from 0) of
one `render()` call; `allocate k` is the result of `integrator->allocate` at the `k`-th
reconfiguration of that call. -/
structure Kernel where
  render : Nat → Nat → Int → KernelRun
  allocate : Int → Bool

/-! ## The process -/

/-- The worker thread object of `render()` (the local `struct Thread`): its thread index
and, of the closure `parallel_execution` it is bound to, the captured `numThreads`. -/
structure Thread where
  tid : Nat
  numThreads : Int
  deriving DecidableEq, Repr

/-- The state of `impl::InteractiveSceneProcess`.  Image blocks are heap objects shared by
reference: `framebuffers` and `framebuffersDouble` hold block identifiers, `blocks` gives
the pixel contents of each block.  The data pointer of a block is identified with the
block. -/
structure InteractiveSceneProcess where
  paused : Bool
  numActiveThreads : Int
  maxThreads : Int
  uniqueTargets : Int
  samplerPrototype : Sampler
  samplers : List Sampler
  framebuffers : List Nat
  frambufferData : List Nat
  sppBase : List ℚ
  framebuffersDouble : List Nat
  frambufferDataDouble : List Nat
  workers : List (Option Thread)
  imageData : List Nat
  blocks : Nat → List ℚ

/-- The configuration record `ProcessConfig`. -/
structure ProcessConfig where
  maxThreads : Int
  doubleBuffered : Bool
  deriving DecidableEq, Repr

/-- The method `InteractiveSceneProcess::updateSamplersAndIntegrator`: every sampler slot
becomes a clone of the prototype, and the result is that of `integrator->allocate`. -/
def InteractiveSceneProcess.updateSamplersAndIntegrator (K : Kernel) (k : Int)
    (p : InteractiveSceneProcess) : InteractiveSceneProcess × Bool :=
  ({ p with samplers := p.samplers.map (fun _ => p.samplerPrototype) }, K.allocate k)

/-- The call `v.resize(n)` on a vector of references or pointers: slots beyond `n` are
dropped, missing slots are appended as null.  A null is written 0 here; the constructor
assigns every slot before it is read. -/
def resizeRefs (v : List Nat) (n : Nat) : List Nat :=
  v.take n ++ List.replicate (n - v.length) 0

/-- One pass of the constructor loop `for (i = 0; i < 1 + int(doubleBuffered); ++i)` in the
`ATOMIC_SPLAT` configuration.  On every pass but the first the two sets are swapped.  Then
the active set is resized to `maxThreads` slots, slot 0 receives a new image block (the
`i`-th block allocated, of contents `pixels`), the loop
`for (int i = 1; i < maxThreads; ++i) framebuffers[i] = framebuffers[0];` copies slot 0 to the
other slots, `uniqueTargets` is set to 1, and the data pointers are resized and assigned slot
by slot from the blocks. -/
def InteractiveSceneProcess.allocSet (pixels : List ℚ) (i : Nat)
    (p : InteractiveSceneProcess) : InteractiveSceneProcess :=
  let p1 : InteractiveSceneProcess :=
    if i ≠ 0 then
      { p with framebuffers := p.framebuffersDouble, framebuffersDouble := p.framebuffers
               frambufferData := p.frambufferDataDouble
               frambufferDataDouble := p.frambufferData }
    else p
  let n := p1.maxThreads.toNat
  let fb0 := (resizeRefs p1.framebuffers n).set 0 i
  let fbs := (List.range' 1 (n - 1)).foldl (fun fb j => fb.set j (fb.getD 0 0)) fb0
  let data := (List.range n).foldl (fun d j => d.set j (fbs.getD j 0))
    (resizeRefs p1.frambufferData n)
  { p1 with framebuffers := fbs, uniqueTargets := 1, frambufferData := data
            blocks := Function.update p1.blocks i pixels }

/-- The constructor of `impl::InteractiveSceneProcess`.  `coreCount` is
`mitsuba::getCoreCount()`, `sampler` the prototype returned by `Scene::cloneSampler(*sampler)`,
`pixels` the contents of a newly allocated image block. -/
def InteractiveSceneProcess.create (K : Kernel) (coreCount : Int) (sampler : Sampler)
    (pixels : List ℚ) (config : ProcessConfig) : InteractiveSceneProcess :=
  let maxThreads := if config.maxThreads > 0 ∧ config.maxThreads < coreCount
    then config.maxThreads else coreCount
  let p0 : InteractiveSceneProcess :=
    { paused := true, numActiveThreads := 0, maxThreads := maxThreads, uniqueTargets := 0
      samplerPrototype := sampler
      samplers := List.replicate maxThreads.toNat sampler
      framebuffers := [], frambufferData := [], sppBase := []
      framebuffersDouble := [], frambufferDataDouble := []
      workers := [], imageData := [], blocks := fun _ => [] }
  let p1 := (List.range (1 + config.doubleBuffered.toNat)).foldl
    (fun p i => p.allocSet pixels i) p0
  let p2 := { p1 with imageData := p1.frambufferData }
  (p2.updateSamplersAndIntegrator K 0).1

/-- The method `InteractiveSceneProcess::pause(bool)`: the flag is stored under the mutex
and the condition variable is notified (`notify_all`) when the request is a resume.  The
second component tells whether the broadcast was issued. -/
def InteractiveSceneProcess.pause (pause : Bool) (p : InteractiveSceneProcess) :
    InteractiveSceneProcess × Bool :=
  ({ p with paused := pause }, !pause)

/-! ## The interrupt callback -/

/-- The store of `Interrupt::progress`: `if (spp) m.sppTarget = spp + m.sppBase`.  The result
is the value stored into the counter, if any. -/
def Interrupt.store (sppBase spp : ℚ) : Option ℚ :=
  if spp ≠ 0 then some (spp + sppBase) else none

/-- The condition of the wait loop of `Interrupt::progress`:
`m.proc->paused && !(controls.continu && !*controls.continu) && !(controls.abort && *controls.abort)`. -/
def Interrupt.waitCondition (paused : Bool) (controls : Controls) : Bool :=
  paused
    && !(match controls.continu with
         | some c => !c
         | none => false)
    && !(match controls.abort with
         | some a => decide (a ≠ 0)
         | none => false)

/-- The wait loop `while (cond) condition.wait(lock)` of `Interrupt::progress`.  `obs k` is the
pair of the `paused` flag and the controls at the `k`-th evaluation of the loop condition:
evaluation 0 is made on entry, evaluation `k + 1` when the `k + 1`-th call of `condition.wait`
returns, which takes a `notify_all` on the condition variable or a spurious wake-up.  Between
two evaluations the thread is blocked in `condition.wait`, whatever the flags become.  The
result is the number of waits performed before the loop was left; it is `none` when each of
the first `fuel` evaluations found the condition true, so that the thread is blocked in its
`fuel`-th wait. -/
def Interrupt.waitLoop (obs : Nat → Bool × Controls) : Nat → Nat → Option Nat
  | 0, _ => none
  | fuel + 1, k =>
    if Interrupt.waitCondition (obs k).1 (obs k).2 then Interrupt.waitLoop obs fuel (k + 1)
    else some k

/-- The callback `Interrupt::progress(…, spp, controls, …)`.  `sppTarget` is the current
value of the counter slot, `pausedAtEntry` the value of `proc->paused` read by the outer
`if`, `obs` the later observations of the wait loop.  The result is the new value of the
counter slot and the value returned to the kernel, or `none` if the thread is still blocked
after `fuel` evaluations of the wait condition. -/
def Interrupt.progress (sppBase sppTarget spp : ℚ) (pausedAtEntry : Bool)
    (obs : Nat → Bool × Controls) (fuel : Nat) : Option (ℚ × Int) :=
  let target := (Interrupt.store sppBase spp).getD sppTarget
  if pausedAtEntry then
    (Interrupt.waitLoop obs fuel 0).map (fun _ => (target, 0))
  else some (target, 0)

/-! ## `InteractiveSceneProcess::render` -/

/-- The observable steps of `render()`, in the order in which the model performs them. -/
inductive Event where
  /-- `framebuffers[0]->clear()` on the block with this identifier. -/
  | clear (block : Nat)
  /-- `workers[tid]->start()`. -/
  | start (tid : Nat)
  /-- `workers[tid]->join()`. -/
  | join (tid : Nat)
  /-- A store `imageSamples[tid] = value` made by the interrupt callback of worker `tid`. -/
  | store (tid : Nat) (value : ℚ)
  /-- A call `Scene::cloneSampler(*samplerPrototype, scramble, multiplier)` of the round loop. -/
  | reconfigure (scramble : Int) (multiplier : ℚ)
  /-- The exchange of `framebuffers`, `frambufferData` with their doubles. -/
  | swap
  deriving DecidableEq

/-- The clamp at the head of `render()`:
`if (numThreads < 0 || numThreads > this->maxThreads) numThreads = this->maxThreads;`. -/
def clampThreads (maxThreads numThreads : Int) : Int :=
  if numThreads < 0 ∨ numThreads > maxThreads then maxThreads else numThreads

/-- The method `ImageBlock::clear()`: every pixel value becomes zero. -/
def clearPixels (pixels : List ℚ) : List ℚ := pixels.map (fun _ => 0)

/-- The growth of the worker pool in `render()`: `workers` is resized when `numThreads`
exceeds its size (new slots are null), then every slot below `numThreads` that holds a thread
has its closure rebound and every null slot below `numThreads` receives a new thread. -/
def growWorkers (workers : List (Option Thread)) (numThreads : Int) : List (Option Thread) :=
  let n := numThreads.toNat
  let resized := if numThreads > workers.length
    then workers ++ List.replicate (n - workers.length) none else workers
  resized.enum.map (fun iw =>
    if iw.1 < n then
      match iw.2 with
      | some w => some { w with numThreads := numThreads }
      | none => some { tid := iw.1, numThreads := numThreads }
    else iw.2)

/-- The state that the loop `while (moreRounds)` of `render()` carries from one iteration to
the next: the process, the caller-owned counter array `imageSamples` (a raw pointer in the source,
here the memory it points to, indexed by slot), the locals `returnCode`,
`initialRun`, `moreRounds` and `scramble`, the number of iterations completed and the log
of the steps performed. -/
structure RenderState where
  proc : InteractiveSceneProcess
  imageSamples : Nat → ℚ
  returnCode : Int
  initialRun : Bool
  moreRounds : Bool
  scramble : Int
  rounds : Nat
  log : List Event

/-- The values that worker `tid` stores into its counter slot in round `round`, in order,
when its base is `base`: one store per progress report with a non-zero `spp`. -/
def workerStores (K : Kernel) (numThreads : Int) (round : Nat) (base : ℚ) (tid : Nat) :
    List ℚ :=
  (K.render round tid numThreads).progress.filterMap (Interrupt.store base)

/-- The closure `parallel_execution(tid)` of `render()`, run by worker `tid` in the current
round: the kernel renders into block `framebuffers[tid]`, its progress reports store into
`imageSamples[tid]` with base `sppBase[tid]`, and a non-zero return code is recorded. -/
def parallel_execution (K : Kernel) (numThreads : Int) (s : RenderState) (tid : Nat) :
    RenderState :=
  let run := K.render s.rounds tid numThreads
  let stores := workerStores K numThreads s.rounds (s.proc.sppBase.getD tid 0) tid
  let block := s.proc.framebuffers.getD tid 0
  { s with
    proc := { s.proc with blocks := Function.update s.proc.blocks block
                            (run.write (s.proc.blocks block)) }
    imageSamples := match stores.getLast? with
      | some v => Function.update s.imageSamples tid v
      | none => s.imageSamples
    returnCode := if run.rc ≠ 0 then run.rc else s.returnCode
    log := s.log ++ stores.map (Event.store tid) }

/-- The call `std::copy_n(src, n, dst.begin())`. -/
def copy_n (src : Nat → ℚ) (n : Nat) (dst : List ℚ) : List ℚ :=
  (List.range n).map src ++ dst.drop n

/-- The three assignments to `moreRounds` after the joins:
`moreRounds = (returnCode == 0);`
`moreRounds &= controls.continu ? *controls.continu : controls.abort != nullptr;`
`moreRounds &= !controls.abort || !*controls.abort;`. -/
def moreRoundsAfterJoin (returnCode : Int) (controls : Controls) : Bool :=
  decide (returnCode = 0)
    && (match controls.continu with
        | some c => c
        | none => controls.abort.isSome)
    && (match controls.abort with
        | some a => decide (a = 0)
        | none => true)

/-- The head of an iteration of the round loop: `sppBase` is resized to `numThreads` slots
and zeroed on the initial run, and otherwise receives a copy of the first `numThreads`
counters. -/
def roundBase (numThreads : Int) (s : RenderState) : RenderState :=
  let base : List ℚ :=
    if s.initialRun then List.replicate numThreads.toNat 0
    else copy_n s.imageSamples numThreads.toNat s.proc.sppBase
  { s with proc := { s.proc with sppBase := base } }

/-- The workers of one round: `workers[i]->start()` for `i` from 0 up to `numThreads - 1`,
the runs of the workers, and `workers[i]->join()` for `i` from `numThreads - 1` down to 0. -/
def runWorkers (K : Kernel) (numThreads : Int) (s : RenderState) : RenderState :=
  let n := numThreads.toNat
  let s1 : RenderState := { s with log := s.log ++ (List.range n).map Event.start }
  let s2 := (List.range n).foldl (parallel_execution K numThreads) s1
  { s2 with log := s2.log ++ ((List.range n).reverse).map Event.join }

/-- The tail of an iteration of the round loop, after the joins: `initialRun` is cleared,
`moreRounds` is computed from the return code and the controls, and when it holds the
sampler prototype is re-cloned with the next scramble index and sample multiplier 2, the
samplers are re-created and `moreRounds` becomes the result of the reallocation. -/
def restartDecision (K : Kernel) (controls : Controls) (s : RenderState) : RenderState :=
  let more := moreRoundsAfterJoin s.returnCode controls
  let s1 : RenderState := { s with initialRun := false, moreRounds := more, rounds := s.rounds + 1 }
  if more then
    let scramble := s1.scramble + 1
    let proto := Scene.cloneSampler s1.proc.samplerPrototype scramble 2
    let r := ({ s1.proc with samplerPrototype := proto }).updateSamplersAndIntegrator K scramble
    { s1 with proc := r.1, scramble := scramble, moreRounds := r.2
              log := s1.log ++ [Event.reconfigure scramble 2] }
  else s1

/-- One iteration of the loop `while (moreRounds)` of `render()`.  `controls` holds the
values of the control flags as they are read after the joins of this round. -/
def renderRound (K : Kernel) (controls : Controls) (numThreads : Int) (s : RenderState) :
    RenderState :=
  restartDecision K controls (runWorkers K numThreads (roundBase numThreads s))

/-- The part of `render()` before the round loop: the clamp of the thread count, the stores to
`numActiveThreads` and `paused`, the clear of the shared block (`ATOMIC_SPLAT`), the refresh
of `imageData`, the growth of the worker pool, and the initial values of the loop locals. -/
def renderBegin (p : InteractiveSceneProcess) (imageSamples : Nat → ℚ) (numThreads : Int) :
    RenderState :=
  let numThreads := clampThreads p.maxThreads numThreads
  let block := p.framebuffers.getD 0 0
  { proc := { p with
      numActiveThreads := numThreads
      paused := false
      blocks := Function.update p.blocks block (clearPixels (p.blocks block))
      imageData := p.frambufferData
      workers := growWorkers p.workers numThreads }
    imageSamples := imageSamples
    returnCode := 0
    initialRun := true
    moreRounds := true
    scramble := 0
    rounds := 0
    log := [Event.clear block] }

/-- The state of `render()` after at most `k` iterations of the loop `while (moreRounds)`,
started from `s`: an iteration is performed only while `moreRounds` holds.  `controls r` are
the control flags as read after the joins of round `r` (counted from 0). -/
def renderRounds (K : Kernel) (controls : Nat → Controls) (numThreads : Int) :
    Nat → RenderState → RenderState
  | 0, s => s
  | k + 1, s =>
    if s.moreRounds then
      renderRounds K controls numThreads k (renderRound K (controls s.rounds) numThreads s)
    else s

/-- The flag `hadRevisions` of `render()`:
`for (i = 0; i < numThreads; ++i) hadRevisions |= bool(imageSamples[i]);`. -/
def hadRevisions (numThreads : Int) (imageSamples : Nat → ℚ) : Bool :=
  (List.range numThreads.toNat).any (fun i => decide (imageSamples i ≠ 0))

/-- The part of `render()` after the round loop: with double buffering
(`!framebuffersDouble.empty()`) the sets are exchanged when some counter of an active worker
is non-zero. -/
def renderEnd (numThreads : Int) (s : RenderState) : RenderState :=
  if s.proc.framebuffersDouble ≠ [] then
    if hadRevisions numThreads s.imageSamples then
      { s with
        proc := { s.proc with
          framebuffers := s.proc.framebuffersDouble
          framebuffersDouble := s.proc.framebuffers
          frambufferData := s.proc.frambufferDataDouble
          frambufferDataDouble := s.proc.frambufferData }
        log := s.log ++ [Event.swap] }
    else s
  else s

/-- The state of a call `render(sensor, imageSamples, controls, numThreads)` on process `p`
after at most `k` rounds of its loop. -/
def InteractiveSceneProcess.renderAfter (K : Kernel) (controls : Nat → Controls)
    (p : InteractiveSceneProcess) (imageSamples : Nat → ℚ) (numThreads : Int) (k : Nat) :
    RenderState :=
  renderRounds K controls (clampThreads p.maxThreads numThreads) k
    (renderBegin p imageSamples numThreads)

/-- The method `InteractiveSceneProcess::render(sensor, imageSamples, controls, numThreads)`.
The loop of `render()` need not terminate; the result is `none` when it is still running
after `fuel` rounds. -/
def InteractiveSceneProcess.render (K : Kernel) (controls : Nat → Controls)
    (p : InteractiveSceneProcess) (imageSamples : Nat → ℚ) (numThreads : Int) (fuel : Nat) :
    Option RenderState :=
  let s := p.renderAfter K controls imageSamples numThreads fuel
  if s.moreRounds then none else some (renderEnd (clampThreads p.maxThreads numThreads) s)

/-! ## The render worker of a document (`Document::Renderer`, shell.cpp) -/

/-- The part of `Document::Renderer::Integration` that the render loop touches: the process
and the vector `samples` of per-worker counters. -/
structure Integration where
  process : InteractiveSceneProcess
  samples : List ℚ

/-- The method `Integration::switchFrame`: `memset(samples.data(), 0, …)` over all
`samples.size()` slots (the call `preview->nextGeneration()` acts on the preview only). -/
def Integration.switchFrame (g : Integration) : Integration :=
  { g with samples := g.samples.map (fun _ => 0) }

/-- The constructor `Integration(scene, config)`: the process is created and `samples` is
resized to `maxThreads` slots, which are value-initialised to zero. -/
def Integration.create (K : Kernel) (coreCount : Int) (sampler : Sampler) (pixels : List ℚ)
    (config : ProcessConfig) : Integration :=
  let process := InteractiveSceneProcess.create K coreCount sampler pixels config
  { process := process, samples := List.replicate process.maxThreads.toNat 0 }

/-- The view of a vector through its `data()` pointer. -/
def dataOf (v : List ℚ) : Nat → ℚ := fun i => v.getD i 0

/-- The call `process->render(sensor, samples.data(), controls)` of `Integration::runFrame`
and its effect on the integration.  `numThreads` is the default value of the last parameter
of `render()`, which `shell.h` declares.  The polling of the preview that follows the call in
`runFrame` does not touch the process or the counters. -/
def Integration.runFrame (K : Kernel) (controls : Nat → Controls) (numThreads : Int)
    (fuel : Nat) (g : Integration) : Option (Integration × RenderState) :=
  (g.process.render K controls (dataOf g.samples) numThreads fuel).map (fun s =>
    ({ process := s.proc, samples := (List.range g.samples.length).map s.imageSamples }, s))

/-- The state of `Document::Renderer` that `work` reads and writes. -/
structure Renderer where
  integration : Integration
  restart : Int
  reconfig : Bool
  pendingChanges : Bool
  skipInit : Bool

/-- The method `Renderer::needsSync`. -/
def Renderer.needsSync (r : Renderer) : Bool := r.reconfig || r.pendingChanges

/-- How a call of `Renderer::work` ends. -/
inductive WorkOutcome where
  /-- The lane is still in the loop `while (needsSync())` after the given number of waits. -/
  | waiting
  /-- The early `return` taken when `lane->continu` is found cleared. -/
  | quit (r : Renderer)
  /-- The unit of work reached `runFrame`: the renderer as it was when `render()` was called
  (after `switchFrame`) and the result of the call. -/
  | rendered (atCall : Renderer) (result : Option (Integration × RenderState))

/-- The loop `while (needsSync()) { lane->synchronize(); if (!lane->continu) return; }` of
`Renderer::work`.  During the `k`-th wait the controller may act on the renderer: `sync k r`
is the renderer after that wait together with the value of `lane->continu` read after it.
The result is `none` while the loop is still running after `fuel` waits, `some (r, false)`
for the early return and `some (r, true)` when the loop is left normally. -/
def Renderer.syncLoop (sync : Nat → Renderer → Renderer × Bool) :
    Nat → Nat → Renderer → Option (Renderer × Bool)
  | 0, _, r => if r.needsSync then none else some (r, true)
  | fuel + 1, k, r =>
    if r.needsSync then
      let rc := sync k r
      if !rc.2 then some (rc.1, false) else Renderer.syncLoop sync fuel (k + 1) rc.1
    else some (r, true)

/-- The controls that `Renderer::work` hands to `runFrame`: `controls.continu = &lane->continu`
and `controls.abort = &restart`, both pointers non-null.  `flags r` are the values of
`lane->continu` and of `restart` when they are read after round `r`. -/
def Renderer.controls (flags : Nat → Bool × Int) : Nat → Controls :=
  fun r => { continu := some (flags r).1, abort := some (flags r).2 }

/-- The method `Renderer::work(lane)`: the restart flag is consumed, the lane waits until no
synchronisation is pending (leaving early when told to quit), then the frame is switched and
run.  The preprocessing calls between the wait and `switchFrame` act on the scene only. -/
def Renderer.work (K : Kernel) (flags : Nat → Bool × Int)
    (sync : Nat → Renderer → Renderer × Bool) (numThreads : Int) (fuelSync fuelRender : Nat)
    (r : Renderer) : WorkOutcome :=
  let r0 := { r with restart := 0 }
  match Renderer.syncLoop sync fuelSync 0 r0 with
  | none => WorkOutcome.waiting
  | some (r1, false) => WorkOutcome.quit r1
  | some (r1, true) =>
    let r2 := { r1 with integration := r1.integration.switchFrame }
    WorkOutcome.rendered r2
      (r2.integration.runFrame K (Renderer.controls flags) numThreads fuelRender)

/-- The method `Renderer::applySceneChanges`.  `changed` tells whether applying the pending
changes replaces the integrator or the film of the scene.  The second component is the
return value. -/
def Renderer.applySceneChanges (changed : Bool) (r : Renderer) : Renderer × Bool :=
  if !r.pendingChanges then (r, false)
  else ({ r with reconfig := if changed then true else r.reconfig, pendingChanges := false },
    true)

/-- The call `recreateIntegration()` of `Renderer::sync`: `integration` is replaced by a newly
constructed one (`fresh`, built from the scene and `nextConfig`) and `reconfig` is cleared. -/
def Renderer.recreateIntegration (fresh : Integration) (r : Renderer) : Renderer :=
  { r with integration := fresh, reconfig := false }

/-- The method `Renderer::sync`, the `Sync` callback of the render worker: the pending scene
changes are applied, the integration is re-created when `reconfig` is set, and the result
tells whether anything was done. -/
def Renderer.sync (changed : Bool) (fresh : Integration) (r : Renderer) : Renderer × Int :=
  let a := r.applySceneChanges changed
  if a.1.reconfig then (a.1.recreateIntegration fresh, 1)
  else (a.1, if a.2 then 1 else 0)

/-- The method `Renderer::quit(lane)`: `integration.process->pause(false)`.  The second
component tells whether the broadcast on the pause gate was issued. -/
def Renderer.quit (r : Renderer) : Renderer × Bool :=
  let q := r.integration.process.pause false
  ({ r with integration := { r.integration with process := q.1 } }, q.2)

/-! ## The work lane (`impl::WorkLane`, scene.cpp) -/

/-- The flags of a work lane: `continu`, `started` and `stopped` of the interface `WorkLane`
and the counter `awaiting_sync` of `impl::WorkLane`. -/
structure WorkLane where
  continu : Bool
  started : Bool
  stopped : Bool
  awaiting_sync : Int
  deriving DecidableEq, Repr

/-- What a call of `WorkLane::synchronized` leaves and returns: the lane, the state of the
`Sync` object, the return value `r`, and the local `synced`, which tells whether
`condition.notify_all()` was called. -/
structure Synchronized (σ : Type) where
  lane : WorkLane
  target : σ
  result : Int
  synced : Bool

/-- The method `WorkLane::synchronized(sync)`.  The counter is tested once without the mutex
and once more under it; `arrivals` is the number of calls of `synchronize` that got the mutex
between the two tests.  When both tests find the counter non-zero, `sync.sync()` is called
(`sync` is its effect on the state of the `Sync` object and its result), the counter is reset
and, after the mutex is released, the waiters are notified. -/
def WorkLane.synchronized {σ : Type} (sync : σ → σ × Int) (arrivals : Nat) (lane : WorkLane)
    (target : σ) : Synchronized σ :=
  if lane.awaiting_sync ≠ 0 then
    let lane1 : WorkLane := { lane with awaiting_sync := lane.awaiting_sync + arrivals }
    if lane1.awaiting_sync ≠ 0 then
      let r := sync target
      { lane := { lane1 with awaiting_sync := 0 }, target := r.1, result := r.2, synced := true }
    else { lane := lane1, target := target, result := 0, synced := false }
  else { lane := lane, target := target, result := 0, synced := false }

/-- The method `WorkLane::synchronize()` up to its wait: under the mutex the counter is
incremented.  The call then waits on the condition for at most 100 ms
(`condition.wait_for`), which writes nothing. -/
def WorkLane.synchronize (lane : WorkLane) : WorkLane :=
  { lane with awaiting_sync := lane.awaiting_sync + 1 }

/-- The steps of the destructor `~WorkLane`. -/
inductive Teardown where
  /-- The assignment `continu = false`. -/
  | clearContinu
  /-- The call `worker->quit(this)`. -/
  | quit
  /-- The call `thread.join()`. -/
  | join
  deriving DecidableEq, Repr

/-- One step of the destructor `~WorkLane` on the lane and the worker.  `quit` is the
worker's method `quit(lane)`.  The join returns when the lane thread has left `WorkLane::run`,
which sets `started` on entry and `stopped` on exit. -/
def Teardown.apply {σ : Type} (quit : WorkLane → σ → σ) (step : Teardown)
    (state : WorkLane × σ) : WorkLane × σ :=
  match step with
  | Teardown.clearContinu => ({ state.1 with continu := false }, state.2)
  | Teardown.quit => (state.1, quit state.1 state.2)
  | Teardown.join => ({ state.1 with started := true, stopped := true }, state.2)

/-- The body of the destructor `~WorkLane`, in the order of its statements:
`continu = false; worker->quit(this); thread.join();`. -/
def WorkLane.teardown : List Teardown :=
  [Teardown.clearContinu, Teardown.quit, Teardown.join]

/-- The destructor `~WorkLane`: its statements are performed one after the other.  The
result is the lane and the worker when the destructor returns. -/
def WorkLane.destroy {σ : Type} (quit : WorkLane → σ → σ) (lane : WorkLane) (worker : σ) :
    WorkLane × σ :=
  WorkLane.teardown.foldl (fun state step => step.apply quit state) (lane, worker)

/-! ## The lane thread and the controller thread of a document

The lane thread runs `WorkLane::run`, which calls `Renderer::work` in a loop; the controller
thread (the main loop of the shell) changes the scene, asks for restarts and calls
`Document::prepareFrame` once per frame.  The two threads are interleaved step by step; a
step is the code between two accesses to the state shared by the threads, and the part of
`synchronized` and `synchronize` that holds the lane mutex is one step. -/

/-- The two threads. -/
inductive Actor where
  | lane
  | controller
  deriving DecidableEq, Repr

/-- Where the lane thread is in `WorkLane::run` and `Renderer::work`. -/
inductive LanePc where
  /-- In the loop of `WorkLane::run`, about to test `lane->continu`. -/
  | idle
  /-- In `work`, about to evaluate `needsSync()`. -/
  | loopHead
  /-- In `work`, `needsSync()` was true: about to call `lane->synchronize()`. -/
  | wantSync
  /-- In `synchronize`, inside `condition.wait_for`, the mutex released. -/
  | parked
  /-- Back from `synchronize`, about to test `lane->continu`. -/
  | woken
  /-- Past the loop of `work`: inside `runFrame`, that is inside `render()`. -/
  | rendering
  /-- The loop of `WorkLane::run` is left. -/
  | ended
  deriving DecidableEq, Repr

/-- The steps of the lane thread. -/
inductive LaneAction where
  /-- The test of `WorkLane::run` and the entry of `work`: `restart = false`. -/
  | enterWork
  /-- The evaluation of `needsSync()` at the head of the loop of `work`; when it is false
  the frame is switched and `render()` is entered. -/
  | testNeedsSync
  /-- The locked part of `synchronize()`: the counter is incremented, the wait begins. -/
  | synchronize
  /-- The return of `condition.wait_for`: by notification, after the timeout of 100 ms, or
  spuriously. -/
  | wake
  /-- The test `if (!lane->continu) return;` after `synchronize()`. -/
  | testContinu
  /-- The return of `runFrame` and of `work`. -/
  | finishRender
  deriving DecidableEq, Repr

/-- The steps of the controller thread. -/
inductive ControllerAction where
  /-- The scene configurator hands over a change set and the session is restarted
  (`pendingChanges.reset(…); session->restart();`, done when none is pending). -/
  | submitChanges
  /-- A new process configuration: `Renderer::reconfigure` followed by `restart()`. -/
  | reconfigure
  /-- The call `Document::prepareFrame()`: `workLane->synchronized(renderer)`. -/
  | prepareFrame
  deriving DecidableEq, Repr

/-- A step of one of the two threads. -/
inductive Action where
  | lane (a : LaneAction)
  | controller (a : ControllerAction)
  deriving DecidableEq, Repr

/-- What the interleaving records. -/
inductive Trace where
  /-- The lane thread left the loop of `work` and entered `render()`; `awaiting` is the value
  of `awaiting_sync` at that moment. -/
  | leftLoop (awaiting : Int)
  /-- The callback `Sync.sync()` was executed by `thread` while the lane thread was at
  `lanePc`; `result` is its return value. -/
  | sync (thread : Actor) (lanePc : LanePc) (result : Int)
  deriving DecidableEq, Repr

/-- The state shared by the lane thread and the controller thread of a document, the place of
the lane thread in its code, and the record of the interleaving so far. -/
structure Shell where
  lane : WorkLane
  renderer : Renderer
  pc : LanePc
  trace : List Trace

/-- The method `Document::restart()` with a work lane present: `renderer.restart = true` and
`pause(false)` on the process. -/
def Shell.restart (s : Shell) : Shell :=
  { s with renderer := { s.renderer with
      restart := 1
      integration := { s.renderer.integration with
        process := (s.renderer.integration.process.pause false).1 } } }

/-- A call `lane->synchronized(renderer)` made by thread `caller`: the callback, when it is
executed, is executed by the caller, inside the call. -/
def Shell.callSynchronized (changed : Bool) (fresh : Integration) (caller : Actor)
    (s : Shell) : Shell :=
  let r := s.lane.synchronized (Renderer.sync changed fresh) 0 s.renderer
  { s with
    lane := r.lane
    renderer := r.target
    trace := s.trace ++ (if r.synced then [Trace.sync caller s.pc r.result] else []) }

/-- One step of the lane thread; `none` when the lane thread is not at the place of the
step. -/
def Shell.laneStep (a : LaneAction) (s : Shell) : Option Shell :=
  match a, s.pc with
  | LaneAction.enterWork, LanePc.idle =>
    if s.lane.continu then
      some { s with renderer := { s.renderer with restart := 0 }, pc := LanePc.loopHead }
    else some { s with lane := { s.lane with stopped := true }, pc := LanePc.ended }
  | LaneAction.testNeedsSync, LanePc.loopHead =>
    if s.renderer.needsSync then some { s with pc := LanePc.wantSync }
    else some { s with
      renderer := { s.renderer with integration := s.renderer.integration.switchFrame }
      pc := LanePc.rendering
      trace := s.trace ++ [Trace.leftLoop s.lane.awaiting_sync] }
  | LaneAction.synchronize, LanePc.wantSync =>
    some { s with lane := s.lane.synchronize, pc := LanePc.parked }
  | LaneAction.wake, LanePc.parked => some { s with pc := LanePc.woken }
  | LaneAction.testContinu, LanePc.woken =>
    if !s.lane.continu then some { s with pc := LanePc.idle }
    else some { s with pc := LanePc.loopHead }
  | LaneAction.finishRender, LanePc.rendering => some { s with pc := LanePc.idle }
  | _, _ => none

/-- One step of the controller thread.  `changed` and `fresh` are the parameters of
`Renderer.sync`. -/
def Shell.controllerStep (changed : Bool) (fresh : Integration) (a : ControllerAction)
    (s : Shell) : Shell :=
  match a with
  | ControllerAction.submitChanges =>
    if !s.renderer.pendingChanges then
      Shell.restart { s with renderer := { s.renderer with pendingChanges := true } }
    else s
  | ControllerAction.reconfigure =>
    Shell.restart { s with renderer := { s.renderer with reconfig := true } }
  | ControllerAction.prepareFrame => s.callSynchronized changed fresh Actor.controller

/-- One step of the interleaving. -/
def Shell.step (changed : Bool) (fresh : Integration) (a : Action) (s : Shell) :
    Option Shell :=
  match a with
  | Action.lane la => s.laneStep la
  | Action.controller ca => some (s.controllerStep changed fresh ca)

/-- A schedule run from state `s`: `none` when one of its steps is not enabled. -/
def Shell.run (changed : Bool) (fresh : Integration) : List Action → Shell → Option Shell
  | [], s => some s
  | a :: as, s =>
    match s.step changed fresh a with
    | none => none
    | some t => Shell.run changed fresh as t

/-! ## Configuration of the processes (`ProcessConfig`, `Session::reconfigure`) -/

/-- The function `ProcessConfig::resolveDefaults`: a negative `maxThreads` is replaced by
`recommendedThreads()`, which is `mitsuba::getCoreCount()`. -/
def ProcessConfig.resolveDefaults (recommendedThreads : Int) (cfg : ProcessConfig) :
    ProcessConfig :=
  if cfg.maxThreads < 0 then { cfg with maxThreads := recommendedThreads } else cfg

/-- The loop `for (auto& s : scenes)` of `Session::reconfigure`, with `remaining + 1` scenes
still to configure, the current one included (`--remainingScenes` leaves `remaining`).  The
result is the `maxThreads` handed to each of these scenes, in order.  Integer division is
that of C++, which truncates. -/
def Session.reconfigureLoop (total minThreads maxThreads : Int) : Nat → Int → List Int
  | 0, _ => []
  | remaining + 1, blockedThreads =>
    let assigned :=
      if blockedThreads + maxThreads + minThreads * (remaining : Int) > total then
        (total - blockedThreads).tdiv ((remaining : Int) + 1)
      else maxThreads
    assigned :: Session.reconfigureLoop total minThreads maxThreads remaining
      (blockedThreads + assigned)

/-- The method `Session::reconfigure(config)` on a session of `numScenes` documents: the
configuration handed to `renderer.reconfigure` of each document, in order. -/
def Session.reconfigure (recommendedThreads : Int) (config : ProcessConfig) (numScenes : Nat) :
    List ProcessConfig :=
  if numScenes = 0 then []
  else
    let cfg := ProcessConfig.resolveDefaults recommendedThreads config
    let minThreads := cfg.maxThreads.tdiv (numScenes : Int)
    let maxThreads := (cfg.maxThreads + ((numScenes : Int) - 1)).tdiv (numScenes : Int)
    (Session.reconfigureLoop cfg.maxThreads minThreads maxThreads numScenes 0).map
      (fun m => { cfg with maxThreads := m })

/-! ## The polling loop of `Integration::runFrame` -/

/-- The loop of `Integration::runFrame` that follows the call of `render()`:
`while (!preview->upToDate(…) && waitCounter < 160) { waitCounter += std::min(std::max(waitCounter, 5), 16); WorkLane::sleep(waitCounter); }`.
`upToDate k` is the result of the `k`-th call of `preview->upToDate`.  The result is the list
of the arguments of `sleep`, in order; `none` when the loop is still running after `fuel`
evaluations of its condition. -/
def Integration.pollLoop (upToDate : Nat → Bool) : Nat → Nat → Int → Option (List Int)
  | 0, _, _ => none
  | fuel + 1, k, waitCounter =>
    if !upToDate k && decide (waitCounter < 160) then
      (Integration.pollLoop upToDate fuel (k + 1)
        (waitCounter + min (max waitCounter 5) 16)).map
        (fun sleeps => (waitCounter + min (max waitCounter 5) 16) :: sleeps)
    else some []

/-! ## The batch process (`impl::SceneProcess`, scene.cpp) -/

/-- Modelled from the spec: the shared scheduler singleton of the batch path ("global
pause/resume, get worker count"), `mitsuba::Scheduler`, whose code is not among the sources.
The state is the running flag read by `isRunning()`, the worker count and the limit set by
`limitWorkersPerProcess`. -/
structure Scheduler where
  isRunning : Bool
  workerCount : Int
  workersPerProcess : Option Int
  deriving DecidableEq, Repr

/-- Modelled from the spec: the global pause of the scheduler, `Scheduler::pause()`, clears
the running flag. -/
def Scheduler.pause (s : Scheduler) : Scheduler := { s with isRunning := false }

/-- Modelled from the spec: the global resume of the scheduler, `Scheduler::start()`, sets
the running flag. -/
def Scheduler.start (s : Scheduler) : Scheduler := { s with isRunning := true }

/-- The calls that the batch process makes on the scheduler, on its render jobs and on its
render queues.  Jobs and queues are named by the order of their creation. -/
inductive BatchEvent where
  /-- The call `sched->pause()`. -/
  | schedulerPause
  /-- The call `sched->start()`. -/
  | schedulerStart
  /-- The call `currentJob->cancel()`. -/
  | cancelJob (job : Nat)
  /-- The call `currentQueue->waitLeft(0)`, which returns when no job is left in the queue;
  `schedulerRunning` is the running flag of the scheduler at the call. -/
  | waitLeft (queue : Nat) (schedulerRunning : Bool)
  /-- The creation `new mitsuba::RenderQueue()`. -/
  | newQueue (queue : Nat)
  /-- The call `currentQueue->registerListener(listener)`. -/
  | registerListener (queue : Nat)
  /-- The call `sched->limitWorkersPerProcess(maxThreads)`. -/
  | limitWorkers (maxThreads : Int)
  /-- The creation `new mitsuba::RenderJob("rend", scene, currentQueue, …)`. -/
  | newJob (job queue : Nat)
  /-- The call `currentJob->start()` of the job of this queue. -/
  | startJob (job queue : Nat)
  deriving DecidableEq, Repr

/-- The members of `impl::SceneProcess` that its methods read and write. -/
structure SceneProcess where
  currentQueue : Option Nat
  currentJob : Option Nat
  isCancelled : Bool
  numActiveThreads : Int
  deriving DecidableEq, Repr

/-- A batch process together with what it acts on: the scheduler, the running state of the
thread of its current job (`currentJob->isRunning()`), the number of jobs and queues created
so far, and the record of the calls made. -/
structure Batch where
  process : SceneProcess
  scheduler : Scheduler
  jobRunning : Bool
  allocated : Nat
  log : List BatchEvent
  deriving DecidableEq, Repr

/-- The constructor `SceneProcess(scene)`: no queue, no job, `isCancelled = false`. -/
def SceneProcess.create (scheduler : Scheduler) : Batch :=
  { process := { currentQueue := none, currentJob := none, isCancelled := false
                 numActiveThreads := 0 }
    scheduler := scheduler, jobRunning := false, allocated := 0, log := [] }

/-- The method `SceneProcess::paused()`: `!Scheduler::getInstance()->isRunning()`. -/
def SceneProcess.paused (w : Batch) : Bool := !w.scheduler.isRunning

/-- The method `SceneProcess::pause(pause)`: nothing is done when `pause == !sched->isRunning()`;
otherwise `sched->pause()` or `sched->start()` is called. -/
def SceneProcess.pause (pause : Bool) (w : Batch) : Batch :=
  if pause = !w.scheduler.isRunning then w
  else if pause then
    { w with scheduler := w.scheduler.pause, log := w.log ++ [BatchEvent.schedulerPause] }
  else
    { w with scheduler := w.scheduler.start, log := w.log ++ [BatchEvent.schedulerStart] }

/-- The method `SceneProcess::running()`:
`currentJob && currentJob->isRunning() && !paused()`. -/
def SceneProcess.running (w : Batch) : Bool :=
  w.process.currentJob.isSome && w.jobRunning && !SceneProcess.paused w

/-- The method `SceneProcess::clean()`: the current job, if any, is cancelled and dropped; the
current queue, if any, is waited for with the scheduler resumed (`pause(false);
currentQueue->waitLeft(0);`) and dropped; `isCancelled` is cleared. -/
def SceneProcess.clean (w : Batch) : Batch :=
  let w1 : Batch := match w.process.currentJob with
    | some j =>
      { w with process := { w.process with currentJob := none }
               log := w.log ++ [BatchEvent.cancelJob j] }
    | none => w
  let w2 : Batch := match w1.process.currentQueue with
    | some q =>
      let w3 := SceneProcess.pause false w1
      { w3 with process := { w3.process with currentQueue := none }
                log := w3.log ++ [BatchEvent.waitLeft q w3.scheduler.isRunning] }
    | none => w1
  { w2 with process := { w2.process with isCancelled := false } }

/-- The method `SceneProcess::renderAsync(filmRevision, maxThreads)`: `pause(false)`,
`clean()`, then a new queue with its listener, the thread limit, and a new job, which is
started. -/
def SceneProcess.renderAsync (maxThreads : Int) (w : Batch) : Batch :=
  let w1 := SceneProcess.clean (SceneProcess.pause false w)
  let queue := w1.allocated
  let job := w1.allocated + 1
  let limited : Bool := decide (maxThreads > 0 ∧ maxThreads < w1.scheduler.workerCount)
  { process := { w1.process with
      currentQueue := some queue
      currentJob := some job
      numActiveThreads := if limited then maxThreads else w1.scheduler.workerCount }
    scheduler :=
      if limited then { w1.scheduler with workersPerProcess := some maxThreads }
      else w1.scheduler
    jobRunning := true
    allocated := w1.allocated + 2
    log := w1.log ++ [BatchEvent.newQueue queue, BatchEvent.registerListener queue]
      ++ (if limited then [BatchEvent.limitWorkers maxThreads] else [])
      ++ [BatchEvent.newJob job queue, BatchEvent.startJob job queue] }

/-- The method `SceneProcess::cancel()`: `isCancelled = true; currentJob->cancel();`.  There is
no result when there is no current job (the source dereferences a null reference). -/
def SceneProcess.cancel (w : Batch) : Option Batch :=
  match w.process.currentJob with
  | none => none
  | some j =>
    some { w with process := { w.process with isCancelled := true }
                  log := w.log ++ [BatchEvent.cancelJob j] }

/-- The method `SceneProcess::cancelled()`. -/
def SceneProcess.cancelled (w : Batch) : Bool := w.process.isCancelled

/-- A call of a method of the batch process. -/
inductive BatchOp where
  | renderAsync (maxThreads : Int)
  | pause (pause : Bool)
  | cancel
  deriving DecidableEq, Repr

/-- The effect of one call on the batch process. -/
def SceneProcess.call (op : BatchOp) (w : Batch) : Option Batch :=
  match op with
  | BatchOp.renderAsync m => some (SceneProcess.renderAsync m w)
  | BatchOp.pause p => some (SceneProcess.pause p w)
  | BatchOp.cancel => SceneProcess.cancel w

/-- A sequence of calls on the batch process. -/
def SceneProcess.calls : List BatchOp → Batch → Option Batch
  | [], w => some w
  | op :: ops, w =>
    match SceneProcess.call op w with
    | none => none
    | some t => SceneProcess.calls ops t

/-! ## Pausing a document (`Document`, shell.cpp) -/

/-- The part of `Document` that its pause methods touch: the interactive process
`renderer.integration.process` (a pointer that may be null), the batch process
`classic.process` (likewise) and the flag `autoPaused`. -/
structure Document where
  process : Option InteractiveSceneProcess
  classic : Option Batch
  autoPaused : Bool

/-- The method `ClassicRenderer::running()`: `process && process->running()`. -/
def Document.classicRunning (d : Document) : Bool :=
  match d.classic with
  | some w => SceneProcess.running w
  | none => false

/-- The method `Document::pause(pause)`: on a resume a running batch process is paused; then
the interactive process, if any, gets `pause(pause)`. -/
def Document.pause (pause : Bool) (d : Document) : Document :=
  let d1 : Document :=
    if !pause && d.classicRunning then
      { d with classic := d.classic.map (SceneProcess.pause true) }
    else d
  { d1 with process := d1.process.map (fun proc => (proc.pause pause).1) }

/-- The method `Document::paused()`: the flag of the interactive process, false when there
is none. -/
def Document.paused (d : Document) : Bool :=
  match d.process with
  | some proc => proc.paused
  | none => false

/-- The method `Document::autoPause(pause)`. -/
def Document.autoPause (pause : Bool) (d : Document) : Document :=
  if pause then
    if !d.paused then { Document.pause true d with autoPaused := true } else d
  else
    if d.autoPaused then { Document.pause false d with autoPaused := false } else d

/-! ## Property records (`Properties`, libcore/properties.cpp) -/

/-- The variant `ElementData` of the value of a property.  Floating point values are exact
rationals; an animated transform is held by pointer and compared by pointer. -/
inductive ElementData where
  | boolean (v : Bool)
  | integer (v : Int)
  | float (v : ℚ)
  | point (v : List ℚ)
  | vector (v : List ℚ)
  | transform (v : List ℚ)
  | animatedTransform (pointer : Nat)
  | spectrum (v : List ℚ)
  | string (v : String)
  | data (pointer size : Nat)
  deriving DecidableEq

/-- The record `PropertyElement`. -/
structure PropertyElement where
  data : ElementData
  lastWrite : Int
  queried : Bool
  deriving DecidableEq

/-- The members of `Properties` that `operator==` reads: the plugin name, the id and the map
`*m_elements` from names to elements, as the list of its entries in the order of the keys. -/
structure Properties where
  pluginName : String
  id : String
  elements : List (String × PropertyElement)
  deriving DecidableEq

/-- The call `std::visit(EqualityVisitor(&first), second)`: the visitor is applied to the
value held by `second`; it yields the comparison of the two values when `first` holds a value
of the same alternative and false otherwise. -/
def EqualityVisitor.visit (first second : ElementData) : Bool :=
  match second, first with
  | ElementData.boolean v, ElementData.boolean v2 => v == v2
  | ElementData.integer v, ElementData.integer v2 => v == v2
  | ElementData.float v, ElementData.float v2 => v == v2
  | ElementData.point v, ElementData.point v2 => v == v2
  | ElementData.vector v, ElementData.vector v2 => v == v2
  | ElementData.transform v, ElementData.transform v2 => v == v2
  | ElementData.animatedTransform v, ElementData.animatedTransform v2 => v == v2
  | ElementData.spectrum v, ElementData.spectrum v2 => v == v2
  | ElementData.string v, ElementData.string v2 => v == v2
  | ElementData.data v s, ElementData.data v2 s2 => v == v2 && s == s2
  | _, _ => false

/-- A value-initialised `PropertyElement`, as `std::map::operator[]` creates it for a missing
key: the variant holds its first alternative, `bool`, with value false. -/
def PropertyElement.initial : PropertyElement :=
  { data := ElementData.boolean false, lastWrite := 0, queried := false }

/-- The call `(*m_elements)[name]` of `std::map::operator[]`: the element stored under
`name`; when there is none, a value-initialised element is inserted at the place of `name`
in the order of the keys.  The result is the element and the map after the call. -/
def Properties.subscript (name : String) :
    List (String × PropertyElement) → PropertyElement × List (String × PropertyElement)
  | [] => (PropertyElement.initial, [(name, PropertyElement.initial)])
  | (k, e) :: rest =>
    if k = name then (e, (k, e) :: rest)
    else if name.toList < k.toList then
      (PropertyElement.initial, (name, PropertyElement.initial) :: (k, e) :: rest)
    else
      let r := Properties.subscript name rest
      (r.1, (k, e) :: r.2)

/-- The loop of `Properties::operator==` over the elements of the left record: each is
compared with `(*p.m_elements)[it->first]`.  `theirs` is the map of the right record; the
result is the value returned and the map of the right record after the loop. -/
def Properties.compareElements :
    List (String × PropertyElement) → List (String × PropertyElement) →
      Bool × List (String × PropertyElement)
  | [], theirs => (true, theirs)
  | (name, first) :: rest, theirs =>
    let r := Properties.subscript name theirs
    if !EqualityVisitor.visit first.data r.1.data then (false, r.2)
    else Properties.compareElements rest r.2

/-- The method `Properties::operator==(p)` on two distinct records: the value returned and
the record `p` after the call. -/
def Properties.equals (self p : Properties) : Bool × Properties :=
  if self.pluginName ≠ p.pluginName ∨ self.id ≠ p.id
      ∨ self.elements.length ≠ p.elements.length then (false, p)
  else
    let r := Properties.compareElements self.elements p.elements
    (r.1, { p with elements := r.2 })

/-! ## Concrete inputs

The scenario of the specification: four worker slots, one shared buffer, and a kernel that
reports a progress of 10 samples per call and returns success. -/

/-- A kernel that reports 10 samples once per call, leaves the pixels alone, returns 0 and
always reallocates successfully. -/
def kernel10 : Kernel :=
  { render := fun _ _ _ => { progress := [10], write := fun px => px, rc := 0 }
    allocate := fun _ => true }

/-- A process built by the constructor on a machine with four cores, with the default
configuration (`maxThreads = -1`, single buffered) and two-pixel image blocks. -/
def process4 : InteractiveSceneProcess :=
  InteractiveSceneProcess.create kernel10 4 { sampleCount := some 4, scramble := none } [0, 0]
    { maxThreads := -1, doubleBuffered := false }

/-- The process of `process4`, but double buffered. -/
def process4Double : InteractiveSceneProcess :=
  InteractiveSceneProcess.create kernel10 4 { sampleCount := some 4, scramble := none } [0, 0]
    { maxThreads := -1, doubleBuffered := true }

/-- Controls with both flags supplied in which the abort flag reads true from the end of
the first round on. -/
def abortAfterFirstRound : Nat → Controls :=
  fun _ => { continu := some true, abort := some 1 }

/-- Controls with both flags supplied in which no stop is ever requested. -/
def neverStop : Nat → Controls :=
  fun _ => { continu := some true, abort := some 0 }

/-- A counter array whose slots are all zero. -/
def zeroSamples : Nat → ℚ := fun _ => 0

/-- A kernel that reports no progress at all, paints every pixel it is given with the value
1, returns 0 and always reallocates successfully. -/
def kernelIdle : Kernel :=
  { render := fun _ _ _ => { progress := [], write := fun px => px.map (fun _ => 1), rc := 0 }
    allocate := fun _ => true }

/-- The values of `lane->continu` and `restart` behind `abortAfterFirstRound`. -/
def restartAfterFirstRound : Nat → Bool × Int := fun _ => (true, 1)

/-- A render worker with nothing to synchronise whose counters hold the values left by an
earlier generation. -/
def renderer4 : Renderer :=
  { integration :=
      { process := process4, samples := [7, 7, 7, 7] }
    restart := 1, reconfig := false, pendingChanges := false, skipInit := false }

/-- The integration of a double-buffered document on a machine with four cores. -/
def integration4Double : Integration :=
  Integration.create kernel10 4 { sampleCount := some 4, scramble := none } [0, 0]
    { maxThreads := -1, doubleBuffered := true }

/-- A kernel like `kernel10` whose reallocation always fails. -/
def kernelNoRealloc : Kernel :=
  { render := fun _ _ _ => { progress := [10], write := fun px => px, rc := 0 }
    allocate := fun _ => false }

/-- A `Sync` object that counts the calls of its `sync()`, which returns 1. -/
def countingSync : Nat → Nat × Int := fun calls => (calls + 1, 1)

/-- A lane whose thread is running and for which no synchronisation is requested. -/
def lane0 : WorkLane :=
  { continu := true, started := true, stopped := false, awaiting_sync := 0 }

/-- A document whose lane thread is inside `render()`, with nothing to synchronise and no
request pending. -/
def shell0 : Shell :=
  { lane := lane0
    renderer := { renderer4 with restart := 0 }
    pc := LanePc.rendering
    trace := [] }

/-- The usual course of a scene change: the change is submitted, the lane thread leaves
`render()`, finds the change pending and parks in `synchronize()`; the controller's
`prepareFrame` synchronises; the lane thread wakes up and renders again. -/
def handshakeSchedule : List Action :=
  [ Action.controller ControllerAction.submitChanges,
    Action.lane LaneAction.finishRender,
    Action.lane LaneAction.enterWork,
    Action.lane LaneAction.testNeedsSync,
    Action.lane LaneAction.synchronize,
    Action.controller ControllerAction.prepareFrame,
    Action.lane LaneAction.wake,
    Action.lane LaneAction.testContinu,
    Action.lane LaneAction.testNeedsSync ]

/-- A course in which the wait of `synchronize()` times out twice.  After the first timeout the
lane thread reads `needsSync()` as true; before it takes the mutex the controller's
`prepareFrame` synchronises and resets the counter; the lane thread then increments the
counter, waits, times out, finds nothing to synchronise and enters `render()` with the counter
at 1.  A later scene change is then synchronised by the next `prepareFrame` while the lane
thread is inside `render()`. -/
def staleRequestSchedule : List Action :=
  [ Action.controller ControllerAction.submitChanges,
    Action.lane LaneAction.finishRender,
    Action.lane LaneAction.enterWork,
    Action.lane LaneAction.testNeedsSync,
    Action.lane LaneAction.synchronize,
    Action.lane LaneAction.wake,
    Action.lane LaneAction.testContinu,
    Action.lane LaneAction.testNeedsSync,
    Action.controller ControllerAction.prepareFrame,
    Action.lane LaneAction.synchronize,
    Action.lane LaneAction.wake,
    Action.lane LaneAction.testContinu,
    Action.lane LaneAction.testNeedsSync,
    Action.controller ControllerAction.submitChanges,
    Action.controller ControllerAction.prepareFrame ]

/-- A kernel like `kernel10` whose every run returns the error code 1. -/
def kernelFailing : Kernel :=
  { render := fun _ _ _ => { progress := [10], write := fun px => px, rc := 1 }
    allocate := fun _ => true }

/-- Controls with neither flag supplied. -/
def noFlags : Nat → Controls := fun _ => { continu := none, abort := none }

/-- A scheduler with eight workers that is running. -/
def scheduler8 : Scheduler := { isRunning := true, workerCount := 8, workersPerProcess := none }

/-- A batch process on which `renderAsync` was called once, and whose scheduler was then
paused. -/
def batchPaused : Batch :=
  SceneProcess.pause true (SceneProcess.renderAsync 0 (SceneProcess.create scheduler8))

/-- A document whose interactive process is the running process of the scenario. -/
def documentRunning : Document :=
  { process := some (process4.pause false).1, classic := none, autoPaused := false }

/-- A property record with one boolean property `a` of value false. -/
def propertiesA : Properties :=
  { pluginName := "diffuse", id := "material"
    elements := [("a", { data := ElementData.boolean false, lastWrite := 0, queried := false })] }

/-- A property record of the same plugin and id with one integer property `b` of value 5. -/
def propertiesB : Properties :=
  { pluginName := "diffuse", id := "material"
    elements := [("b", { data := ElementData.integer 5, lastWrite := 0, queried := false })] }

/-! ## Auxiliary notions used in the statements -/

/-- The fields of the process that no round of the loop changes. -/
def sameStatics (p q : InteractiveSceneProcess) : Prop :=
  q.paused = p.paused ∧ q.numActiveThreads = p.numActiveThreads ∧ q.maxThreads = p.maxThreads
    ∧ q.uniqueTargets = p.uniqueTargets ∧ q.framebuffers = p.framebuffers
    ∧ q.frambufferData = p.frambufferData ∧ q.framebuffersDouble = p.framebuffersDouble
    ∧ q.frambufferDataDouble = p.frambufferDataDouble ∧ q.workers = p.workers
    ∧ q.imageData = p.imageData

/-- The reconfigurations recorded in a log: the arguments `(scramble, multiplier)` of the
calls of `Scene::cloneSampler` made by the round loop, in order. -/
def reconfigurations (log : List Event) : List (Int × ℚ) :=
  log.filterMap (fun e => match e with
    | Event.reconfigure k m => some (k, m)
    | _ => none)

/-- The sampler prototype after `k` restarts of one `render()` call entered with the
prototype `proto`: restart `k + 1` replaces the prototype by
`Scene::cloneSampler(*samplerPrototype, ++scramble, 2.0f)`, where `scramble` becomes `k + 1`. -/
def restartPrototype (proto : Sampler) : Nat → Sampler
  | 0 => proto
  | k + 1 => Scene.cloneSampler (restartPrototype proto k) ((k : Int) + 1) 2

/-- The values stored into the counter slot of worker `tid` that a log records, in order. -/
def storesOf (tid : Nat) (log : List Event) : List ℚ :=
  log.filterMap (fun e => match e with
    | Event.store t v => if t = tid then some v else none
    | _ => none)

/-- The base `sppBase[tid]` with which the workers of the next round of state `s` run: zero
on the initial run, and the value of the counter at the end of the previous round
otherwise. -/
def nextBase (s : RenderState) (tid : Nat) : ℚ :=
  if s.initialRun then 0 else s.imageSamples tid

/-- The thread operations recorded in a log: the starts and joins of workers, in order. -/
def threadEvents (log : List Event) : List Event :=
  log.filter (fun e => match e with
    | Event.start _ => true
    | Event.join _ => true
    | _ => false)

/-- The workers that are running after the steps of `log` when those of `acc` were running
before: a start adds the worker, a join removes it. -/
def runningFrom (acc : List Nat) (log : List Event) : List Nat :=
  log.foldl (fun acc e => match e with
    | Event.start t => acc ++ [t]
    | Event.join t => acc.erase t
    | _ => acc) acc

/-- The workers that a log leaves running: started and not yet joined. -/
def running (log : List Event) : List Nat := runningFrom [] log

/-- The thread operations of one round of `n` workers: the starts of workers 0 to `n - 1`,
then the joins from worker `n - 1` down to worker 0. -/
def roundThreadEvents (n : Nat) : List Event :=
  (List.range n).map Event.start ++ (List.range n).reverse.map Event.join

/-- The image blocks cleared by the steps of a log, in order. -/
def clears (log : List Event) : List Nat :=
  log.filterMap (fun e => match e with
    | Event.clear b => some b
    | _ => none)

/-- The pixel contents after the workers `l` of round `round` have written, one after the
other, into the blocks that their slots of `framebuffers` refer to. -/
def roundWrites (K : Kernel) (n : Int) (round : Nat) (framebuffers : List Nat) (l : List Nat)
    (blocks : Nat → List ℚ) : Nat → List ℚ :=
  l.foldl (fun bl tid => Function.update bl (framebuffers.getD tid 0)
    ((K.render round tid n).write (bl (framebuffers.getD tid 0)))) blocks

/-- The arguments of one call of `render()`, with the number of rounds the call is followed
for. -/
structure RenderCall where
  kernel : Kernel
  controls : Nat → Controls
  imageSamples : Nat → ℚ
  numThreads : Int
  fuel : Nat

/-- A sequence of calls of `render()` on one process, each call on the process that the
previous call left; `none` when one of the calls is still running after its fuel. -/
def renderMany : List RenderCall → InteractiveSceneProcess → Option InteractiveSceneProcess
  | [], p => some p
  | c :: cs, p =>
    match p.render c.kernel c.controls c.imageSamples c.numThreads c.fuel with
    | none => none
    | some r => renderMany cs r.proc

/-- Three calls of `render()` of the scenario, with 2, 4 and 1 workers, each aborted after
its first round. -/
def threeCalls : List RenderCall :=
  [ { kernel := kernel10, controls := abortAfterFirstRound, imageSamples := zeroSamples
      numThreads := 2, fuel := 1 },
    { kernel := kernel10, controls := abortAfterFirstRound, imageSamples := zeroSamples
      numThreads := 4, fuel := 1 },
    { kernel := kernel10, controls := abortAfterFirstRound, imageSamples := zeroSamples
      numThreads := 1, fuel := 1 } ]

/-- The kernel `K` with the return code of every run of round `k` replaced by 0. -/
def Kernel.succeedAt (K : Kernel) (k : Nat) : Kernel :=
  { render := fun r tid n =>
      if r = k then { K.render r tid n with rc := 0 } else K.render r tid n
    allocate := K.allocate }

/-- The controls `ctl` with the abort flag reading true after round `k`. -/
def stopAt (ctl : Nat → Controls) (k : Nat) : Nat → Controls :=
  fun r => if r = k then { continu := (ctl r).continu, abort := some 1 } else ctl r

/-- The loop state without the local `returnCode`. -/
def forgetCode (s : RenderState) : RenderState := { s with returnCode := 0 }

/-- The jobs, with their queues, that are active after the calls of `log` when those of `acc`
were active before: a job is active from its start until its queue has been waited for. -/
def activeFrom (acc : List (Nat × Nat)) (log : List BatchEvent) : List (Nat × Nat) :=
  log.foldl (fun acc e => match e with
    | BatchEvent.startJob j q => acc ++ [(j, q)]
    | BatchEvent.waitLeft q _ => acc.filter (fun jq => decide (jq.2 ≠ q))
    | _ => acc) acc

/-- The jobs that a record of calls leaves active. -/
def activeJobs (log : List BatchEvent) : List Nat := (activeFrom [] log).map (fun jq => jq.1)

/-- The sleeps of the polling loop when the preview is never up to date. -/
def pollSleeps : List Int := [5, 10, 20, 36, 52, 68, 84, 100, 116, 132, 148, 164]

/-- The shape of the buffer sets that the constructor establishes and `render()` keeps: there
is at least one worker slot, each configured set has one slot per worker, and no image block
of the double set is also in the active set. -/
def InteractiveSceneProcess.WellFormed (p : InteractiveSceneProcess) : Prop :=
  0 < p.maxThreads
    ∧ p.framebuffers.length = p.maxThreads.toNat
    ∧ (p.framebuffersDouble ≠ [] → p.framebuffersDouble.length = p.maxThreads.toNat)
    ∧ ∀ b ∈ p.framebuffersDouble, b ∉ p.framebuffers

/-! ## Frame lemmas of the round loop -/

section Frame

variable (K : Kernel) (numThreads : Int)

theorem foldl_parallel_execution_frame (l : List Nat) (s : RenderState) :
    let t := l.foldl (parallel_execution K numThreads) s
    t.initialRun = s.initialRun ∧ t.moreRounds = s.moreRounds ∧ t.scramble = s.scramble
      ∧ t.rounds = s.rounds
      ∧ t.proc.paused = s.proc.paused ∧ t.proc.numActiveThreads = s.proc.numActiveThreads
      ∧ t.proc.maxThreads = s.proc.maxThreads ∧ t.proc.uniqueTargets = s.proc.uniqueTargets
      ∧ t.proc.samplerPrototype = s.proc.samplerPrototype ∧ t.proc.samplers = s.proc.samplers
      ∧ t.proc.framebuffers = s.proc.framebuffers
      ∧ t.proc.frambufferData = s.proc.frambufferData
      ∧ t.proc.sppBase = s.proc.sppBase
      ∧ t.proc.framebuffersDouble = s.proc.framebuffersDouble
      ∧ t.proc.frambufferDataDouble = s.proc.frambufferDataDouble
      ∧ t.proc.workers = s.proc.workers ∧ t.proc.imageData = s.proc.imageData := by
  induction l generalizing s with
  | nil => simp
  | cons a l ih =>
    have h := ih (parallel_execution K numThreads s a)
    simp only [List.foldl_cons]
    simpa [parallel_execution] using h

theorem sameStatics_refl (p : InteractiveSceneProcess) : sameStatics p p := by
  simp [sameStatics]

theorem sameStatics_trans {p q r : InteractiveSceneProcess} (h1 : sameStatics p q)
    (h2 : sameStatics q r) : sameStatics p r := by
  simp only [sameStatics] at *
  obtain ⟨a1, a2, a3, a4, a5, a6, a7, a8, a9, a10⟩ := h1
  obtain ⟨b1, b2, b3, b4, b5, b6, b7, b8, b9, b10⟩ := h2
  exact ⟨b1.trans a1, b2.trans a2, b3.trans a3, b4.trans a4, b5.trans a5, b6.trans a6,
    b7.trans a7, b8.trans a8, b9.trans a9, b10.trans a10⟩

theorem runWorkers_frame (s : RenderState) :
    let t := runWorkers K numThreads s
    t.initialRun = s.initialRun ∧ t.moreRounds = s.moreRounds ∧ t.scramble = s.scramble
      ∧ t.rounds = s.rounds ∧ t.proc.samplerPrototype = s.proc.samplerPrototype
      ∧ t.proc.samplers = s.proc.samplers ∧ t.proc.sppBase = s.proc.sppBase
      ∧ sameStatics s.proc t.proc := by
  have h := foldl_parallel_execution_frame K numThreads (List.range numThreads.toNat)
    { s with log := s.log ++ (List.range numThreads.toNat).map Event.start }
  simp only at h
  obtain ⟨a1, a2, a3, a4, h1, h2, h3, h4, b1, b2, h5, h6, b3, h7, h8, h9, h10⟩ := h
  simp only [runWorkers, sameStatics]
  exact ⟨a1, a2, a3, a4, b1, b2, b3, h1, h2, h3, h4, h5, h6, h7, h8, h9, h10⟩

theorem renderRound_statics (c : Controls) (s : RenderState) :
    sameStatics s.proc (renderRound K c numThreads s).proc := by
  have h := (runWorkers_frame K numThreads (roundBase numThreads s)).2.2.2.2.2.2.2
  have h0 : sameStatics s.proc (roundBase numThreads s).proc := by
    simp [sameStatics, roundBase]
  refine sameStatics_trans (sameStatics_trans h0 h) ?_
  unfold renderRound restartDecision
  simp only [sameStatics, InteractiveSceneProcess.updateSamplersAndIntegrator]
  split <;> simp

theorem renderRounds_statics (ctl : Nat → Controls) (k : Nat) (s : RenderState) :
    sameStatics s.proc (renderRounds K ctl numThreads k s).proc := by
  induction k generalizing s with
  | zero => exact sameStatics_refl _
  | succ k ih =>
    unfold renderRounds
    split
    · exact sameStatics_trans (renderRound_statics K numThreads _ s) (ih _)
    · exact sameStatics_refl _

theorem renderRounds_succ (ctl : Nat → Controls) (k : Nat) (s : RenderState) :
    renderRounds K ctl numThreads (k + 1) s =
      if (renderRounds K ctl numThreads k s).moreRounds then
        renderRound K (ctl (renderRounds K ctl numThreads k s).rounds) numThreads
          (renderRounds K ctl numThreads k s)
      else renderRounds K ctl numThreads k s := by
  induction k generalizing s with
  | zero => simp [renderRounds]
  | succ k ih =>
    rw [renderRounds]
    by_cases h : s.moreRounds = true
    · rw [if_pos h, ih]
      conv_rhs => rw [renderRounds, if_pos h]
    · rw [if_neg h]
      have h2 : renderRounds K ctl numThreads (k + 1) s = s := by
        rw [renderRounds, if_neg h]
      rw [h2, if_neg h]

theorem restartDecision_stop (c : Controls) (s : RenderState)
    (h : moreRoundsAfterJoin s.returnCode c = false) :
    restartDecision K c s =
      { s with initialRun := false, moreRounds := false, rounds := s.rounds + 1 } := by
  simp [restartDecision, h]

theorem restartDecision_more (c : Controls) (s : RenderState)
    (h : moreRoundsAfterJoin s.returnCode c = true) :
    restartDecision K c s =
      { s with
        proc := { s.proc with
          samplerPrototype := Scene.cloneSampler s.proc.samplerPrototype (s.scramble + 1) 2
          samplers := s.proc.samplers.map
            (fun _ => Scene.cloneSampler s.proc.samplerPrototype (s.scramble + 1) 2) }
        initialRun := false
        moreRounds := K.allocate (s.scramble + 1)
        scramble := s.scramble + 1
        rounds := s.rounds + 1
        log := s.log ++ [Event.reconfigure (s.scramble + 1) 2] } := by
  simp [restartDecision, h, InteractiveSceneProcess.updateSamplersAndIntegrator]

theorem renderRound_rounds (c : Controls) (s : RenderState) :
    (renderRound K c numThreads s).rounds = s.rounds + 1 := by
  have h := (runWorkers_frame K numThreads (roundBase numThreads s)).2.2.2.1
  unfold renderRound
  cases hm : moreRoundsAfterJoin (runWorkers K numThreads (roundBase numThreads s)).returnCode c
  · rw [restartDecision_stop K c _ hm]
    show (runWorkers K numThreads (roundBase numThreads s)).rounds + 1 = s.rounds + 1
    rw [h]; rfl
  · rw [restartDecision_more K c _ hm]
    show (runWorkers K numThreads (roundBase numThreads s)).rounds + 1 = s.rounds + 1
    rw [h]; rfl

theorem renderRounds_rounds (ctl : Nat → Controls) (k : Nat) (s : RenderState)
    (h : (renderRounds K ctl numThreads k s).moreRounds = true) :
    (renderRounds K ctl numThreads k s).rounds = s.rounds + k := by
  induction k with
  | zero => simp [renderRounds]
  | succ k ih =>
    rw [renderRounds_succ] at h ⊢
    by_cases hk : (renderRounds K ctl numThreads k s).moreRounds = true
    · rw [if_pos hk, renderRound_rounds, ih hk]; ring
    · rw [if_neg hk] at h; exact absurd h hk

theorem foldl_parallel_execution_returnCode (l : List Nat) (s : RenderState) :
    (l.foldl (parallel_execution K numThreads) s).returnCode = 0 ↔
      s.returnCode = 0 ∧ ∀ t ∈ l, (K.render s.rounds t numThreads).rc = 0 := by
  induction l generalizing s with
  | nil => simp
  | cons a l ih =>
    rw [List.foldl_cons, ih]
    have hr : (parallel_execution K numThreads s a).rounds = s.rounds := rfl
    have hc : (parallel_execution K numThreads s a).returnCode =
        if (K.render s.rounds a numThreads).rc ≠ 0 then (K.render s.rounds a numThreads).rc
        else s.returnCode := rfl
    rw [hr, hc]
    by_cases h0 : (K.render s.rounds a numThreads).rc = 0
    · simp [h0]
    · simp [h0]

theorem runWorkers_returnCode (s : RenderState) :
    (runWorkers K numThreads s).returnCode = 0 ↔
      s.returnCode = 0 ∧ ∀ t, t < numThreads.toNat → (K.render s.rounds t numThreads).rc = 0 := by
  have h := foldl_parallel_execution_returnCode K numThreads (List.range numThreads.toNat)
    { s with log := s.log ++ (List.range numThreads.toNat).map Event.start }
  simp only [List.mem_range] at h
  simpa [runWorkers] using h

theorem foldl_parallel_execution_reconfigurations (l : List Nat) (s : RenderState) :
    reconfigurations (l.foldl (parallel_execution K numThreads) s).log
      = reconfigurations s.log := by
  induction l generalizing s with
  | nil => simp
  | cons a l ih =>
    rw [List.foldl_cons, ih]
    simp [parallel_execution, reconfigurations, List.filterMap_append, List.filterMap_map]

theorem runWorkers_reconfigurations (s : RenderState) :
    reconfigurations (runWorkers K numThreads s).log = reconfigurations s.log := by
  have h := foldl_parallel_execution_reconfigurations K numThreads
    (List.range numThreads.toNat)
    { s with log := s.log ++ (List.range numThreads.toNat).map Event.start }
  simp only [runWorkers]
  rw [reconfigurations, List.filterMap_append, ← reconfigurations, h]
  simp [reconfigurations, List.filterMap_append, List.filterMap_map]

theorem parallel_execution_imageSamples (s : RenderState) (tid i : Nat) :
    (parallel_execution K numThreads s tid).imageSamples i =
      if i = tid then
        (workerStores K numThreads s.rounds (s.proc.sppBase.getD tid 0) tid).getLast?.getD
          (s.imageSamples i)
      else s.imageSamples i := by
  show (match (workerStores K numThreads s.rounds (s.proc.sppBase.getD tid 0) tid).getLast? with
    | some v => Function.update s.imageSamples tid v
    | none => s.imageSamples) i = _
  generalize (workerStores K numThreads s.rounds (s.proc.sppBase.getD tid 0) tid).getLast? = o
  cases o with
  | none => by_cases hi : i = tid <;> simp [hi]
  | some v => by_cases hi : i = tid <;> simp [hi, Function.update]

theorem parallel_execution_log (s : RenderState) (tid : Nat) :
    (parallel_execution K numThreads s tid).log =
      s.log ++ (workerStores K numThreads s.rounds (s.proc.sppBase.getD tid 0) tid).map
        (Event.store tid) := rfl

theorem storesOf_append (i : Nat) (l1 l2 : List Event) :
    storesOf i (l1 ++ l2) = storesOf i l1 ++ storesOf i l2 := by
  simp [storesOf, List.filterMap_append]

theorem storesOf_map_store (i tid : Nat) (vs : List ℚ) :
    storesOf i (vs.map (Event.store tid)) = if tid = i then vs else [] := by
  induction vs with
  | nil => simp [storesOf]
  | cons v vs ih =>
    have hc : storesOf i ((v :: vs).map (Event.store tid))
        = (if tid = i then [v] else []) ++ storesOf i (vs.map (Event.store tid)) := by
      by_cases h : tid = i <;> simp [storesOf, List.filterMap_cons, h]
    rw [hc, ih]
    by_cases h : tid = i <;> simp [h]

theorem storesOf_map_start (i : Nat) (l : List Nat) :
    storesOf i (l.map Event.start) = [] := by
  simp [storesOf, List.filterMap_map]

theorem storesOf_map_join (i : Nat) (l : List Nat) :
    storesOf i (l.map Event.join) = [] := by
  simp [storesOf, List.filterMap_map]

theorem foldl_range_parallel_execution (m : Nat) (s : RenderState) (i : Nat) :
    let t := (List.range m).foldl (parallel_execution K numThreads) s
    t.imageSamples i =
        (if i < m then
          (workerStores K numThreads s.rounds (s.proc.sppBase.getD i 0) i).getLast?.getD
            (s.imageSamples i)
        else s.imageSamples i)
      ∧ storesOf i t.log = storesOf i s.log ++
          (if i < m then workerStores K numThreads s.rounds (s.proc.sppBase.getD i 0) i
           else []) := by
  induction m with
  | zero => simp
  | succ m ih =>
    obtain ⟨ih1, ih2⟩ := ih
    have hf := foldl_parallel_execution_frame K numThreads (List.range m) s
    simp only at hf
    obtain ⟨-, -, -, hr, -, -, -, -, -, -, -, -, hb, -⟩ := hf
    simp only [List.range_succ, List.foldl_append, List.foldl_cons, List.foldl_nil]
    rw [parallel_execution_imageSamples, parallel_execution_log, storesOf_append,
      storesOf_map_store, hr, hb, ih1, ih2]
    constructor
    · by_cases h1 : i = m
      · subst h1; simp
      · by_cases h2 : i < m
        · have : i < m + 1 := by omega
          simp [h1, h2, this]
        · have : ¬ i < m + 1 := by omega
          simp [h1, h2, this]
    · by_cases h1 : i = m
      · subst h1; simp
      · have h1b : ¬ m = i := fun h => h1 h.symm
        by_cases h2 : i < m
        · have : i < m + 1 := by omega
          simp [h1b, h2, this]
        · have : ¬ i < m + 1 := by omega
          simp [h1b, h2, this]

theorem runWorkers_counter (s : RenderState) (i : Nat) :
    let t := runWorkers K numThreads s
    t.imageSamples i =
        (if i < numThreads.toNat then
          (workerStores K numThreads s.rounds (s.proc.sppBase.getD i 0) i).getLast?.getD
            (s.imageSamples i)
        else s.imageSamples i)
      ∧ storesOf i t.log = storesOf i s.log ++
          (if i < numThreads.toNat then
            workerStores K numThreads s.rounds (s.proc.sppBase.getD i 0) i
           else []) := by
  have h := foldl_range_parallel_execution K numThreads numThreads.toNat
    { s with log := s.log ++ (List.range numThreads.toNat).map Event.start } i
  simp only at h
  obtain ⟨h1, h2⟩ := h
  simp only [runWorkers]
  refine ⟨h1, ?_⟩
  rw [storesOf_append, h2, storesOf_append, storesOf_map_start, storesOf_map_join]
  simp

theorem roundBase_sppBase (s : RenderState) (i : Nat) (hi : i < numThreads.toNat) :
    (roundBase numThreads s).proc.sppBase.getD i 0 = nextBase s i := by
  unfold roundBase nextBase
  by_cases h : s.initialRun = true
  · simp [h, List.getD_eq_getElem?_getD, List.getElem?_replicate, hi]
  · simp [h, copy_n, List.getD_eq_getElem?_getD, List.getElem?_append, hi]

theorem renderRound_counter (c : Controls) (s : RenderState) (i : Nat) :
    let t := renderRound K c numThreads s
    t.imageSamples i =
        (if i < numThreads.toNat then
          (workerStores K numThreads s.rounds (nextBase s i) i).getLast?.getD (s.imageSamples i)
        else s.imageSamples i)
      ∧ storesOf i t.log = storesOf i s.log ++
          (if i < numThreads.toNat then workerStores K numThreads s.rounds (nextBase s i) i
           else [])
      ∧ t.initialRun = false := by
  obtain ⟨h1, h2⟩ := runWorkers_counter K numThreads (roundBase numThreads s) i
  have e1 : (roundBase numThreads s).rounds = s.rounds := rfl
  have e2 : (roundBase numThreads s).imageSamples = s.imageSamples := rfl
  have e3 : (roundBase numThreads s).log = s.log := rfl
  rw [e1, e2] at h1
  rw [e1, e3] at h2
  have h1b : (runWorkers K numThreads (roundBase numThreads s)).imageSamples i =
      (if i < numThreads.toNat then
          (workerStores K numThreads s.rounds (nextBase s i) i).getLast?.getD (s.imageSamples i)
        else s.imageSamples i) := by
    rw [h1]
    by_cases hi : i < numThreads.toNat
    · rw [if_pos hi, if_pos hi, roundBase_sppBase numThreads s i hi]
    · rw [if_neg hi, if_neg hi]
  have h2b : storesOf i (runWorkers K numThreads (roundBase numThreads s)).log =
      storesOf i s.log ++
          (if i < numThreads.toNat then workerStores K numThreads s.rounds (nextBase s i) i
           else []) := by
    rw [h2]
    by_cases hi : i < numThreads.toNat
    · rw [if_pos hi, if_pos hi, roundBase_sppBase numThreads s i hi]
    · rw [if_neg hi, if_neg hi]
  simp only [renderRound]
  cases hm : moreRoundsAfterJoin (runWorkers K numThreads (roundBase numThreads s)).returnCode c
  · rw [restartDecision_stop K c _ hm]
    exact ⟨h1b, h2b, rfl⟩
  · rw [restartDecision_more K c _ hm]
    refine ⟨h1b, ?_, rfl⟩
    show storesOf i (_ ++ [Event.reconfigure _ 2]) = _
    rw [storesOf_append, h2b]
    simp [storesOf]

theorem renderRound_stop (c : Controls) (s : RenderState)
    (h : moreRoundsAfterJoin (runWorkers K numThreads (roundBase numThreads s)).returnCode c
      = false) :
    let t := renderRound K c numThreads s
    t.moreRounds = false ∧ t.scramble = s.scramble
      ∧ reconfigurations t.log = reconfigurations s.log
      ∧ t.proc.samplers = s.proc.samplers
      ∧ t.proc.samplerPrototype = s.proc.samplerPrototype := by
  obtain ⟨-, -, h3, -, h5, h6, -, -⟩ := runWorkers_frame K numThreads (roundBase numThreads s)
  have hl := runWorkers_reconfigurations K numThreads (roundBase numThreads s)
  simp only [renderRound]
  rw [restartDecision_stop K c _ h]
  exact ⟨rfl, h3, hl, h6, h5⟩

theorem renderRound_more (c : Controls) (s : RenderState)
    (h : moreRoundsAfterJoin (runWorkers K numThreads (roundBase numThreads s)).returnCode c
      = true) :
    let t := renderRound K c numThreads s
    t.moreRounds = K.allocate (s.scramble + 1) ∧ t.scramble = s.scramble + 1
      ∧ reconfigurations t.log = reconfigurations s.log ++ [(s.scramble + 1, 2)]
      ∧ t.returnCode = 0 := by
  obtain ⟨-, -, h3, -, -, -, -, -⟩ := runWorkers_frame K numThreads (roundBase numThreads s)
  have hl := runWorkers_reconfigurations K numThreads (roundBase numThreads s)
  have h3 : (runWorkers K numThreads (roundBase numThreads s)).scramble = s.scramble := h3
  have hl : reconfigurations (runWorkers K numThreads (roundBase numThreads s)).log
      = reconfigurations s.log := hl
  have hrc : (runWorkers K numThreads (roundBase numThreads s)).returnCode = 0 := by
    simp only [moreRoundsAfterJoin, Bool.and_eq_true, decide_eq_true_eq] at h
    exact h.1.1
  simp only [renderRound]
  rw [restartDecision_more K c _ h]
  refine ⟨by simp [h3], by simp [h3], ?_, hrc⟩
  show reconfigurations (_ ++ [Event.reconfigure _ 2]) = _
  rw [reconfigurations, List.filterMap_append, ← reconfigurations, hl, h3]
  simp

theorem renderRound_returnCode (c : Controls) (s : RenderState)
    (h : (renderRound K c numThreads s).moreRounds = true) :
    (renderRound K c numThreads s).returnCode = 0 := by
  cases hm : moreRoundsAfterJoin (runWorkers K numThreads (roundBase numThreads s)).returnCode c
  · rw [(renderRound_stop K numThreads c s hm).1] at h; exact absurd h (by simp)
  · exact (renderRound_more K numThreads c s hm).2.2.2

theorem renderRounds_returnCode (ctl : Nat → Controls) (k : Nat) (s : RenderState)
    (h0 : s.returnCode = 0) (h : (renderRounds K ctl numThreads k s).moreRounds = true) :
    (renderRounds K ctl numThreads k s).returnCode = 0 := by
  cases k with
  | zero => simpa [renderRounds] using h0
  | succ k =>
    rw [renderRounds_succ] at h ⊢
    by_cases hk : (renderRounds K ctl numThreads k s).moreRounds = true
    · rw [if_pos hk] at h ⊢
      exact renderRound_returnCode K numThreads _ _ h
    · rw [if_neg hk] at h; exact absurd h hk

theorem renderRounds_stable (ctl : Nat → Controls) (k m : Nat) (s : RenderState)
    (h : (renderRounds K ctl numThreads k s).moreRounds = false) (hm : k ≤ m) :
    renderRounds K ctl numThreads m s = renderRounds K ctl numThreads k s := by
  induction m with
  | zero =>
    have : k = 0 := by omega
    subst this; rfl
  | succ m ih =>
    by_cases hk : k = m + 1
    · subst hk; rfl
    · have hle : k ≤ m := by omega
      rw [renderRounds_succ, ih hle, h]
      simp

theorem renderAfter_succ (ctl : Nat → Controls) (p : InteractiveSceneProcess)
    (samples : Nat → ℚ) (k : Nat)
    (hrun : (p.renderAfter K ctl samples numThreads k).moreRounds = true) :
    (p.renderAfter K ctl samples numThreads k).rounds = k
      ∧ (p.renderAfter K ctl samples numThreads k).returnCode = 0
      ∧ p.renderAfter K ctl samples numThreads (k + 1)
          = renderRound K (ctl k) (clampThreads p.maxThreads numThreads)
              (p.renderAfter K ctl samples numThreads k) := by
  have hrounds : (p.renderAfter K ctl samples numThreads k).rounds = k := by
    have h := renderRounds_rounds K (clampThreads p.maxThreads numThreads) ctl k
      (renderBegin p samples numThreads) hrun
    have hb : (renderBegin p samples numThreads).rounds = 0 := rfl
    rw [hb, zero_add] at h
    exact h
  refine ⟨hrounds, ?_, ?_⟩
  · exact renderRounds_returnCode K (clampThreads p.maxThreads numThreads) ctl k
      (renderBegin p samples numThreads) rfl hrun
  · show renderRounds K ctl _ (k + 1) _ = _
    rw [renderRounds_succ]
    have hrun2 : (renderRounds K ctl (clampThreads p.maxThreads numThreads) k
        (renderBegin p samples numThreads)).moreRounds = true := hrun
    rw [if_pos hrun2]
    have hr2 : (renderRounds K ctl (clampThreads p.maxThreads numThreads) k
        (renderBegin p samples numThreads)).rounds = k := hrounds
    rw [hr2]
    rfl

end Frame

/-! ## The clamp and the epilogue -/

theorem clampThreads_eq (maxThreads numThreads : Int) :
    clampThreads maxThreads numThreads
      = if 0 ≤ numThreads ∧ numThreads ≤ maxThreads then numThreads else maxThreads := by
  unfold clampThreads
  split_ifs with h1 h2 h2
  · omega
  · rfl
  · rfl
  · omega

theorem renderEnd_statics (n : Int) (s : RenderState) :
    (renderEnd n s).proc.numActiveThreads = s.proc.numActiveThreads
      ∧ (renderEnd n s).proc.maxThreads = s.proc.maxThreads
      ∧ (renderEnd n s).proc.paused = s.proc.paused
      ∧ (renderEnd n s).proc.blocks = s.proc.blocks
      ∧ (renderEnd n s).imageSamples = s.imageSamples := by
  unfold renderEnd
  split_ifs <;> simp

theorem render_of_stopped (K : Kernel) (ctl : Nat → Controls) (p : InteractiveSceneProcess)
    (samples : Nat → ℚ) (numThreads : Int) (k fuel : Nat)
    (h : (p.renderAfter K ctl samples numThreads k).moreRounds = false) (hfuel : k ≤ fuel) :
    p.render K ctl samples numThreads fuel
      = some (renderEnd (clampThreads p.maxThreads numThreads)
          (p.renderAfter K ctl samples numThreads k)) := by
  have hst := renderRounds_stable K (clampThreads p.maxThreads numThreads) ctl k fuel
    (renderBegin p samples numThreads) h hfuel
  have hst2 : p.renderAfter K ctl samples numThreads fuel
      = p.renderAfter K ctl samples numThreads k := hst
  simp only [InteractiveSceneProcess.render]
  rw [hst2, h]
  simp

/-! ## The restart decision (C1) -/

theorem moreRoundsAfterJoin_both (rc : Int) (c : Bool) (a : Int) :
    moreRoundsAfterJoin rc { continu := some c, abort := some a } = true
      ↔ rc = 0 ∧ c = true ∧ a = 0 := by
  simp [moreRoundsAfterJoin, and_assoc]

/-- C1.  In `render()` with both control flags supplied, once the workers of a round have
all returned, reconfiguration is entered (a further round is attempted) if and only if no
worker returned a non-zero status, the continue flag reads true and the abort flag reads
false; in that case the next round starts when the reallocation succeeds.  In every other
case the loop terminates without reconfiguring the sample generators, and `render()`
returns. -/
theorem render_restart_iff (K : Kernel) (ctl : Nat → Controls) (p : InteractiveSceneProcess)
    (samples : Nat → ℚ) (numThreads : Int) (k : Nat) (c : Bool) (a : Int)
    (hrun : (p.renderAfter K ctl samples numThreads k).moreRounds = true)
    (hctl : ctl k = { continu := some c, abort := some a }) :
    let n := clampThreads p.maxThreads numThreads
    let s := p.renderAfter K ctl samples numThreads k
    let t := p.renderAfter K ctl samples numThreads (k + 1)
    let ok := (∀ tid, tid < n.toNat → (K.render k tid n).rc = 0) ∧ c = true ∧ a = 0
    (reconfigurations t.log = reconfigurations s.log ++ [(s.scramble + 1, 2)] ↔ ok)
      ∧ (ok → t.moreRounds = K.allocate (s.scramble + 1))
      ∧ (¬ ok → t.moreRounds = false
          ∧ reconfigurations t.log = reconfigurations s.log
          ∧ t.scramble = s.scramble
          ∧ t.proc.samplers = s.proc.samplers
          ∧ t.proc.samplerPrototype = s.proc.samplerPrototype
          ∧ ∀ fuel, k + 1 ≤ fuel → (p.render K ctl samples numThreads fuel).isSome = true) := by
  intro n s t ok
  obtain ⟨hrounds, hrc, ht⟩ := renderAfter_succ K numThreads ctl p samples k hrun
  have hrounds : s.rounds = k := hrounds
  have hrc : s.returnCode = 0 := hrc
  have ht : t = renderRound K (ctl k) n s := ht
  have hw := runWorkers_returnCode K n (roundBase n s)
  have hdec : moreRoundsAfterJoin (runWorkers K n (roundBase n s)).returnCode (ctl k) = true
      ↔ ok := by
    rw [hctl, moreRoundsAfterJoin_both, hw]
    have e1 : (roundBase n s).returnCode = s.returnCode := rfl
    have e2 : (roundBase n s).rounds = s.rounds := rfl
    rw [e1, e2, hrc, hrounds]
    simp [ok]
  by_cases hok : ok
  · have hm := hdec.mpr hok
    obtain ⟨m1, -, m3, -⟩ := renderRound_more K n (ctl k) s hm
    rw [← ht] at m1 m3
    exact ⟨⟨fun _ => hok, fun _ => m3⟩, fun _ => m1, fun h => absurd hok h⟩
  · have hm : moreRoundsAfterJoin (runWorkers K n (roundBase n s)).returnCode (ctl k) = false := by
      cases hx : moreRoundsAfterJoin (runWorkers K n (roundBase n s)).returnCode (ctl k)
      · rfl
      · exact absurd (hdec.mp hx) hok
    obtain ⟨m1, m2, m3, m4, m5⟩ := renderRound_stop K n (ctl k) s hm
    rw [← ht] at m1 m2 m3 m4 m5
    refine ⟨⟨fun h => ?_, fun h => absurd h hok⟩, fun h => absurd h hok,
      fun _ => ⟨m1, m3, m2, m4, m5, ?_⟩⟩
    · rw [m3] at h
      have := congrArg List.length h
      simp at this
    · intro fuel hfuel
      have hst := renderRounds_stable K n ctl (k + 1) fuel (renderBegin p samples numThreads)
        m1 hfuel
      simp only [InteractiveSceneProcess.render, InteractiveSceneProcess.renderAfter]
      rw [hst]
      have m1b : (renderRounds K ctl n (k + 1) (renderBegin p samples numThreads)).moreRounds
          = false := m1
      simp [n, m1b]

/-- Witness of C1: on the scenario process, with abort read as set after the first round,
the hypotheses hold at round 0 and the loop stops without reconfiguration. -/
theorem render_restart_iff_witness :
    (process4.renderAfter kernel10 abortAfterFirstRound zeroSamples 4 0).moreRounds = true
      ∧ (process4.renderAfter kernel10 abortAfterFirstRound zeroSamples 4 1).moreRounds = false
      ∧ reconfigurations (process4.renderAfter kernel10 abortAfterFirstRound zeroSamples 4 1).log
          = reconfigurations
              (process4.renderAfter kernel10 abortAfterFirstRound zeroSamples 4 0).log :=
  have h := (render_restart_iff kernel10 abortAfterFirstRound process4 zeroSamples 4 0 true 1
    rfl rfl).2.2 (fun hok => absurd hok.2.2 (by decide))
  ⟨rfl, h.1, h.2.1⟩

/-! ## The loop keeps refining (C2) -/

theorem floor_intCast (n : Int) : Rat.floor (n : ℚ) = n := by
  have h : ⌊(n : ℚ)⌋ = n := Int.floor_intCast n
  exact h

theorem roundTiesEven_intCast (n : Int) : roundTiesEven (n : ℚ) = n := by
  unfold roundTiesEven
  rw [floor_intCast, sub_self, if_pos (by norm_num)]

theorem truncToInt_intCast (n : Int) : truncToInt (n : ℚ) = n := by
  unfold truncToInt
  split_ifs with h
  · exact floor_intCast n
  · have hneg : (-(n : ℚ)) = ((-n : Int) : ℚ) := by push_cast; ring
    rw [hneg, floor_intCast]; ring

/-- An integer with at most 24 significant bits is a single precision value: rounding leaves
it unchanged. -/
theorem roundFloat_exact (m : Int) (j : Nat) (hm : |m| < 2 ^ 24) :
    roundFloat ((m * 2 ^ j : Int) : ℚ) = ((m * 2 ^ j : Int) : ℚ) := by
  by_cases hm0 : m = 0
  · subst hm0
    have h0 := roundTiesEven_intCast 0
    rw [Int.cast_zero] at h0
    unfold roundFloat
    rw [zero_mul, Int.cast_zero, zero_div, h0, Int.cast_zero, zero_mul]
  · have hx : (0 : ℚ) < |((m * 2 ^ j : Int) : ℚ)| := by
      rw [abs_pos]
      push_cast
      exact mul_ne_zero (by exact_mod_cast hm0) (by positivity)
    have h1 : (1 : ℚ) ≤ |((m * 2 ^ j : Int) : ℚ)| := by
      have hone : (1 : Int) ≤ |m * 2 ^ j| := by
        have hne : m * 2 ^ j ≠ 0 := mul_ne_zero hm0 (by positivity)
        exact Int.one_le_abs hne
      exact_mod_cast hone
    have hlo : (0 : Int) ≤ Int.log 2 |((m * 2 ^ j : Int) : ℚ)| := by
      rw [← Int.zpow_le_iff_le_log (by norm_num) hx]
      simpa using h1
    have hhi : Int.log 2 |((m * 2 ^ j : Int) : ℚ)| < 24 + j := by
      rw [← Int.lt_zpow_iff_log_lt (by norm_num) hx]
      have hlt : |m * 2 ^ j| < (2 : Int) ^ (24 + j) := by
        rw [abs_mul, abs_of_pos (by positivity : (0 : Int) < 2 ^ j), pow_add]
        exact mul_lt_mul_of_pos_right hm (by positivity)
      have h2 : ((|m * 2 ^ j| : Int) : ℚ) < (((2 : Int) ^ (24 + j) : Int) : ℚ) := by
        exact_mod_cast hlt
      have h3 : (((24 + j : Nat) : Int)) = (24 : Int) + j := by push_cast; ring
      rw [← h3, zpow_natCast]
      push_cast at h2 ⊢
      exact h2
    unfold roundFloat
    generalize Int.log 2 |((m * 2 ^ j : Int) : ℚ)| = e at hlo hhi
    rw [max_eq_left (by omega)]
    obtain ⟨d, hd⟩ : ∃ d : Nat, (d : Int) = 23 + j - e := ⟨(23 + j - e).toNat, by omega⟩
    have he : (j : Int) = (d : Int) + (e - 23) := by omega
    have hdiv : ((m * 2 ^ j : Int) : ℚ) / (2 : ℚ) ^ (e - 23) = ((m * 2 ^ d : Int) : ℚ) := by
      push_cast
      rw [← zpow_natCast (2 : ℚ) j, he, zpow_add₀ (by norm_num), zpow_natCast]
      field_simp
      rw [mul_assoc]
    rw [hdiv, roundTiesEven_intCast]
    push_cast
    rw [← zpow_natCast (2 : ℚ) j, he, zpow_add₀ (by norm_num), zpow_natCast]
    ring

theorem floatToInt_intCast (n : Int) :
    floatToInt (n : ℚ)
      = if -(2 : Int) ^ 31 ≤ n ∧ n < (2 : Int) ^ 31 then some n else none := by
  unfold floatToInt
  rw [truncToInt_intCast]

/-- The sample count of a clone made with multiplier 2, for a count with at most 24
significant bits: the doubled count when it is in the range of `int`, undefined otherwise. -/
theorem cloneSampler_double (s : Sampler) (scramble m : Int) (j : Nat) (hm : |m| < 2 ^ 24)
    (hs : s.sampleCount = some (m * 2 ^ j)) :
    (Scene.cloneSampler s scramble 2).sampleCount
      = if -(2 : Int) ^ 31 ≤ m * 2 ^ (j + 1) ∧ m * 2 ^ (j + 1) < (2 : Int) ^ 31
        then some (m * 2 ^ (j + 1)) else none := by
  have hmul : (2 : ℚ) * ((m * 2 ^ j : Int) : ℚ) = ((m * 2 ^ (j + 1) : Int) : ℚ) := by
    push_cast; ring
  show (if (2 : ℚ) ≠ 1 then
      s.sampleCount.bind (fun count => floatToInt (roundFloat (2 * roundFloat (count : ℚ))))
    else s.sampleCount) = _
  rw [if_pos (by norm_num), hs, Option.some_bind, roundFloat_exact m j hm, hmul,
    roundFloat_exact m (j + 1) hm, floatToInt_intCast]

/-- The sample count of the prototype after `k` restarts, for an initial count `c` with
`0 ≤ c < 2^24`: it is `c * 2^k` while that is below `2^31`, and undefined from the first restart
at which it is not. -/
theorem restartPrototype_sampleCount (proto : Sampler) (c : Int) (h0 : 0 ≤ c)
    (h24 : c < 2 ^ 24) (hs : proto.sampleCount = some c) (k : Nat) :
    (restartPrototype proto k).sampleCount
      = if c * 2 ^ k < (2 : Int) ^ 31 then some (c * 2 ^ k) else none := by
  induction k with
  | zero =>
    have hlt : c * 2 ^ 0 < (2 : Int) ^ 31 := by omega
    rw [if_pos hlt, pow_zero, mul_one]
    exact hs
  | succ k ih =>
    have hpos : (0 : Int) < 2 ^ k := by positivity
    have hnn : 0 ≤ c * 2 ^ k := mul_nonneg h0 (le_of_lt hpos)
    have hsucc : c * 2 ^ (k + 1) = 2 * (c * 2 ^ k) := by ring
    by_cases hlt : c * 2 ^ k < (2 : Int) ^ 31
    · rw [if_pos hlt] at ih
      have hd := cloneSampler_double (restartPrototype proto k) ((k : Int) + 1) c k
        (by rw [abs_of_nonneg h0]; exact h24) ih
      show (Scene.cloneSampler (restartPrototype proto k) ((k : Int) + 1) 2).sampleCount = _
      rw [hd]
      by_cases h2 : c * 2 ^ (k + 1) < (2 : Int) ^ 31
      · rw [if_pos h2, if_pos ⟨by omega, h2⟩]
      · rw [if_neg h2, if_neg (fun h => h2 h.2)]
    · rw [if_neg hlt] at ih
      have h2 : ¬ c * 2 ^ (k + 1) < (2 : Int) ^ 31 := by omega
      rw [if_neg h2]
      show (if (2 : ℚ) ≠ 1 then
          (restartPrototype proto k).sampleCount.bind
            (fun count => floatToInt (roundFloat (2 * roundFloat (count : ℚ))))
        else (restartPrototype proto k).sampleCount) = none
      rw [if_pos (by norm_num), ih]
      rfl

theorem restartPrototype_scramble (proto : Sampler) (k : Nat) :
    (restartPrototype proto (k + 1)).scramble = some ((k : Int) + 1) := by
  show (if (k : Int) + 1 ≠ 0 then some ((k : Int) + 1)
    else (restartPrototype proto k).scramble) = _
  rw [if_pos (by omega)]

theorem renderRound_more_samplers (K : Kernel) (numThreads : Int) (c : Controls)
    (s : RenderState)
    (h : moreRoundsAfterJoin (runWorkers K numThreads (roundBase numThreads s)).returnCode c
      = true) :
    (renderRound K c numThreads s).proc.samplerPrototype
        = Scene.cloneSampler s.proc.samplerPrototype (s.scramble + 1) 2
      ∧ (renderRound K c numThreads s).proc.samplers
        = s.proc.samplers.map
            (fun _ => Scene.cloneSampler s.proc.samplerPrototype (s.scramble + 1) 2) := by
  obtain ⟨-, -, h3, -, h5, h6, -, -⟩ := runWorkers_frame K numThreads (roundBase numThreads s)
  have h3 : (runWorkers K numThreads (roundBase numThreads s)).scramble = s.scramble := h3
  have h5 : (runWorkers K numThreads (roundBase numThreads s)).proc.samplerPrototype
      = s.proc.samplerPrototype := h5
  have h6 : (runWorkers K numThreads (roundBase numThreads s)).proc.samplers
      = s.proc.samplers := h6
  simp only [renderRound]
  rw [restartDecision_more K c _ h]
  simp only [h3, h5, h6, and_self]

/-- The decision after the joins when the return code is 0, at least one flag is supplied and
no flag requests a stop. -/
theorem moreRoundsAfterJoin_no_stop (c : Controls)
    (hsup : c.continu.isSome = true ∨ c.abort.isSome = true) (hcont : c.continu ≠ some false)
    (habort : ∀ a, c.abort = some a → a = 0) : moreRoundsAfterJoin 0 c = true := by
  obtain ⟨cc, ca⟩ := c
  cases cc with
  | none =>
    cases ca with
    | none => simp at hsup
    | some a =>
      have ha := habort a rfl
      subst ha
      rfl
  | some b =>
    cases b with
    | false => exact absurd rfl hcont
    | true =>
      cases ca with
      | none => rfl
      | some a =>
        have ha := habort a rfl
        subst ha
        rfl

theorem renderAfter_refining (K : Kernel) (ctl : Nat → Controls)
    (p : InteractiveSceneProcess) (samples : Nat → ℚ) (numThreads : Int)
    (hrc : ∀ r tid n, (K.render r tid n).rc = 0) (halloc : ∀ k, K.allocate k = true)
    (hsup : ∀ r, (ctl r).continu.isSome = true ∨ (ctl r).abort.isSome = true)
    (hcont : ∀ r, (ctl r).continu ≠ some false)
    (habort : ∀ r a, (ctl r).abort = some a → a = 0) (rounds : Nat) :
    (p.renderAfter K ctl samples numThreads rounds).moreRounds = true
      ∧ (p.renderAfter K ctl samples numThreads rounds).scramble = rounds
      ∧ reconfigurations (p.renderAfter K ctl samples numThreads rounds).log
          = (List.range rounds).map (fun (i : Nat) => ((i : Int) + 1, (2 : ℚ)))
      ∧ (p.renderAfter K ctl samples numThreads rounds).proc.samplerPrototype
          = restartPrototype p.samplerPrototype rounds
      ∧ (p.renderAfter K ctl samples numThreads rounds).proc.samplers.length
          = p.samplers.length
      ∧ (1 ≤ rounds → ∀ x ∈ (p.renderAfter K ctl samples numThreads rounds).proc.samplers,
          x = restartPrototype p.samplerPrototype rounds) := by
  induction rounds with
  | zero => exact ⟨rfl, rfl, rfl, rfl, rfl, fun h => absurd h (by decide)⟩
  | succ k ih =>
    obtain ⟨h1, h2, h3, h4, h5, -⟩ := ih
    obtain ⟨hrounds, hret, hstep⟩ := renderAfter_succ K numThreads ctl p samples k h1
    have hw := (runWorkers_returnCode K (clampThreads p.maxThreads numThreads)
      (roundBase (clampThreads p.maxThreads numThreads)
        (p.renderAfter K ctl samples numThreads k))).mpr ⟨hret, fun t _ => hrc _ _ _⟩
    have hm : moreRoundsAfterJoin
        (runWorkers K (clampThreads p.maxThreads numThreads)
          (roundBase (clampThreads p.maxThreads numThreads)
            (p.renderAfter K ctl samples numThreads k))).returnCode (ctl k) = true := by
      rw [hw]
      exact moreRoundsAfterJoin_no_stop (ctl k) (hsup k) (hcont k) (habort k)
    obtain ⟨m1, m2, m3, -⟩ := renderRound_more K (clampThreads p.maxThreads numThreads)
      (ctl k) (p.renderAfter K ctl samples numThreads k) hm
    obtain ⟨n1, n2⟩ := renderRound_more_samplers K (clampThreads p.maxThreads numThreads)
      (ctl k) (p.renderAfter K ctl samples numThreads k) hm
    rw [← hstep] at m1 m2 m3 n1 n2
    have hproto : (p.renderAfter K ctl samples numThreads (k + 1)).proc.samplerPrototype
        = restartPrototype p.samplerPrototype (k + 1) := by
      rw [n1, h4, h2]
      rfl
    refine ⟨by rw [m1, halloc], by rw [m2, h2]; push_cast; ring, ?_, hproto, ?_, ?_⟩
    · rw [m3, h3, h2, List.range_succ, List.map_append]
      simp
    · rw [n2, List.length_map, h5]
    · intro _ x hx
      rw [n2, List.mem_map] at hx
      obtain ⟨-, -, rfl⟩ := hx
      rw [← n1, hproto]

/-- C2, as amended.  With a kernel whose `render` always returns 0 and whose `allocate` always
succeeds, and controls in which at least one of the two flags is supplied and no stop is ever
requested (the continue flag, if supplied, always reads true; the abort flag, if supplied,
always reads 0), the round loop of `render()` is still active after `rounds` rounds, for
every `rounds` below `2^31` up to which each restart computed a sample count within the range
of `int`: `render()` has not returned, it has reconfigured `rounds` times, the `k`-th
reconfiguration was passed scramble index `k` and sample multiplier 2, and the scramble
indices passed are strictly increasing and within the range of `int`.  Each restart replaces
the sampler prototype by its clone `cloneSampler(*samplerPrototype, k, 2.0f)` and sets every
sampler slot to the new prototype, so that after `rounds` restarts the prototype carries the
scramble index `rounds` and, for an initial count `c` with `0 ≤ c < 2^24`, the sample count
`c * 2^rounds`, which is below `2^31`. -/
theorem render_keeps_refining (K : Kernel) (ctl : Nat → Controls)
    (p : InteractiveSceneProcess) (samples : Nat → ℚ) (numThreads : Int)
    (hrc : ∀ r tid n, (K.render r tid n).rc = 0) (halloc : ∀ k, K.allocate k = true)
    (hsup : ∀ r, (ctl r).continu.isSome = true ∨ (ctl r).abort.isSome = true)
    (hcont : ∀ r, (ctl r).continu ≠ some false)
    (habort : ∀ r a, (ctl r).abort = some a → a = 0)
    (rounds : Nat) (hint : (rounds : Int) < 2 ^ 31)
    (hdef : ∀ k, k ≤ rounds →
      (restartPrototype p.samplerPrototype k).sampleCount.isSome = true) :
    (p.renderAfter K ctl samples numThreads rounds).moreRounds = true
      ∧ (p.renderAfter K ctl samples numThreads rounds).rounds = rounds
      ∧ p.render K ctl samples numThreads rounds = none
      ∧ (reconfigurations (p.renderAfter K ctl samples numThreads rounds).log).length = rounds
      ∧ (∀ k, 1 ≤ k → k ≤ rounds →
          (reconfigurations (p.renderAfter K ctl samples numThreads rounds).log)[k - 1]?
            = some ((k : Int), (2 : ℚ)))
      ∧ List.Pairwise (fun a b => a.1 < b.1)
          (reconfigurations (p.renderAfter K ctl samples numThreads rounds).log)
      ∧ (∀ a ∈ reconfigurations (p.renderAfter K ctl samples numThreads rounds).log,
          1 ≤ a.1 ∧ a.1 ≤ (rounds : Int) ∧ a.1 < 2 ^ 31 ∧ a.2 = 2)
      ∧ (p.renderAfter K ctl samples numThreads rounds).proc.samplerPrototype
          = restartPrototype p.samplerPrototype rounds
      ∧ (∀ k, k < rounds →
          (p.renderAfter K ctl samples numThreads (k + 1)).proc.samplerPrototype
            = Scene.cloneSampler
                (p.renderAfter K ctl samples numThreads k).proc.samplerPrototype
                ((k : Int) + 1) 2
          ∧ ∀ x ∈ (p.renderAfter K ctl samples numThreads (k + 1)).proc.samplers,
              x = (p.renderAfter K ctl samples numThreads (k + 1)).proc.samplerPrototype)
      ∧ (p.renderAfter K ctl samples numThreads rounds).proc.samplers.length
          = p.samplers.length
      ∧ (1 ≤ rounds →
          (p.renderAfter K ctl samples numThreads rounds).proc.samplerPrototype.scramble
            = some (rounds : Int))
      ∧ (∃ n, (p.renderAfter K ctl samples numThreads rounds).proc.samplerPrototype.sampleCount
          = some n)
      ∧ (∀ c, p.samplerPrototype.sampleCount = some c → 0 ≤ c → c < 2 ^ 24 →
          c * 2 ^ rounds < (2 : Int) ^ 31
            ∧ (p.renderAfter K ctl samples numThreads rounds).proc.samplerPrototype.sampleCount
                = some (c * 2 ^ rounds)) := by
  obtain ⟨h1, -, h3, h4, h5, -⟩ :=
    renderAfter_refining K ctl p samples numThreads hrc halloc hsup hcont habort rounds
  have hsome := hdef rounds (le_refl _)
  refine ⟨h1, (renderAfter_succ K numThreads ctl p samples rounds h1).1, ?_, ?_, ?_, ?_, ?_,
    h4, ?_, h5, ?_, ?_, ?_⟩
  · simp [InteractiveSceneProcess.render, h1]
  · rw [h3]; simp
  · intro k hk1 hk2
    rw [h3, List.getElem?_map, List.getElem?_range (by omega)]
    simp only [Option.map_some']
    congr 2
    omega
  · rw [h3, List.pairwise_map]
    exact (List.pairwise_lt_range rounds).imp (fun h => by simpa using h)
  · intro a ha
    rw [h3] at ha
    simp only [List.mem_map, List.mem_range] at ha
    obtain ⟨i, hi, rfl⟩ := ha
    refine ⟨by simp, by simp; omega, ?_, rfl⟩
    show (i : Int) + 1 < 2 ^ 31
    omega
  · intro k _
    obtain ⟨-, -, -, a4, -, -⟩ :=
      renderAfter_refining K ctl p samples numThreads hrc halloc hsup hcont habort k
    obtain ⟨-, -, -, b4, -, b6⟩ :=
      renderAfter_refining K ctl p samples numThreads hrc halloc hsup hcont habort (k + 1)
    refine ⟨by rw [b4, a4]; rfl, fun x hx => ?_⟩
    rw [b4]
    exact b6 (by omega) x hx
  · intro hr
    obtain ⟨k, rfl⟩ : ∃ k, rounds = k + 1 := ⟨rounds - 1, by omega⟩
    rw [h4, restartPrototype_scramble]
    push_cast
    rfl
  · rw [h4]
    exact Option.isSome_iff_exists.mp hsome
  · intro c hc h0 h24
    have hcf := restartPrototype_sampleCount p.samplerPrototype c h0 h24 hc rounds
    by_cases hlt : c * 2 ^ rounds < (2 : Int) ^ 31
    · rw [if_pos hlt] at hcf
      exact ⟨hlt, by rw [h4, hcf]⟩
    · rw [if_neg hlt] at hcf
      rw [hcf] at hsome
      exact absurd hsome (by simp)

/-- Witness of C2: the scenario kernel and the scenario process, whose prototype has sample
count 4, with controls that never request a stop.  The first 28 restarts compute counts within
the range of `int`; after 28 rounds the loop is still active, has reconfigured 28 times, and
the prototype has scramble index 28 and sample count `4 * 2^28`. -/
theorem render_keeps_refining_witness :
    ((28 : Nat) : Int) < 2 ^ 31
      ∧ (∀ k, k ≤ 28 →
          (restartPrototype process4.samplerPrototype k).sampleCount.isSome = true)
      ∧ (process4.renderAfter kernel10 neverStop zeroSamples 4 28).moreRounds = true
      ∧ process4.render kernel10 neverStop zeroSamples 4 28 = none
      ∧ (reconfigurations (process4.renderAfter kernel10 neverStop zeroSamples 4 28).log).length
          = 28
      ∧ (reconfigurations (process4.renderAfter kernel10 neverStop zeroSamples 4 28).log)[27]?
          = some (28, 2)
      ∧ (process4.renderAfter kernel10 neverStop zeroSamples 4 28).proc.samplerPrototype.scramble
          = some 28
      ∧ (process4.renderAfter kernel10 neverStop zeroSamples 4
          28).proc.samplerPrototype.sampleCount = some (4 * 2 ^ 28) :=
  have hdef : ∀ k, k ≤ 28 →
      (restartPrototype process4.samplerPrototype k).sampleCount.isSome = true := by
    intro k hk
    have hpow : (2 : Int) ^ k ≤ 2 ^ 28 := pow_le_pow_right₀ (by norm_num) hk
    rw [restartPrototype_sampleCount process4.samplerPrototype 4 (by norm_num) (by norm_num)
      rfl k, if_pos (by omega)]
    rfl
  have h := render_keeps_refining kernel10 neverStop process4 zeroSamples 4
    (fun _ _ _ => rfl) (fun _ => rfl) (fun _ => Or.inl rfl)
    (fun _ hc => by
      have hc2 : some true = some false := hc
      exact absurd (Option.some.inj hc2) (by decide))
    (fun _ a ha => by
      have ha2 : some (0 : Int) = some a := ha
      exact (Option.some.inj ha2).symm)
    28 (by norm_num) hdef
  ⟨by norm_num, hdef, h.1, h.2.2.1, h.2.2.2.1, h.2.2.2.2.1 28 (by decide) (by decide),
    h.2.2.2.2.2.2.2.2.2.2.1 (by decide),
    (h.2.2.2.2.2.2.2.2.2.2.2.2 4 rfl (by norm_num) (by norm_num)).2⟩

/-- Counterexample to C2 as stated.  First, controls with both flags null request no stop
(no continue flag is ever cleared, no abort flag is ever set), yet with the scenario kernel,
whose `render` returns 0 and whose `allocate` succeeds, the loop is left after the first
round without any reconfiguration and `render()` returns.  Second, with both flags supplied
and never requesting a stop, the scenario process, whose prototype has sample count 4, has
the count `2^30` after 28 restarts, and the 29th restart converts `2^31` to `int`, which is
outside the range of `int`: the count is undefined from there on, so the behaviour of the
loop is not determined for every number of rounds. -/
theorem render_stops_refining :
    (∀ r tid n, (kernel10.render r tid n).rc = 0) ∧ (∀ k, kernel10.allocate k = true)
      ∧ (∀ r, (noFlags r).continu ≠ some false ∧ ∀ a, (noFlags r).abort = some a → a = 0)
      ∧ (process4.renderAfter kernel10 noFlags zeroSamples 4 1).moreRounds = false
      ∧ reconfigurations (process4.renderAfter kernel10 noFlags zeroSamples 4 1).log = []
      ∧ (process4.render kernel10 noFlags zeroSamples 4 1).isSome = true
      ∧ (process4.renderAfter kernel10 neverStop zeroSamples 4
          28).proc.samplerPrototype.sampleCount = some (2 ^ 30)
      ∧ (process4.renderAfter kernel10 neverStop zeroSamples 4
          29).proc.samplerPrototype.sampleCount = none := by
  have hproto : ∀ k,
      (process4.renderAfter kernel10 neverStop zeroSamples 4 k).proc.samplerPrototype
        = restartPrototype process4.samplerPrototype k := fun k =>
    (renderAfter_refining kernel10 neverStop process4 zeroSamples 4
      (fun _ _ _ => rfl) (fun _ => rfl) (fun _ => Or.inl rfl)
    (fun _ hc => by
      have hc2 : some true = some false := hc
      exact absurd (Option.some.inj hc2) (by decide))
      (fun _ a ha => by
        have ha2 : some (0 : Int) = some a := ha
        exact (Option.some.inj ha2).symm) k).2.2.2.1
  have hcount := restartPrototype_sampleCount process4.samplerPrototype 4 (by norm_num)
    (by norm_num) rfl
  refine ⟨fun _ _ _ => rfl, fun _ => rfl,
    fun _ => ⟨fun hc => by
      have hc2 : (none : Option Bool) = some false := hc
      exact Option.noConfusion hc2, fun a ha => by
      have ha2 : (none : Option Int) = some a := ha
      exact Option.noConfusion ha2⟩, rfl, rfl, rfl, ?_, ?_⟩
  · rw [hproto 28, hcount 28, if_pos (by norm_num)]
    norm_num
  · rw [hproto 29, hcount 29, if_neg (by norm_num)]

/-! ## Monotonicity of the counters (C3) -/

theorem pairwise_le_getLast (W : List ℚ) (d : ℚ) (h : W.Pairwise (fun a b => a ≤ b)) :
    ∀ v ∈ W, v ≤ W.getLast?.getD d := by
  intro v hv
  rcases List.eq_nil_or_concat W with rfl | ⟨L, b, rfl⟩
  · simp at hv
  · rw [List.concat_eq_append] at h hv ⊢
    rw [List.pairwise_append] at h
    rw [List.getLast?_concat, Option.getD_some]
    rcases List.mem_append.mp hv with h1 | h1
    · exact h.2.2 v h1 b (by simp)
    · simp at h1; rw [h1]

theorem workerStores_eq_filter (K : Kernel) (n : Int) (r : Nat) (base : ℚ) (tid : Nat) :
    workerStores K n r base tid
      = ((K.render r tid n).progress.filter (fun x => decide (x ≠ 0))).map
          (fun x => x + base) := by
  unfold workerStores
  induction (K.render r tid n).progress with
  | nil => rfl
  | cons a l ih =>
    by_cases h : a = 0
    · simp only [List.filterMap_cons, Interrupt.store, List.filter_cons, h, ne_eq,
        not_true_eq_false, if_false, decide_False]
      exact ih
    · simp only [List.filterMap_cons, Interrupt.store, List.filter_cons, h, ne_eq,
        not_false_eq_true, if_true, decide_True, List.map_cons]
      rw [← ih]

theorem workerStores_positive (K : Kernel) (n : Int) (r : Nat) (base : ℚ) (tid : Nat)
    (hnn : ∀ x ∈ (K.render r tid n).progress, 0 ≤ x)
    (hsorted : (K.render r tid n).progress.Pairwise (fun a b => a ≤ b)) :
    workerStores K n r base tid
        = ((K.render r tid n).progress.filter (fun x => decide (0 < x))).map
            (fun x => x + base)
      ∧ (workerStores K n r base tid).Pairwise (fun a b => a ≤ b)
      ∧ ∀ v ∈ workerStores K n r base tid, base < v := by
  have hf : (K.render r tid n).progress.filter (fun x => decide (x ≠ 0))
      = (K.render r tid n).progress.filter (fun x => decide (0 < x)) := by
    apply List.filter_congr
    intro x hx
    have h0 := hnn x hx
    by_cases hz : x = 0
    · simp [hz]
    · have : 0 < x := lt_of_le_of_ne h0 (Ne.symm hz)
      simp [hz, this]
  rw [workerStores_eq_filter, hf]
  refine ⟨rfl, ?_, ?_⟩
  · exact (hsorted.filter _).map _ (fun a b hab => by linarith)
  · intro v hv
    simp only [List.mem_map, List.mem_filter, decide_eq_true_eq] at hv
    obtain ⟨x, ⟨-, hx⟩, rfl⟩ := hv
    linarith

theorem renderAfter_stopped_succ (K : Kernel) (ctl : Nat → Controls)
    (p : InteractiveSceneProcess) (samples : Nat → ℚ) (numThreads : Int) (k : Nat)
    (hrun : ¬ (p.renderAfter K ctl samples numThreads k).moreRounds = true) :
    p.renderAfter K ctl samples numThreads (k + 1)
      = p.renderAfter K ctl samples numThreads k := by
  show renderRounds K ctl _ (k + 1) _ = renderRounds K ctl _ k _
  rw [renderRounds_succ]
  have hrun2 : ¬ (renderRounds K ctl (clampThreads p.maxThreads numThreads) k
      (renderBegin p samples numThreads)).moreRounds = true := hrun
  rw [if_neg hrun2]

theorem renderAfter_initialRun (K : Kernel) (ctl : Nat → Controls)
    (p : InteractiveSceneProcess) (samples : Nat → ℚ) (numThreads : Int) (k : Nat) :
    (p.renderAfter K ctl samples numThreads (k + 1)).initialRun = false := by
  induction k with
  | zero =>
    obtain ⟨-, -, hstep⟩ := renderAfter_succ K numThreads ctl p samples 0 rfl
    rw [hstep]
    exact (renderRound_counter K _ _ _ 0).2.2
  | succ k ih =>
    by_cases hrun : (p.renderAfter K ctl samples numThreads (k + 1)).moreRounds = true
    · obtain ⟨-, -, hstep⟩ := renderAfter_succ K numThreads ctl p samples (k + 1) hrun
      rw [hstep]
      exact (renderRound_counter K _ _ _ 0).2.2
    · rw [renderAfter_stopped_succ K ctl p samples numThreads (k + 1) hrun]
      exact ih

/-- The invariant of the counter of one worker along the rounds of a `render()` call. -/
theorem counter_invariant (K : Kernel) (ctl : Nat → Controls) (p : InteractiveSceneProcess)
    (samples : Nat → ℚ) (numThreads : Int) (i : Nat)
    (hi : i < (clampThreads p.maxThreads numThreads).toNat)
    (hK : ∀ r, (∀ x ∈ (K.render r i (clampThreads p.maxThreads numThreads)).progress, 0 ≤ x)
      ∧ (K.render r i (clampThreads p.maxThreads numThreads)).progress.Pairwise
          (fun a b => a ≤ b))
    (k : Nat) :
    (storesOf i (p.renderAfter K ctl samples numThreads k).log).Pairwise (fun a b => a ≤ b)
      ∧ (p.renderAfter K ctl samples numThreads k).imageSamples i
          = (storesOf i (p.renderAfter K ctl samples numThreads k).log).getLast?.getD (samples i)
      ∧ (∀ v ∈ storesOf i (p.renderAfter K ctl samples numThreads k).log,
          v ≤ (p.renderAfter K ctl samples numThreads k).imageSamples i)
      ∧ ((p.renderAfter K ctl samples numThreads k).initialRun = true →
          storesOf i (p.renderAfter K ctl samples numThreads k).log = [])
      ∧ (0 ≤ samples i →
          0 ≤ (p.renderAfter K ctl samples numThreads k).imageSamples i
            ∧ ∀ v ∈ storesOf i (p.renderAfter K ctl samples numThreads k).log, 0 < v) := by
  induction k with
  | zero =>
    have h0 : storesOf i (p.renderAfter K ctl samples numThreads 0).log = [] := rfl
    have h1 : (p.renderAfter K ctl samples numThreads 0).imageSamples i = samples i := rfl
    rw [h0, h1]
    simp
  | succ k ih =>
    by_cases hrun : (p.renderAfter K ctl samples numThreads k).moreRounds = true
    · obtain ⟨hrounds, -, hstep⟩ := renderAfter_succ K numThreads ctl p samples k hrun
      obtain ⟨c1, c2, c3⟩ := renderRound_counter K (clampThreads p.maxThreads numThreads)
        (ctl k) (p.renderAfter K ctl samples numThreads k) i
      rw [← hstep, if_pos hi, hrounds] at c1 c2
      rw [← hstep] at c3
      obtain ⟨i1, i2, i3, i4, i5⟩ := ih
      obtain ⟨-, w2, w3⟩ := workerStores_positive K (clampThreads p.maxThreads numThreads) k
        (nextBase (p.renderAfter K ctl samples numThreads k) i) i (hK k).1 (hK k).2
      have hlast := pairwise_le_getLast _
        ((p.renderAfter K ctl samples numThreads k).imageSamples i) w2
      rw [← c1] at hlast
      have hbase : (p.renderAfter K ctl samples numThreads k).initialRun = false →
          nextBase (p.renderAfter K ctl samples numThreads k) i
            = (p.renderAfter K ctl samples numThreads k).imageSamples i := by
        intro h; simp [nextBase, h]
      have hbase0 : (p.renderAfter K ctl samples numThreads k).initialRun = true →
          nextBase (p.renderAfter K ctl samples numThreads k) i = 0 := by
        intro h; simp [nextBase, h]
      -- after the first round the counter does not decrease
      have hcur : (p.renderAfter K ctl samples numThreads k).initialRun = false →
          (p.renderAfter K ctl samples numThreads k).imageSamples i
            ≤ (p.renderAfter K ctl samples numThreads (k + 1)).imageSamples i := by
        intro hinit
        rw [c1]
        cases hw : (workerStores K (clampThreads p.maxThreads numThreads) k
            (nextBase (p.renderAfter K ctl samples numThreads k) i) i).getLast? with
        | none => simp
        | some v =>
          simp only [Option.getD_some]
          have hv := List.mem_of_mem_getLast? hw
          have := w3 v hv
          rw [hbase hinit] at this
          exact le_of_lt this
      -- every old store is below every new one
      have hold : ∀ a ∈ storesOf i (p.renderAfter K ctl samples numThreads k).log,
          ∀ b ∈ workerStores K (clampThreads p.maxThreads numThreads) k
            (nextBase (p.renderAfter K ctl samples numThreads k) i) i, a ≤ b := by
        intro a ha b hb
        cases hinit : (p.renderAfter K ctl samples numThreads k).initialRun
        · have := w3 b hb
          rw [hbase hinit] at this
          exact le_trans (i3 a ha) (le_of_lt this)
        · rw [i4 hinit] at ha; simp at ha
      rw [c2]
      refine ⟨List.pairwise_append.mpr ⟨i1, w2, hold⟩, ?_, ?_, ?_, ?_⟩
      · rw [c1]
        rcases List.eq_nil_or_concat (workerStores K (clampThreads p.maxThreads numThreads) k
            (nextBase (p.renderAfter K ctl samples numThreads k) i) i) with hW | ⟨L, b, hW⟩
        · rw [hW, List.append_nil]
          exact i2
        · rw [hW, List.concat_eq_append, ← List.append_assoc, List.getLast?_concat,
            List.getLast?_concat]
          rfl
      · intro v hv
        rcases List.mem_append.mp hv with h1 | h1
        · cases hinit : (p.renderAfter K ctl samples numThreads k).initialRun
          · exact le_trans (i3 v h1) (hcur hinit)
          · rw [i4 hinit] at h1; simp at h1
        · exact hlast v h1
      · intro h; rw [c3] at h; exact absurd h (by simp)
      · intro h0
        obtain ⟨j1, j2⟩ := i5 h0
        have hb0 : 0 ≤ nextBase (p.renderAfter K ctl samples numThreads k) i := by
          cases hinit : (p.renderAfter K ctl samples numThreads k).initialRun
          · rw [hbase hinit]; exact j1
          · rw [hbase0 hinit]
        have hnew : ∀ v ∈ workerStores K (clampThreads p.maxThreads numThreads) k
            (nextBase (p.renderAfter K ctl samples numThreads k) i) i, 0 < v :=
          fun v hv => lt_of_le_of_lt hb0 (w3 v hv)
        constructor
        · rw [c1]
          cases hw : (workerStores K (clampThreads p.maxThreads numThreads) k
              (nextBase (p.renderAfter K ctl samples numThreads k) i) i).getLast? with
          | none => simpa using j1
          | some v =>
            simp only [Option.getD_some]
            exact le_of_lt (hnew v (List.mem_of_mem_getLast? hw))
        · intro v hv
          rcases List.mem_append.mp hv with h1 | h1
          · exact j2 v h1
          · exact hnew v h1
    · rw [renderAfter_stopped_succ K ctl p samples numThreads k hrun]
      exact ih

theorem counter_step_le (K : Kernel) (ctl : Nat → Controls) (p : InteractiveSceneProcess)
    (samples : Nat → ℚ) (numThreads : Int) (i : Nat)
    (hi : i < (clampThreads p.maxThreads numThreads).toNat)
    (hK : ∀ r, (∀ x ∈ (K.render r i (clampThreads p.maxThreads numThreads)).progress, 0 ≤ x)
      ∧ (K.render r i (clampThreads p.maxThreads numThreads)).progress.Pairwise
          (fun a b => a ≤ b))
    (k : Nat) (hinit : (p.renderAfter K ctl samples numThreads k).initialRun = false) :
    (p.renderAfter K ctl samples numThreads k).imageSamples i
      ≤ (p.renderAfter K ctl samples numThreads (k + 1)).imageSamples i := by
  by_cases hrun : (p.renderAfter K ctl samples numThreads k).moreRounds = true
  · obtain ⟨hrounds, -, hstep⟩ := renderAfter_succ K numThreads ctl p samples k hrun
    obtain ⟨c1, -, -⟩ := renderRound_counter K (clampThreads p.maxThreads numThreads)
      (ctl k) (p.renderAfter K ctl samples numThreads k) i
    rw [← hstep, if_pos hi, hrounds] at c1
    obtain ⟨-, -, w3⟩ := workerStores_positive K (clampThreads p.maxThreads numThreads) k
      (nextBase (p.renderAfter K ctl samples numThreads k) i) i (hK k).1 (hK k).2
    have hbase : nextBase (p.renderAfter K ctl samples numThreads k) i
        = (p.renderAfter K ctl samples numThreads k).imageSamples i := by
      simp [nextBase, hinit]
    rw [c1]
    cases hw : (workerStores K (clampThreads p.maxThreads numThreads) k
        (nextBase (p.renderAfter K ctl samples numThreads k) i) i).getLast? with
    | none => simp
    | some v =>
      simp only [Option.getD_some]
      have := w3 v (List.mem_of_mem_getLast? hw)
      rw [hbase] at this
      exact le_of_lt this
  · rw [renderAfter_stopped_succ K ctl p samples numThreads k hrun]

/-- C3.  Within one `render()` call the counter of an active worker `i` is non-decreasing and
is not reset by a round restart, assuming the kernel reports non-negative, non-decreasing
`spp` values within each round.  After any number of rounds: the values stored into the
counter so far are non-decreasing and the counter holds the last of them; the first round
stores exactly the positive `spp` values reported (base 0); every later round stores, for
each positive `spp` reported, `spp` plus the value of the counter at the end of the previous
round; from the end of the first round on the counter never decreases from one round to the
next; and when the counter is 0 on entry (a new generation) its whole history, entry value
included, is non-decreasing and no store writes 0. -/
theorem counter_non_decreasing (K : Kernel) (ctl : Nat → Controls)
    (p : InteractiveSceneProcess) (samples : Nat → ℚ) (numThreads : Int) (i : Nat)
    (hi : i < (clampThreads p.maxThreads numThreads).toNat)
    (hK : ∀ r, (∀ x ∈ (K.render r i (clampThreads p.maxThreads numThreads)).progress, 0 ≤ x)
      ∧ (K.render r i (clampThreads p.maxThreads numThreads)).progress.Pairwise
          (fun a b => a ≤ b)) :
    (∀ k, (storesOf i (p.renderAfter K ctl samples numThreads k).log).Pairwise
            (fun a b => a ≤ b)
        ∧ (p.renderAfter K ctl samples numThreads k).imageSamples i
            = (storesOf i (p.renderAfter K ctl samples numThreads k).log).getLast?.getD
                (samples i))
      ∧ storesOf i (p.renderAfter K ctl samples numThreads 1).log
          = (K.render 0 i (clampThreads p.maxThreads numThreads)).progress.filter
              (fun x => decide (0 < x))
      ∧ (∀ k, 1 ≤ k → (p.renderAfter K ctl samples numThreads k).moreRounds = true →
          storesOf i (p.renderAfter K ctl samples numThreads (k + 1)).log
            = storesOf i (p.renderAfter K ctl samples numThreads k).log
              ++ ((K.render k i (clampThreads p.maxThreads numThreads)).progress.filter
                    (fun x => decide (0 < x))).map
                  (fun x => x + (p.renderAfter K ctl samples numThreads k).imageSamples i))
      ∧ (∀ k, 1 ≤ k →
          (p.renderAfter K ctl samples numThreads k).imageSamples i
            ≤ (p.renderAfter K ctl samples numThreads (k + 1)).imageSamples i)
      ∧ (samples i = 0 → ∀ k,
          (samples i :: storesOf i (p.renderAfter K ctl samples numThreads k).log).Pairwise
              (fun a b => a ≤ b)
            ∧ (∀ v ∈ storesOf i (p.renderAfter K ctl samples numThreads k).log, v ≠ 0)
            ∧ (p.renderAfter K ctl samples numThreads k).imageSamples i
                ≤ (p.renderAfter K ctl samples numThreads (k + 1)).imageSamples i) := by
  have hinv := counter_invariant K ctl p samples numThreads i hi hK
  refine ⟨fun k => ⟨(hinv k).1, (hinv k).2.1⟩, ?_, ?_, ?_, ?_⟩
  · obtain ⟨-, -, hstep⟩ := renderAfter_succ K numThreads ctl p samples 0 rfl
    obtain ⟨-, c2, -⟩ := renderRound_counter K (clampThreads p.maxThreads numThreads)
      (ctl 0) (p.renderAfter K ctl samples numThreads 0) i
    rw [← hstep, if_pos hi] at c2
    rw [c2]
    have e1 : storesOf i (p.renderAfter K ctl samples numThreads 0).log = [] := rfl
    have e2 : (p.renderAfter K ctl samples numThreads 0).rounds = 0 := rfl
    have e3 : nextBase (p.renderAfter K ctl samples numThreads 0) i = 0 := rfl
    rw [e1, e2, e3, List.nil_append,
      (workerStores_positive K _ 0 0 i (hK 0).1 (hK 0).2).1]
    simp
  · intro k hk hrun
    obtain ⟨hrounds, -, hstep⟩ := renderAfter_succ K numThreads ctl p samples k hrun
    obtain ⟨-, c2, -⟩ := renderRound_counter K (clampThreads p.maxThreads numThreads)
      (ctl k) (p.renderAfter K ctl samples numThreads k) i
    rw [← hstep, if_pos hi, hrounds] at c2
    obtain ⟨k, rfl⟩ : ∃ j, k = j + 1 := ⟨k - 1, by omega⟩
    have hinit := renderAfter_initialRun K ctl p samples numThreads k
    have hbase : nextBase (p.renderAfter K ctl samples numThreads (k + 1)) i
        = (p.renderAfter K ctl samples numThreads (k + 1)).imageSamples i := by
      simp [nextBase, hinit]
    rw [c2, hbase, (workerStores_positive K _ (k + 1) _ i (hK (k + 1)).1 (hK (k + 1)).2).1]
  · intro k hk
    obtain ⟨k, rfl⟩ : ∃ j, k = j + 1 := ⟨k - 1, by omega⟩
    exact counter_step_le K ctl p samples numThreads i hi hK (k + 1)
      (renderAfter_initialRun K ctl p samples numThreads k)
  · intro h0 k
    have h0le : 0 ≤ samples i := le_of_eq h0.symm
    obtain ⟨j1, -, -, -, j5⟩ := hinv k
    obtain ⟨-, j6⟩ := j5 h0le
    refine ⟨List.pairwise_cons.mpr ⟨fun v hv => ?_, j1⟩, fun v hv => ne_of_gt (j6 v hv), ?_⟩
    · rw [h0]; exact le_of_lt (j6 v hv)
    · cases k with
      | zero =>
        have e : (p.renderAfter K ctl samples numThreads 0).imageSamples i = samples i := rfl
        rw [e, h0]
        exact ((hinv 1).2.2.2.2 h0le).1
      | succ k =>
        exact counter_step_le K ctl p samples numThreads i hi hK (k + 1)
          (renderAfter_initialRun K ctl p samples numThreads k)

/-- Witness of C3: the scenario kernel reports the single value 10 in every round, which is
non-negative and non-decreasing; worker 0 is active when four threads are requested. -/
theorem counter_non_decreasing_witness :
    (process4.renderAfter kernel10 neverStop zeroSamples 4 1).imageSamples 0
      ≤ (process4.renderAfter kernel10 neverStop zeroSamples 4 2).imageSamples 0 :=
  (counter_non_decreasing kernel10 neverStop process4 zeroSamples 4 0 (by decide)
    (fun _ => ⟨fun x hx => by
        have hx2 : x ∈ [(10 : ℚ)] := hx
        rw [List.mem_singleton] at hx2
        rw [hx2]; norm_num,
      List.pairwise_singleton _ _⟩)).2.2.2.1 1 (le_refl 1)

/-! ## The double-buffer swap (C6, C7) -/

theorem foldl_parallel_execution_noSwap (K : Kernel) (n : Int) (l : List Nat)
    (s : RenderState) (h : Event.swap ∉ s.log) :
    Event.swap ∉ (l.foldl (parallel_execution K n) s).log := by
  induction l generalizing s with
  | nil => simpa using h
  | cons a l ih =>
    rw [List.foldl_cons]
    apply ih
    rw [parallel_execution_log]
    simp [h]

theorem renderRound_noSwap (K : Kernel) (c : Controls) (n : Int) (s : RenderState)
    (h : Event.swap ∉ s.log) : Event.swap ∉ (renderRound K c n s).log := by
  have h1 : Event.swap ∉ (runWorkers K n (roundBase n s)).log := by
    simp only [runWorkers]
    have h2 := foldl_parallel_execution_noSwap K n (List.range n.toNat)
      { roundBase n s with
        log := (roundBase n s).log ++ (List.range n.toNat).map Event.start }
      (by
        have e : (roundBase n s).log = s.log := rfl
        simp [e, h])
    simp [h2]
  simp only [renderRound]
  cases hm : moreRoundsAfterJoin (runWorkers K n (roundBase n s)).returnCode c
  · rw [restartDecision_stop K c _ hm]; exact h1
  · rw [restartDecision_more K c _ hm]; simp [h1]

theorem renderAfter_noSwap (K : Kernel) (ctl : Nat → Controls) (p : InteractiveSceneProcess)
    (samples : Nat → ℚ) (numThreads : Int) (k : Nat) :
    Event.swap ∉ (p.renderAfter K ctl samples numThreads k).log := by
  induction k with
  | zero =>
    have e : (p.renderAfter K ctl samples numThreads 0).log
        = [Event.clear (p.framebuffers.getD 0 0)] := rfl
    rw [e]; simp
  | succ k ih =>
    by_cases hrun : (p.renderAfter K ctl samples numThreads k).moreRounds = true
    · rw [(renderAfter_succ K numThreads ctl p samples k hrun).2.2]
      exact renderRound_noSwap K _ _ _ ih
    · rw [renderAfter_stopped_succ K ctl p samples numThreads k hrun]
      exact ih

theorem hadRevisions_iff (n : Int) (samples : Nat → ℚ) :
    hadRevisions n samples = true ↔ ∃ i, i < n.toNat ∧ samples i ≠ 0 := by
  simp [hadRevisions, List.any_eq_true]

theorem render_some (K : Kernel) (ctl : Nat → Controls) (p : InteractiveSceneProcess)
    (samples : Nat → ℚ) (numThreads : Int) (fuel : Nat) (r : RenderState)
    (h : p.render K ctl samples numThreads fuel = some r) :
    (p.renderAfter K ctl samples numThreads fuel).moreRounds = false
      ∧ r = renderEnd (clampThreads p.maxThreads numThreads)
          (p.renderAfter K ctl samples numThreads fuel) := by
  simp only [InteractiveSceneProcess.render] at h
  split_ifs at h with hm
  simp only [Option.some.injEq] at h
  exact ⟨by simpa using hm, h.symm⟩

theorem dataOf_switchFrame (g : Integration) (i : Nat) : dataOf g.switchFrame.samples i = 0 := by
  simp only [dataOf, Integration.switchFrame, List.getD_eq_getElem?_getD, List.getElem?_map]
  cases g.samples[i]? <;> rfl

theorem runFrame_some (K : Kernel) (ctl : Nat → Controls) (numThreads : Int) (fuel : Nat)
    (g : Integration) (r : Integration × RenderState)
    (h : g.runFrame K ctl numThreads fuel = some r) :
    g.process.render K ctl (dataOf g.samples) numThreads fuel = some r.2
      ∧ r.1.process = r.2.proc
      ∧ r.1.samples = (List.range g.samples.length).map r.2.imageSamples := by
  simp only [Integration.runFrame, Option.map_eq_some'] at h
  obtain ⟨s, hs, rfl⟩ := h
  exact ⟨hs, rfl, rfl⟩

/-- What the epilogue of `render()` does on a process with a double set: the exchange
happens exactly when some counter of an active worker is non-zero on return. -/
theorem render_swap_cases (K : Kernel) (ctl : Nat → Controls) (p : InteractiveSceneProcess)
    (samples : Nat → ℚ) (numThreads : Int) (fuel : Nat) (r : RenderState)
    (hdb : p.framebuffersDouble ≠ [])
    (hr : p.render K ctl samples numThreads fuel = some r) :
    (Event.swap ∈ r.log ↔
        ∃ i, i < (clampThreads p.maxThreads numThreads).toNat ∧ r.imageSamples i ≠ 0)
      ∧ (Event.swap ∈ r.log →
          r.proc.framebuffers = p.framebuffersDouble
            ∧ r.proc.framebuffersDouble = p.framebuffers
            ∧ r.proc.frambufferData = p.frambufferDataDouble
            ∧ r.proc.frambufferDataDouble = p.frambufferData)
      ∧ (Event.swap ∉ r.log →
          r.proc.framebuffers = p.framebuffers
            ∧ r.proc.framebuffersDouble = p.framebuffersDouble
            ∧ r.proc.frambufferData = p.frambufferData
            ∧ r.proc.frambufferDataDouble = p.frambufferDataDouble) := by
  obtain ⟨-, hr2⟩ := render_some K ctl p samples numThreads fuel r hr
  have hns := renderAfter_noSwap K ctl p samples numThreads fuel
  have hst := renderRounds_statics K (clampThreads p.maxThreads numThreads) ctl fuel
    (renderBegin p samples numThreads)
  obtain ⟨-, -, -, -, s5, s6, s7, s8, -, -⟩ := hst
  have s5 : (p.renderAfter K ctl samples numThreads fuel).proc.framebuffers
      = p.framebuffers := s5
  have s6 : (p.renderAfter K ctl samples numThreads fuel).proc.frambufferData
      = p.frambufferData := s6
  have s7 : (p.renderAfter K ctl samples numThreads fuel).proc.framebuffersDouble
      = p.framebuffersDouble := s7
  have s8 : (p.renderAfter K ctl samples numThreads fuel).proc.frambufferDataDouble
      = p.frambufferDataDouble := s8
  have hdb2 : (p.renderAfter K ctl samples numThreads fuel).proc.framebuffersDouble ≠ [] := by
    rw [s7]; exact hdb
  by_cases hrev : hadRevisions (clampThreads p.maxThreads numThreads)
      (p.renderAfter K ctl samples numThreads fuel).imageSamples = true
  · have hex := (hadRevisions_iff _ _).mp hrev
    have hr3 : r = { (p.renderAfter K ctl samples numThreads fuel) with
        proc := { (p.renderAfter K ctl samples numThreads fuel).proc with
          framebuffers := (p.renderAfter K ctl samples numThreads fuel).proc.framebuffersDouble
          framebuffersDouble := (p.renderAfter K ctl samples numThreads fuel).proc.framebuffers
          frambufferData :=
            (p.renderAfter K ctl samples numThreads fuel).proc.frambufferDataDouble
          frambufferDataDouble :=
            (p.renderAfter K ctl samples numThreads fuel).proc.frambufferData }
        log := (p.renderAfter K ctl samples numThreads fuel).log ++ [Event.swap] } := by
      rw [hr2, renderEnd, if_pos hdb2, if_pos hrev]
    have hin : Event.swap ∈ r.log := by rw [hr3]; simp
    refine ⟨⟨fun _ => ?_, fun _ => hin⟩, fun _ => ?_, fun h => absurd hin h⟩
    · rw [hr3]; exact hex
    · rw [hr3]; exact ⟨s7, s5, s8, s6⟩
  · have hr3 : r = p.renderAfter K ctl samples numThreads fuel := by
      rw [hr2, renderEnd, if_pos hdb2, if_neg hrev]
    have hnin : Event.swap ∉ r.log := by rw [hr3]; exact hns
    refine ⟨⟨fun h => absurd h hnin, fun h => ?_⟩, fun h => absurd h hnin, fun _ => ?_⟩
    · rw [hr3] at h
      exact absurd ((hadRevisions_iff _ _).mpr h) hrev
    · rw [hr3]; exact ⟨s5, s7, s6, s8⟩

/-- C6.  In a generation (the counters are zeroed by `switchFrame`, then `render()` runs) on a
process with double buffering configured, at the end of `render()` the framebuffer set and
its data-pointer set are exchanged with the double set if and only if the sample delta of at
least one active worker in this generation is non-zero.  When the exchange happens the two
sets and their data pointers trade places; when every active worker produced zero samples
they stay where they were.  The last part states what the code tests for arbitrary counters
on entry: the exchange happens exactly when some counter of an active worker is non-zero
when `render()` returns. -/
theorem swap_iff_samples_produced (K : Kernel) (ctl : Nat → Controls) (g : Integration)
    (numThreads : Int) (fuel : Nat) (r : Integration × RenderState)
    (hdb : g.process.framebuffersDouble ≠ [])
    (hrun : g.switchFrame.runFrame K ctl numThreads fuel = some r) :
    (Event.swap ∈ r.2.log ↔
        ∃ i, i < (clampThreads g.process.maxThreads numThreads).toNat
          ∧ r.2.imageSamples i - dataOf g.switchFrame.samples i ≠ 0)
      ∧ (Event.swap ∈ r.2.log →
          r.2.proc.framebuffers = g.process.framebuffersDouble
            ∧ r.2.proc.framebuffersDouble = g.process.framebuffers
            ∧ r.2.proc.frambufferData = g.process.frambufferDataDouble
            ∧ r.2.proc.frambufferDataDouble = g.process.frambufferData)
      ∧ (Event.swap ∉ r.2.log →
          r.2.proc.framebuffers = g.process.framebuffers
            ∧ r.2.proc.framebuffersDouble = g.process.framebuffersDouble
            ∧ r.2.proc.frambufferData = g.process.frambufferData
            ∧ r.2.proc.frambufferDataDouble = g.process.frambufferDataDouble)
      ∧ (∀ samples s, g.process.render K ctl samples numThreads fuel = some s →
          (Event.swap ∈ s.log ↔
            ∃ i, i < (clampThreads g.process.maxThreads numThreads).toNat
              ∧ s.imageSamples i ≠ 0)) := by
  obtain ⟨hr, -, -⟩ := runFrame_some K ctl numThreads fuel g.switchFrame r hrun
  have hp : g.switchFrame.process = g.process := rfl
  rw [hp] at hr
  obtain ⟨c1, c2, c3⟩ := render_swap_cases K ctl g.process _ numThreads fuel r.2 hdb hr
  have hdelta : ∀ i, r.2.imageSamples i - dataOf g.switchFrame.samples i
      = r.2.imageSamples i := by
    intro i; rw [dataOf_switchFrame]; ring
  simp only [hdelta]
  exact ⟨c1, c2, c3, fun samples s hs =>
    (render_swap_cases K ctl g.process samples numThreads fuel s hdb hs).1⟩

/-- Witness of C6: a generation of the double-buffered integration with the scenario kernel
and an abort after the first round; `render()` returns and the statement applies to its
result. -/
theorem swap_iff_samples_produced_witness :
    integration4Double.process.framebuffersDouble ≠ []
      ∧ ∃ r, integration4Double.switchFrame.runFrame kernel10 abortAfterFirstRound 4 1 = some r
          ∧ (Event.swap ∈ r.2.log ↔
              ∃ i, i < (clampThreads integration4Double.process.maxThreads 4).toNat
                ∧ r.2.imageSamples i - dataOf integration4Double.switchFrame.samples i ≠ 0) := by
  have hdb : integration4Double.process.framebuffersDouble ≠ [] := by decide
  have hsome : (integration4Double.switchFrame.runFrame kernel10 abortAfterFirstRound 4
      1).isSome = true := rfl
  obtain ⟨r, hr⟩ := Option.isSome_iff_exists.mp hsome
  exact ⟨hdb, r, hr,
    (swap_iff_samples_produced kernel10 abortAfterFirstRound integration4Double 4 1 r hdb hr).1⟩

theorem parallel_execution_blocks (K : Kernel) (n : Int) (s : RenderState) (tid b : Nat)
    (hb : b ≠ s.proc.framebuffers.getD tid 0) :
    (parallel_execution K n s tid).proc.blocks b = s.proc.blocks b := by
  show Function.update s.proc.blocks (s.proc.framebuffers.getD tid 0) _ b = _
  exact Function.update_noteq hb _ _

theorem foldl_parallel_execution_blocks (K : Kernel) (n : Int) (l : List Nat)
    (s : RenderState) (b : Nat) (hb : ∀ tid ∈ l, b ≠ s.proc.framebuffers.getD tid 0) :
    (l.foldl (parallel_execution K n) s).proc.blocks b = s.proc.blocks b := by
  induction l generalizing s with
  | nil => rfl
  | cons a l ih =>
    rw [List.foldl_cons, ih]
    · exact parallel_execution_blocks K n s a b (hb a (List.mem_cons_self _ _))
    · intro tid htid
      have e : (parallel_execution K n s a).proc.framebuffers = s.proc.framebuffers := rfl
      rw [e]
      exact hb tid (List.mem_cons_of_mem _ htid)

theorem renderRound_blocks (K : Kernel) (c : Controls) (n : Int) (s : RenderState) (b : Nat)
    (hb : ∀ tid, tid < n.toNat → b ≠ s.proc.framebuffers.getD tid 0) :
    (renderRound K c n s).proc.blocks b = s.proc.blocks b := by
  have h1 : (runWorkers K n (roundBase n s)).proc.blocks b = s.proc.blocks b := by
    simp only [runWorkers]
    exact foldl_parallel_execution_blocks K n (List.range n.toNat) _ b
      (fun tid htid => hb tid (List.mem_range.mp htid))
  simp only [renderRound]
  cases hm : moreRoundsAfterJoin (runWorkers K n (roundBase n s)).returnCode c
  · rw [restartDecision_stop K c _ hm]; exact h1
  · rw [restartDecision_more K c _ hm]; exact h1

theorem getD_mem_of_lt (l : List Nat) (i : Nat) (h : i < l.length) : l.getD i 0 ∈ l := by
  rw [List.getD_eq_getElem _ _ h]
  exact List.getElem_mem h

theorem clampThreads_le (maxThreads numThreads : Int) :
    clampThreads maxThreads numThreads ≤ maxThreads := by
  rw [clampThreads_eq]; split_ifs with h
  · exact h.2
  · exact le_refl _

/-- The method `render()` writes no image block outside the active set. -/
theorem renderAfter_blocks (K : Kernel) (ctl : Nat → Controls) (p : InteractiveSceneProcess)
    (samples : Nat → ℚ) (numThreads : Int) (hwf : p.WellFormed) (b : Nat)
    (hb : b ∉ p.framebuffers) (k : Nat) :
    (p.renderAfter K ctl samples numThreads k).proc.blocks b = p.blocks b := by
  obtain ⟨w1, w2, -, -⟩ := hwf
  have hlen : 0 < p.framebuffers.length := by rw [w2]; omega
  induction k with
  | zero =>
    show Function.update p.blocks (p.framebuffers.getD 0 0) _ b = p.blocks b
    have hne : b ≠ p.framebuffers.getD 0 0 := fun h =>
      hb (h ▸ getD_mem_of_lt p.framebuffers 0 hlen)
    exact Function.update_noteq hne _ _
  | succ k ih =>
    by_cases hrun : (p.renderAfter K ctl samples numThreads k).moreRounds = true
    · rw [(renderAfter_succ K numThreads ctl p samples k hrun).2.2, renderRound_blocks, ih]
      intro tid htid
      have hst := renderRounds_statics K (clampThreads p.maxThreads numThreads) ctl k
        (renderBegin p samples numThreads)
      have s5 : (p.renderAfter K ctl samples numThreads k).proc.framebuffers
          = p.framebuffers := hst.2.2.2.2.1
      rw [s5]
      have hc := clampThreads_le p.maxThreads numThreads
      have hlt : tid < p.framebuffers.length := by rw [w2]; omega
      exact fun h => hb (h ▸ getD_mem_of_lt p.framebuffers tid hlt)
    · rw [renderAfter_stopped_succ K ctl p samples numThreads k hrun]
      exact ih

theorem resizeRefs_length (v : List Nat) (n : Nat) : (resizeRefs v n).length = n := by
  simp [resizeRefs]; omega

theorem foldl_set_length (f : List Nat → Nat → Nat) (l : List Nat) (fb : List Nat) :
    (l.foldl (fun fb j => fb.set j (f fb j)) fb).length = fb.length := by
  induction l generalizing fb with
  | nil => rfl
  | cons a l ih => rw [List.foldl_cons, ih]; simp

theorem foldl_copy_slot0 (m : Nat) (fb : List Nat) (i : Nat) (h0 : fb.getD 0 0 = i) :
    ∀ j, j < fb.length → j ≤ m →
      ((List.range' 1 m).foldl (fun fb j => fb.set j (fb.getD 0 0)) fb).getD j 0 = i := by
  induction m with
  | zero =>
    intro j hj hm
    have : j = 0 := by omega
    subst this; simpa using h0
  | succ m ih =>
    intro j hj hm
    rw [List.range'_1_concat, List.foldl_append]
    simp only [List.foldl_cons, List.foldl_nil]
    have hlen := foldl_set_length (fun fb _ => fb.getD 0 0) (List.range' 1 m) fb
    by_cases hjm : j = 1 + m
    · subst hjm
      rw [List.getD_eq_getElem _ _ (by rw [List.length_set, hlen]; omega)]
      rw [List.getElem_set_self]
      exact ih 0 (by omega) (by omega)
    · have := ih j hj (by omega)
      rw [List.getD_eq_getElem?_getD, List.getElem?_set_ne (by omega)]
      rw [List.getD_eq_getElem?_getD] at this
      exact this

theorem foldl_set_range (g : Nat → Nat) (m : Nat) (d : List Nat) :
    ∀ j, j < d.length →
      ((List.range m).foldl (fun d j => d.set j (g j)) d).getD j 0
        = if j < m then g j else d.getD j 0 := by
  induction m with
  | zero => intro j _; simp
  | succ m ih =>
    intro j hj
    rw [List.range_succ, List.foldl_append]
    simp only [List.foldl_cons, List.foldl_nil]
    have hlen := foldl_set_length (fun _ j => g j) (List.range m) d
    by_cases hjm : j = m
    · subst hjm
      rw [List.getD_eq_getElem _ _ (by rw [List.length_set, hlen]; exact hj)]
      rw [List.getElem_set_self]
      simp
    · have := ih j hj
      rw [List.getD_eq_getElem?_getD, List.getElem?_set_ne (fun h => hjm h.symm)]
      rw [List.getD_eq_getElem?_getD] at this
      rw [this]
      by_cases h1 : j < m
      · have h2 : j < m + 1 := by omega
        simp [h1, h2]
      · have h2 : ¬ j < m + 1 := by omega
        simp [h1, h2]

theorem eq_replicate_of_getD (l : List Nat) (n i : Nat) (hlen : l.length = n)
    (h : ∀ j, j < n → l.getD j 0 = i) : l = List.replicate n i := by
  rw [List.eq_replicate_iff]
  refine ⟨hlen, fun b hb => ?_⟩
  obtain ⟨j, hj, rfl⟩ := List.mem_iff_getElem.mp hb
  have := h j (hlen ▸ hj)
  rw [List.getD_eq_getElem _ _ hj] at this
  exact this

/-- The closed form of one pass of the constructor loop: every slot of the new active set and
of its data pointers holds the block allocated by the pass. -/
theorem allocSet_eq (pixels : List ℚ) (i : Nat) (p : InteractiveSceneProcess) :
    (p.allocSet pixels i).framebuffers = List.replicate p.maxThreads.toNat i
      ∧ (p.allocSet pixels i).frambufferData = List.replicate p.maxThreads.toNat i
      ∧ (p.allocSet pixels i).framebuffersDouble
          = (if i ≠ 0 then p.framebuffers else p.framebuffersDouble)
      ∧ (p.allocSet pixels i).frambufferDataDouble
          = (if i ≠ 0 then p.frambufferData else p.frambufferDataDouble)
      ∧ (p.allocSet pixels i).maxThreads = p.maxThreads
      ∧ (p.allocSet pixels i).uniqueTargets = 1 := by
  have key : ∀ (fb dt : List Nat) (n : Nat),
      (List.range' 1 (n - 1)).foldl (fun fb j => fb.set j (fb.getD 0 0))
          ((resizeRefs fb n).set 0 i) = List.replicate n i
        ∧ (List.range n).foldl (fun d j => d.set j
            (((List.range' 1 (n - 1)).foldl (fun fb j => fb.set j (fb.getD 0 0))
              ((resizeRefs fb n).set 0 i)).getD j 0)) (resizeRefs dt n) = List.replicate n i := by
    intro fb dt n
    have hl0 : ((resizeRefs fb n).set 0 i).length = n := by
      rw [List.length_set, resizeRefs_length]
    have hfb : (List.range' 1 (n - 1)).foldl (fun fb j => fb.set j (fb.getD 0 0))
          ((resizeRefs fb n).set 0 i) = List.replicate n i := by
      apply eq_replicate_of_getD
      · rw [foldl_set_length (fun fb _ => fb.getD 0 0), hl0]
      · intro j hj
        apply foldl_copy_slot0
        · rw [List.getD_eq_getElem _ _ (by rw [hl0]; omega), List.getElem_set_self]
        · rw [hl0]; exact hj
        · omega
    refine ⟨hfb, ?_⟩
    rw [hfb]
    apply eq_replicate_of_getD
    · rw [foldl_set_length (fun _ j => (List.replicate n i).getD j 0), resizeRefs_length]
    · intro j hj
      rw [foldl_set_range (fun j => (List.replicate n i).getD j 0) n _ j
        (by rw [resizeRefs_length]; exact hj), if_pos hj]
      rw [List.getD_eq_getElem _ _ (by simp; exact hj)]
      simp
  unfold InteractiveSceneProcess.allocSet
  by_cases hi : i = 0
  · subst hi
    simp only [ne_eq, not_true_eq_false, if_false]
    refine ⟨(key _ [] _).1, (key _ _ _).2, ?_, ?_, ?_, ?_⟩ <;> trivial
  · simp only [ne_eq, hi, not_false_eq_true, if_true]
    refine ⟨(key _ [] _).1, (key _ _ _).2, ?_, ?_, ?_, ?_⟩ <;> trivial

/-- The buffer sets that the constructor leaves, in closed form. -/
theorem create_sets (K : Kernel) (coreCount : Int) (sampler : Sampler) (pixels : List ℚ)
    (config : ProcessConfig) :
    (InteractiveSceneProcess.create K coreCount sampler pixels config).maxThreads
        = (if config.maxThreads > 0 ∧ config.maxThreads < coreCount then config.maxThreads
           else coreCount)
      ∧ (InteractiveSceneProcess.create K coreCount sampler pixels config).uniqueTargets = 1
      ∧ (InteractiveSceneProcess.create K coreCount sampler pixels config).framebuffers
          = List.replicate
              (InteractiveSceneProcess.create K coreCount sampler pixels config).maxThreads.toNat
              config.doubleBuffered.toNat
      ∧ (InteractiveSceneProcess.create K coreCount sampler pixels config).frambufferData
          = List.replicate
              (InteractiveSceneProcess.create K coreCount sampler pixels config).maxThreads.toNat
              config.doubleBuffered.toNat
      ∧ (InteractiveSceneProcess.create K coreCount sampler pixels config).framebuffersDouble
          = (if config.doubleBuffered then List.replicate
              (InteractiveSceneProcess.create K coreCount sampler pixels config).maxThreads.toNat
              0 else [])
      ∧ (InteractiveSceneProcess.create K coreCount sampler pixels config).frambufferDataDouble
          = (if config.doubleBuffered then List.replicate
              (InteractiveSceneProcess.create K coreCount sampler pixels config).maxThreads.toNat
              0 else []) := by
  obtain ⟨m, d⟩ := config
  cases d
  · obtain ⟨h1, h2, h3, h4, h5, h6⟩ := allocSet_eq pixels 0
      { paused := true, numActiveThreads := 0
        maxThreads := if m > 0 ∧ m < coreCount then m else coreCount
        uniqueTargets := 0, samplerPrototype := sampler
        samplers := List.replicate (if m > 0 ∧ m < coreCount then m else coreCount).toNat sampler
        framebuffers := [], frambufferData := [], sppBase := []
        framebuffersDouble := [], frambufferDataDouble := []
        workers := [], imageData := [], blocks := fun _ => [] }
    exact ⟨h5, h6, h1, h2, h3, h4⟩
  · obtain ⟨a1, a2, -, -, a5, -⟩ := allocSet_eq pixels 0
      { paused := true, numActiveThreads := 0
        maxThreads := if m > 0 ∧ m < coreCount then m else coreCount
        uniqueTargets := 0, samplerPrototype := sampler
        samplers := List.replicate (if m > 0 ∧ m < coreCount then m else coreCount).toNat sampler
        framebuffers := [], frambufferData := [], sppBase := []
        framebuffersDouble := [], frambufferDataDouble := []
        workers := [], imageData := [], blocks := fun _ => [] }
    obtain ⟨h1, h2, h3, h4, h5, h6⟩ := allocSet_eq pixels 1
      (InteractiveSceneProcess.allocSet pixels 0
        { paused := true, numActiveThreads := 0
          maxThreads := if m > 0 ∧ m < coreCount then m else coreCount
          uniqueTargets := 0, samplerPrototype := sampler
          samplers :=
            List.replicate (if m > 0 ∧ m < coreCount then m else coreCount).toNat sampler
          framebuffers := [], frambufferData := [], sppBase := []
          framebuffersDouble := [], frambufferDataDouble := []
          workers := [], imageData := [], blocks := fun _ => [] })
    rw [if_pos one_ne_zero] at h3 h4
    rw [a1] at h3
    rw [a2] at h4
    rw [a5] at h1 h2 h5
    exact ⟨h5, h6, h1, h2, h3, h4⟩

/-- The constructor establishes the shape of the buffer sets. -/
theorem create_wellFormed (K : Kernel) (coreCount : Int) (sampler : Sampler) (pixels : List ℚ)
    (config : ProcessConfig) (hcore : 0 < coreCount) :
    (InteractiveSceneProcess.create K coreCount sampler pixels config).WellFormed := by
  obtain ⟨h1, -, h3, -, h5, -⟩ := create_sets K coreCount sampler pixels config
  have hmax : 0 < (InteractiveSceneProcess.create K coreCount sampler pixels config).maxThreads := by
    rw [h1]
    split_ifs with h
    · exact h.1
    · exact hcore
  refine ⟨hmax, by rw [h3]; simp, ?_, ?_⟩
  · intro hne
    rw [h5] at hne ⊢
    split_ifs with hd
    · simp
    · rw [if_neg hd] at hne
      exact absurd rfl hne
  · intro b hb hb2
    rw [h5] at hb
    rw [h3] at hb2
    cases hd : config.doubleBuffered
    · rw [hd] at hb; simp at hb
    · rw [hd] at hb hb2
      simp only [if_true, List.mem_replicate, Bool.toNat_true] at hb hb2
      omega

/-- The method `render()` keeps the shape of the buffer sets. -/
theorem render_wellFormed (K : Kernel) (ctl : Nat → Controls) (p : InteractiveSceneProcess)
    (samples : Nat → ℚ) (numThreads : Int) (fuel : Nat) (r : RenderState)
    (hwf : p.WellFormed) (hr : p.render K ctl samples numThreads fuel = some r) :
    r.proc.WellFormed := by
  obtain ⟨-, hr2⟩ := render_some K ctl p samples numThreads fuel r hr
  have hst := renderRounds_statics K (clampThreads p.maxThreads numThreads) ctl fuel
    (renderBegin p samples numThreads)
  obtain ⟨-, -, s3, -, s5, -, s7, -, -, -⟩ := hst
  have s3 : (p.renderAfter K ctl samples numThreads fuel).proc.maxThreads = p.maxThreads := s3
  have s5 : (p.renderAfter K ctl samples numThreads fuel).proc.framebuffers
      = p.framebuffers := s5
  have s7 : (p.renderAfter K ctl samples numThreads fuel).proc.framebuffersDouble
      = p.framebuffersDouble := s7
  obtain ⟨w1, w2, w3, w4⟩ := hwf
  rw [hr2, renderEnd]
  split_ifs with h1 h2
  · refine ⟨by simpa [s3] using w1, ?_, ?_, ?_⟩
    · simp only [s3, s7]; exact w3 (by rw [← s7]; exact h1)
    · intro _; simp only [s3, s5]; exact w2
    · intro b hb hb2
      simp only [s5] at hb
      simp only [s7] at hb2
      exact w4 b hb2 hb
  · exact ⟨by rw [s3]; exact w1, by rw [s5, s3]; exact w2, by rw [s7, s3]; exact w3,
      by rw [s5, s7]; exact w4⟩
  · exact ⟨by rw [s3]; exact w1, by rw [s5, s3]; exact w2, by rw [s7, s3]; exact w3,
      by rw [s5, s7]; exact w4⟩

/-- C7.  If a generation produces a zero sample delta on every active worker, the buffer set
that is not being rendered into, the one completed by the previous generation, is identical
after `render()` returns: `render()` clears and writes only image blocks of the active set
`framebuffers` (last part: whatever the counters and the outcome), so every block of
`framebuffersDouble` keeps its pixels, and no swap takes place, so both sets and their data
pointers stay in their slots.  This holds for every process whose buffer sets have the shape
the constructor gives them, in particular with double buffering enabled. -/
theorem displayed_buffer_unchanged (K : Kernel) (ctl : Nat → Controls) (g : Integration)
    (numThreads : Int) (fuel : Nat) (r : Integration × RenderState)
    (hwf : g.process.WellFormed)
    (hrun : g.switchFrame.runFrame K ctl numThreads fuel = some r)
    (hzero : ∀ i, i < (clampThreads g.process.maxThreads numThreads).toNat →
      r.2.imageSamples i - dataOf g.switchFrame.samples i = 0) :
    (∀ b ∈ g.process.framebuffersDouble, r.2.proc.blocks b = g.process.blocks b)
      ∧ (∀ b, b ∉ g.process.framebuffers → r.2.proc.blocks b = g.process.blocks b)
      ∧ Event.swap ∉ r.2.log
      ∧ r.2.proc.framebuffers = g.process.framebuffers
      ∧ r.2.proc.framebuffersDouble = g.process.framebuffersDouble
      ∧ r.2.proc.frambufferData = g.process.frambufferData
      ∧ r.2.proc.frambufferDataDouble = g.process.frambufferDataDouble
      ∧ r.1.process = r.2.proc
      ∧ (∀ samples s, g.process.render K ctl samples numThreads fuel = some s →
          ∀ b, b ∉ g.process.framebuffers → s.proc.blocks b = g.process.blocks b) := by
  obtain ⟨hr, hproc, -⟩ := runFrame_some K ctl numThreads fuel g.switchFrame r hrun
  have hp : g.switchFrame.process = g.process := rfl
  rw [hp] at hr
  obtain ⟨-, hr2⟩ := render_some K ctl g.process _ numThreads fuel r.2 hr
  obtain ⟨-, -, -, -, e5⟩ := renderEnd_statics (clampThreads g.process.maxThreads numThreads)
    (g.process.renderAfter K ctl (dataOf g.switchFrame.samples) numThreads fuel)
  rw [← hr2] at e5
  have hrev : hadRevisions (clampThreads g.process.maxThreads numThreads)
      (g.process.renderAfter K ctl (dataOf g.switchFrame.samples) numThreads fuel).imageSamples
        = false := by
    cases hx : hadRevisions (clampThreads g.process.maxThreads numThreads)
      (g.process.renderAfter K ctl (dataOf g.switchFrame.samples) numThreads fuel).imageSamples
    · rfl
    · obtain ⟨i, hi, hne⟩ := (hadRevisions_iff _ _).mp hx
      rw [← e5] at hne
      have h0 := hzero i hi
      rw [dataOf_switchFrame, sub_zero] at h0
      exact absurd h0 hne
  have hr3 : r.2 = g.process.renderAfter K ctl (dataOf g.switchFrame.samples) numThreads
      fuel := by
    rw [hr2, renderEnd, hrev]
    simp
  have hst := renderRounds_statics K (clampThreads g.process.maxThreads numThreads) ctl fuel
    (renderBegin g.process (dataOf g.switchFrame.samples) numThreads)
  obtain ⟨-, -, -, -, s5, s6, s7, s8, -, -⟩ := hst
  have hblocks : ∀ b, b ∉ g.process.framebuffers → r.2.proc.blocks b = g.process.blocks b := by
    intro b hb
    rw [hr3]
    exact renderAfter_blocks K ctl g.process _ numThreads hwf b hb fuel
  refine ⟨fun b hb => hblocks b (hwf.2.2.2 b hb), hblocks, ?_, ?_, ?_, ?_, ?_, hproc, ?_⟩
  rotate_left 5
  · intro samples s hs b hb
    obtain ⟨-, hs2⟩ := render_some K ctl g.process samples numThreads fuel s hs
    rw [hs2, (renderEnd_statics _ _).2.2.2.1]
    exact renderAfter_blocks K ctl g.process samples numThreads hwf b hb fuel
  · rw [hr3]; exact renderAfter_noSwap K ctl g.process _ numThreads fuel
  · rw [hr3]; exact s5
  · rw [hr3]; exact s7
  · rw [hr3]; exact s6
  · rw [hr3]; exact s8

theorem renderAfter_counter_idle (K : Kernel) (ctl : Nat → Controls)
    (p : InteractiveSceneProcess) (samples : Nat → ℚ) (numThreads : Int) (i : Nat)
    (hK : ∀ r, (K.render r i (clampThreads p.maxThreads numThreads)).progress = []) (k : Nat) :
    (p.renderAfter K ctl samples numThreads k).imageSamples i = samples i := by
  induction k with
  | zero => rfl
  | succ k ih =>
    by_cases hrun : (p.renderAfter K ctl samples numThreads k).moreRounds = true
    · obtain ⟨hrounds, -, hstep⟩ := renderAfter_succ K numThreads ctl p samples k hrun
      obtain ⟨c1, -, -⟩ := renderRound_counter K (clampThreads p.maxThreads numThreads)
        (ctl k) (p.renderAfter K ctl samples numThreads k) i
      rw [← hstep] at c1
      rw [c1, ih]
      have hw : ∀ base, workerStores K (clampThreads p.maxThreads numThreads)
          (p.renderAfter K ctl samples numThreads k).rounds base i = [] := by
        intro base; simp [workerStores, hK]
      rw [hw]
      simp
    · rw [renderAfter_stopped_succ K ctl p samples numThreads k hrun]
      exact ih

/-- Witness of C7: a generation of the double-buffered integration with a kernel that paints
its block but reports no samples, aborted after the first round. -/
theorem displayed_buffer_unchanged_witness :
    integration4Double.process.framebuffersDouble ≠ []
      ∧ integration4Double.process.WellFormed
      ∧ ∃ r, integration4Double.switchFrame.runFrame kernelIdle abortAfterFirstRound 4 1
            = some r
          ∧ (∀ b ∈ integration4Double.process.framebuffersDouble,
              r.2.proc.blocks b = integration4Double.process.blocks b)
          ∧ Event.swap ∉ r.2.log := by
  have hdb : integration4Double.process.framebuffersDouble ≠ [] := by decide
  have hwf : integration4Double.process.WellFormed := by
    unfold InteractiveSceneProcess.WellFormed
    decide
  have hsome : (integration4Double.switchFrame.runFrame kernelIdle abortAfterFirstRound 4
      1).isSome = true := rfl
  obtain ⟨r, hr⟩ := Option.isSome_iff_exists.mp hsome
  obtain ⟨hr1, -, -⟩ := runFrame_some kernelIdle abortAfterFirstRound 4 1
    integration4Double.switchFrame r hr
  obtain ⟨-, hr2⟩ := render_some kernelIdle abortAfterFirstRound _ _ 4 1 r.2 hr1
  have hzero : ∀ i, i < (clampThreads integration4Double.process.maxThreads 4).toNat →
      r.2.imageSamples i - dataOf integration4Double.switchFrame.samples i = 0 := by
    intro i _
    have e5 := (renderEnd_statics (clampThreads integration4Double.switchFrame.process.maxThreads 4)
      (InteractiveSceneProcess.renderAfter kernelIdle abortAfterFirstRound
        integration4Double.switchFrame.process
        (dataOf integration4Double.switchFrame.samples) 4 1)).2.2.2.2
    rw [hr2, e5,
      renderAfter_counter_idle kernelIdle abortAfterFirstRound _ _ 4 i (fun _ => rfl) 1]
    exact sub_self _
  have h := displayed_buffer_unchanged kernelIdle abortAfterFirstRound integration4Double 4 1 r
    hwf hr hzero
  exact ⟨hdb, hwf, r, hr, h.1, h.2.2.1⟩

/-! ## Resets of the counters (C4) -/

theorem mem_storesOf (tid : Nat) (v : ℚ) (log : List Event) :
    Event.store tid v ∈ log ↔ v ∈ storesOf tid log := by
  induction log with
  | nil => simp [storesOf]
  | cons e log ih =>
    have hc : storesOf tid (e :: log) = storesOf tid [e] ++ storesOf tid log :=
      storesOf_append tid [e] log
    rw [hc, List.mem_append, List.mem_cons, ih]
    cases e with
    | store t w =>
      by_cases ht : t = tid
      · subst ht; simp [storesOf, eq_comm]
      · have ht2 : ¬ tid = t := fun h => ht h.symm
        simp [storesOf, ht, ht2]
    | clear b => simp [storesOf]
    | start t => simp [storesOf]
    | join t => simp [storesOf]
    | reconfigure a m => simp [storesOf]
    | swap => simp [storesOf]

theorem workerStores_gt_base (K : Kernel) (n : Int) (r : Nat) (base : ℚ) (tid : Nat)
    (hnn : ∀ x ∈ (K.render r tid n).progress, 0 ≤ x) :
    ∀ v ∈ workerStores K n r base tid, base < v := by
  intro v hv
  rw [workerStores_eq_filter] at hv
  simp only [List.mem_map, List.mem_filter, decide_eq_true_eq] at hv
  obtain ⟨x, ⟨hx, hne⟩, rfl⟩ := hv
  have := lt_of_le_of_ne (hnn x hx) (Ne.symm hne)
  linarith

/-- With a kernel that reports non-negative `spp` values and a counter that is not negative on
entry, the counter stays non-negative and every value stored into it is positive. -/
theorem stores_positive (K : Kernel) (ctl : Nat → Controls) (p : InteractiveSceneProcess)
    (samples : Nat → ℚ) (numThreads : Int) (tid : Nat)
    (hnn : ∀ r, ∀ x ∈ (K.render r tid (clampThreads p.maxThreads numThreads)).progress, 0 ≤ x)
    (h0 : 0 ≤ samples tid) (k : Nat) :
    0 ≤ (p.renderAfter K ctl samples numThreads k).imageSamples tid
      ∧ ∀ v ∈ storesOf tid (p.renderAfter K ctl samples numThreads k).log, 0 < v := by
  induction k with
  | zero =>
    have e0 : storesOf tid (p.renderAfter K ctl samples numThreads 0).log = [] := rfl
    have e1 : (p.renderAfter K ctl samples numThreads 0).imageSamples tid = samples tid := rfl
    rw [e0, e1]
    exact ⟨h0, fun v hv => by simp at hv⟩
  | succ k ih =>
    by_cases hrun : (p.renderAfter K ctl samples numThreads k).moreRounds = true
    · obtain ⟨hrounds, -, hstep⟩ := renderAfter_succ K numThreads ctl p samples k hrun
      obtain ⟨c1, c2, -⟩ := renderRound_counter K (clampThreads p.maxThreads numThreads)
        (ctl k) (p.renderAfter K ctl samples numThreads k) tid
      rw [← hstep, hrounds] at c1 c2
      obtain ⟨j1, j2⟩ := ih
      have hb0 : 0 ≤ nextBase (p.renderAfter K ctl samples numThreads k) tid := by
        unfold nextBase
        split_ifs
        · exact le_refl _
        · exact j1
      have hnew : ∀ v ∈ workerStores K (clampThreads p.maxThreads numThreads) k
          (nextBase (p.renderAfter K ctl samples numThreads k) tid) tid, 0 < v :=
        fun v hv => lt_of_le_of_lt hb0 (workerStores_gt_base K _ k _ tid (hnn k) v hv)
      rw [c1, c2]
      by_cases hi : tid < (clampThreads p.maxThreads numThreads).toNat
      · rw [if_pos hi, if_pos hi]
        constructor
        · cases hw : (workerStores K (clampThreads p.maxThreads numThreads) k
              (nextBase (p.renderAfter K ctl samples numThreads k) tid) tid).getLast? with
          | none => simpa using j1
          | some v =>
            simp only [Option.getD_some]
            exact le_of_lt (hnew v (List.mem_of_mem_getLast? hw))
        · intro v hv
          rcases List.mem_append.mp hv with h1 | h1
          · exact j2 v h1
          · exact hnew v h1
      · rw [if_neg hi, if_neg hi, List.append_nil]
        exact ⟨j1, j2⟩
    · rw [renderAfter_stopped_succ K ctl p samples numThreads k hrun]
      exact ih

theorem renderEnd_log_store (n : Int) (s : RenderState) (tid : Nat) (v : ℚ) :
    Event.store tid v ∈ (renderEnd n s).log ↔ Event.store tid v ∈ s.log := by
  unfold renderEnd
  split_ifs <;> simp

/-- C4.  Sample counters are reset to zero exactly at generation boundaries.  Every unit of
work of the render worker that reaches rendering has zeroed all counter slots (`switchFrame`)
immediately before it calls `render()`: the renderer at the call is the one that left the
synchronisation loop with `switchFrame` applied, its counters are all zero, as many as before,
and `render()` is called on them.  And `render()` itself never writes 0 into a counter: no
store made during the call, in any round, has the value 0.  The kernel is one that reports
only non-negative `spp` values (hypothesis `hK`): `spp` is a number of samples per pixel, and
this is the contract under which the counters are read as sample counts. -/
theorem work_resets_counters (K : Kernel) (flags : Nat → Bool × Int)
    (sync : Nat → Renderer → Renderer × Bool) (numThreads : Int) (fuelSync fuelRender : Nat)
    (r atCall : Renderer) (result : Option (Integration × RenderState))
    (hK : ∀ round tid n, ∀ x ∈ (K.render round tid n).progress, 0 ≤ x)
    (hwork : r.work K flags sync numThreads fuelSync fuelRender
      = WorkOutcome.rendered atCall result) :
    (∃ r1, Renderer.syncLoop sync fuelSync 0 { r with restart := 0 } = some (r1, true)
        ∧ atCall = { r1 with integration := r1.integration.switchFrame }
        ∧ atCall.integration.samples.length = r1.integration.samples.length)
      ∧ atCall.integration.samples = List.replicate atCall.integration.samples.length 0
      ∧ result = atCall.integration.runFrame K (Renderer.controls flags) numThreads fuelRender
      ∧ (∀ k tid v,
          Event.store tid v ∈ (atCall.integration.process.renderAfter K
            (Renderer.controls flags) (dataOf atCall.integration.samples) numThreads k).log →
          v ≠ 0)
      ∧ (∀ res, result = some res → ∀ tid v, Event.store tid v ∈ res.2.log → v ≠ 0) := by
  simp only [Renderer.work] at hwork
  cases hs : Renderer.syncLoop sync fuelSync 0 { r with restart := 0 } with
  | none => simp only [hs] at hwork; exact absurd hwork (by simp)
  | some x =>
    obtain ⟨r1, b⟩ := x
    simp only [hs] at hwork
    cases b with
    | false => exact absurd hwork (by simp)
    | true =>
      simp only [WorkOutcome.rendered.injEq] at hwork
      obtain ⟨hat, hres⟩ := hwork
      subst hat
      subst hres
      have hzeros : ({ r1 with integration := r1.integration.switchFrame } :
          Renderer).integration.samples
          = List.replicate ({ r1 with integration := r1.integration.switchFrame } :
              Renderer).integration.samples.length 0 := by
        simp [Integration.switchFrame, List.eq_replicate_iff]
      have hdata : ∀ tid, dataOf r1.integration.switchFrame.samples tid = 0 :=
        fun tid => dataOf_switchFrame r1.integration tid
      have hstores : ∀ k tid v,
          Event.store tid v ∈ (r1.integration.switchFrame.process.renderAfter K
            (Renderer.controls flags) (dataOf r1.integration.switchFrame.samples)
            numThreads k).log →
          v ≠ 0 := by
        intro k tid v hv
        rw [mem_storesOf] at hv
        exact ne_of_gt ((stores_positive K (Renderer.controls flags)
          r1.integration.switchFrame.process
          (dataOf r1.integration.switchFrame.samples) numThreads tid (fun r => hK r tid _)
          (le_of_eq (hdata tid).symm) k).2 v hv)
      refine ⟨⟨r1, rfl, rfl, ?_⟩, hzeros, rfl, hstores, ?_⟩
      · simp [Integration.switchFrame]
      · intro res hresult tid v hv
        obtain ⟨hr1, -, -⟩ := runFrame_some K (Renderer.controls flags) numThreads fuelRender
          r1.integration.switchFrame res hresult
        obtain ⟨-, hr2⟩ := render_some K (Renderer.controls flags)
          r1.integration.switchFrame.process _ numThreads fuelRender res.2 hr1
        rw [hr2, renderEnd_log_store] at hv
        exact hstores fuelRender tid v hv

/-- Witness of C4: a unit of work of a renderer with nothing to synchronise, whose counters
hold 7 in every slot on entry, with the scenario kernel. -/
theorem work_resets_counters_witness :
    renderer4.work kernel10 restartAfterFirstRound (fun _ r => (r, true)) 4 0 1
        = WorkOutcome.rendered
            { renderer4 with restart := 0, integration := renderer4.integration.switchFrame }
            (renderer4.integration.switchFrame.runFrame kernel10
              (Renderer.controls restartAfterFirstRound) 4 1)
      ∧ renderer4.integration.switchFrame.samples = List.replicate 4 0 :=
  have h := work_resets_counters kernel10 restartAfterFirstRound (fun _ r => (r, true)) 4 0 1
    renderer4
    { renderer4 with restart := 0, integration := renderer4.integration.switchFrame }
    (renderer4.integration.switchFrame.runFrame kernel10
      (Renderer.controls restartAfterFirstRound) 4 1)
    (fun _ _ _ x hx => by
      have hx2 : x ∈ [(10 : ℚ)] := hx
      rw [List.mem_singleton] at hx2
      rw [hx2]; norm_num)
    rfl
  ⟨rfl, h.2.1⟩

/-! ## The abort scenario (C5) -/

/-- C5.  The scenario of the specification.  The process has `maxThreads = 4` and one shared
buffer (no double buffer); the counters are initially 0; the kernel reports a progress of
10 samples per call and returns success; `render()` is called with 4 threads and the abort
flag reads true once round 1 has completed.  Then `render()` returns after exactly one round,
with no kernel failure (`returnCode = 0`) and no reconfiguration, and the counters are
`[10, 10, 10, 10]`. -/
theorem scenario_abort_after_first_round (fuel : Nat) :
    process4.maxThreads = 4 ∧ process4.uniqueTargets = 1
      ∧ process4.framebuffers = [0, 0, 0, 0] ∧ process4.framebuffersDouble = []
      ∧ ∃ r, process4.render kernel10 abortAfterFirstRound zeroSamples 4 (fuel + 1) = some r
          ∧ r.returnCode = 0 ∧ r.rounds = 1 ∧ r.moreRounds = false
          ∧ reconfigurations r.log = []
          ∧ r.proc.numActiveThreads = 4
          ∧ (List.range 4).map r.imageSamples = [10, 10, 10, 10] := by
  refine ⟨rfl, rfl, rfl, rfl, ?_⟩
  have hmax : clampThreads process4.maxThreads 4 = 4 := by decide
  obtain ⟨-, -, hstep⟩ := renderAfter_succ kernel10 4 abortAfterFirstRound process4 zeroSamples 0 rfl
  rw [hmax] at hstep
  have hbegin : process4.renderAfter kernel10 abortAfterFirstRound zeroSamples 4 0
      = renderBegin process4 zeroSamples 4 := rfl
  rw [hbegin] at hstep
  have hw := (runWorkers_returnCode kernel10 4 (roundBase 4 (renderBegin process4 zeroSamples 4))).mpr
    ⟨rfl, fun _ _ => rfl⟩
  have hm : moreRoundsAfterJoin
      (runWorkers kernel10 4 (roundBase 4 (renderBegin process4 zeroSamples 4))).returnCode
      (abortAfterFirstRound 0) = false := by
    rw [hw]; rfl
  obtain ⟨m1, -, m3, -, -⟩ := renderRound_stop kernel10 4 (abortAfterFirstRound 0)
    (renderBegin process4 zeroSamples 4) hm
  have hrounds := renderRound_rounds kernel10 4 (abortAfterFirstRound 0)
    (renderBegin process4 zeroSamples 4)
  have hrc : (renderRound kernel10 (abortAfterFirstRound 0) 4
      (renderBegin process4 zeroSamples 4)).returnCode = 0 := by
    simp only [renderRound]
    rw [restartDecision_stop kernel10 _ _ hm]
    exact hw
  have hst := renderRound_statics kernel10 4 (abortAfterFirstRound 0)
    (renderBegin process4 zeroSamples 4)
  obtain ⟨-, s2, -, -, -, -, s7, -⟩ := hst
  rw [← hstep] at m1 m3 hrounds hrc s2 s7
  have hr := render_of_stopped kernel10 abortAfterFirstRound process4 zeroSamples 4 1
    (fuel + 1) m1 (by omega)
  rw [hmax] at hr
  have hend : renderEnd 4 (process4.renderAfter kernel10 abortAfterFirstRound zeroSamples 4 1)
      = process4.renderAfter kernel10 abortAfterFirstRound zeroSamples 4 1 := by
    unfold renderEnd
    rw [s7]
    rfl
  rw [hend] at hr
  refine ⟨_, hr, hrc, hrounds, m1, m3, s2, ?_⟩
  have hc : ∀ i, i < 4 →
      (process4.renderAfter kernel10 abortAfterFirstRound zeroSamples 4 1).imageSamples i
        = 10 := by
    intro i hi
    rw [hstep]
    have h := (renderRound_counter kernel10 4 (abortAfterFirstRound 0)
      (renderBegin process4 zeroSamples 4) i).1
    rw [h]
    have hi2 : i < (4 : Int).toNat := hi
    rw [if_pos hi2]
    simp [workerStores, kernel10, nextBase, renderBegin, Interrupt.store]
  simp [List.range_succ, hc]

/-! ## The thread count (C8) -/

/-- C8.  The method `render()` clamps the requested thread count to the configured maximum
and records the result as the active worker count: at every point of the call, and when it
returns, `numActiveThreads` is the requested count `n` when `0 ≤ n ≤ maxThreads` and is
`maxThreads` otherwise, and it never exceeds `maxThreads` (which the call leaves as it
was). -/
theorem render_clamps_thread_count (K : Kernel) (ctl : Nat → Controls)
    (p : InteractiveSceneProcess) (samples : Nat → ℚ) (numThreads : Int) (k : Nat) :
    let s := p.renderAfter K ctl samples numThreads k
    s.proc.numActiveThreads
        = (if 0 ≤ numThreads ∧ numThreads ≤ p.maxThreads then numThreads else p.maxThreads)
      ∧ s.proc.maxThreads = p.maxThreads
      ∧ s.proc.numActiveThreads ≤ s.proc.maxThreads
      ∧ ∀ r, p.render K ctl samples numThreads k = some r →
          r.proc.numActiveThreads
              = (if 0 ≤ numThreads ∧ numThreads ≤ p.maxThreads then numThreads
                 else p.maxThreads)
            ∧ r.proc.maxThreads = p.maxThreads
            ∧ r.proc.numActiveThreads ≤ r.proc.maxThreads := by
  intro s
  have hst := renderRounds_statics K (clampThreads p.maxThreads numThreads) ctl k
    (renderBegin p samples numThreads)
  obtain ⟨-, h2, h3, -⟩ := hst
  have e1 : s.proc.numActiveThreads = clampThreads p.maxThreads numThreads := h2
  have e2 : s.proc.maxThreads = p.maxThreads := h3
  have e3 : clampThreads p.maxThreads numThreads ≤ p.maxThreads := by
    rw [clampThreads_eq]; split_ifs with h
    · exact h.2
    · exact le_refl _
  refine ⟨by rw [e1, clampThreads_eq], e2, by rw [e1, e2]; exact e3, ?_⟩
  intro r hr
  simp only [InteractiveSceneProcess.render] at hr
  split_ifs at hr
  obtain ⟨f1, f2, -⟩ := renderEnd_statics (clampThreads p.maxThreads numThreads)
    (p.renderAfter K ctl samples numThreads k)
  simp only [Option.some.injEq] at hr
  subst hr
  rw [f1, f2]
  exact ⟨by rw [e1, clampThreads_eq], e2, by rw [e1, e2]; exact e3⟩

/-! ## The pause gate (C9, C10) -/

theorem waitLoop_exits (obs : Nat → Bool × Controls) (fuel i k : Nat)
    (hk : Interrupt.waitCondition (obs k).1 (obs k).2 = false) (hik : i ≤ k)
    (hfuel : k < i + fuel) :
    ∃ j, i ≤ j ∧ j ≤ k ∧ Interrupt.waitLoop obs fuel i = some j := by
  induction fuel generalizing i with
  | zero => omega
  | succ fuel ih =>
    rw [Interrupt.waitLoop]
    by_cases hc : Interrupt.waitCondition (obs i).1 (obs i).2 = true
    · rw [if_pos hc]
      have hne : i ≠ k := by
        intro h; subst h; rw [hk] at hc; exact absurd hc (by simp)
      obtain ⟨j, h1, h2, h3⟩ := ih (i + 1) (by omega) (by omega)
      exact ⟨j, by omega, h2, h3⟩
    · rw [if_neg hc]
      exact ⟨i, le_refl _, hik, rfl⟩

/-- The wait loop started at evaluation `k` is left after evaluation `j` exactly when `j` is
among the `fuel` evaluations made, the condition held at every evaluation from `k` up to `j`
and it failed at `j`. -/
theorem waitLoop_some_iff (obs : Nat → Bool × Controls) (fuel k j : Nat) :
    Interrupt.waitLoop obs fuel k = some j ↔
      k ≤ j ∧ j < k + fuel
        ∧ (∀ i, k ≤ i → i < j → Interrupt.waitCondition (obs i).1 (obs i).2 = true)
        ∧ Interrupt.waitCondition (obs j).1 (obs j).2 = false := by
  induction fuel generalizing k with
  | zero =>
    rw [Interrupt.waitLoop]
    constructor
    · intro h; exact absurd h (by simp)
    · rintro ⟨h1, h2, -, -⟩; omega
  | succ fuel ih =>
    rw [Interrupt.waitLoop]
    by_cases hc : Interrupt.waitCondition (obs k).1 (obs k).2 = true
    · rw [if_pos hc, ih (k + 1)]
      constructor
      · rintro ⟨h1, h2, h3, h4⟩
        refine ⟨by omega, by omega, fun i hi1 hi2 => ?_, h4⟩
        by_cases hik : i = k
        · rw [hik]; exact hc
        · exact h3 i (by omega) hi2
      · rintro ⟨h1, h2, h3, h4⟩
        have hne : k ≠ j := by
          intro h; rw [← h, hc] at h4; exact absurd h4 (by simp)
        exact ⟨by omega, by omega, fun i hi1 hi2 => h3 i (by omega) hi2, h4⟩
    · rw [if_neg hc]
      have hcf : Interrupt.waitCondition (obs k).1 (obs k).2 = false := by
        simpa using hc
      constructor
      · intro h
        have hkj : k = j := Option.some.inj h
        subst hkj
        exact ⟨le_refl _, by omega, fun i hi1 hi2 => by omega, hcf⟩
      · rintro ⟨h1, h2, h3, h4⟩
        by_cases hkj : k = j
        · rw [hkj]
        · have := h3 k (le_refl _) (by omega)
          rw [hcf] at this
          exact absurd this (by simp)

/-- The wait loop started at evaluation `k` is still blocked after `fuel` evaluations exactly
when the condition held at each of them. -/
theorem waitLoop_none_iff (obs : Nat → Bool × Controls) (fuel k : Nat) :
    Interrupt.waitLoop obs fuel k = none ↔
      ∀ i, k ≤ i → i < k + fuel → Interrupt.waitCondition (obs i).1 (obs i).2 = true := by
  induction fuel generalizing k with
  | zero =>
    rw [Interrupt.waitLoop]
    exact ⟨fun _ i h1 h2 => by omega, fun _ => rfl⟩
  | succ fuel ih =>
    rw [Interrupt.waitLoop]
    by_cases hc : Interrupt.waitCondition (obs k).1 (obs k).2 = true
    · rw [if_pos hc, ih (k + 1)]
      constructor
      · intro h i hi1 hi2
        by_cases hik : i = k
        · rw [hik]; exact hc
        · exact h i (by omega) (by omega)
      · intro h i hi1 hi2
        exact h i (by omega) (by omega)
    · rw [if_neg hc]
      constructor
      · intro h; exact absurd h (by simp)
      · intro h
        exact absurd (h k (le_refl _) (by omega)) hc

/-- C9.  The wait condition of the interrupt callback includes the stop checks.  In every
state in which the abort flag is set or the continue flag is cleared the condition is false,
so the callback does not block, or stops blocking, although `paused` is true; the condition
holds exactly when `paused` is true, the continue flag (if supplied) is true and the abort
flag (if supplied) is false.  The callback blocks exactly while the condition holds: entered
with `paused` true, it is still blocked after `fuel` evaluations of the condition if and only
if each of them found the condition true, and it leaves the loop after `j` waits if and only
if the condition held at the evaluations before the `j`-th and failed at the `j`-th; entered
with `paused` false it does not wait.  The value it returns is always 0.  The condition is
evaluated on entry and each time `condition.wait` returns, by a `notify_all` or a spurious
wake-up; the stop requests of the shell (`Document::restart`, which sets the abort flag, and
`Renderer::quit`, called when the lane is told to end) call `pause(false)`, which issues the
`notify_all` and leaves a state in which the condition is false whatever the flags are. -/
theorem progress_wait_includes_stop (paused : Bool) (c : Controls) (sppBase sppTarget spp : ℚ)
    (pausedAtEntry : Bool) (obs : Nat → Bool × Controls) :
    (((∃ a, c.abort = some a ∧ a ≠ 0) ∨ c.continu = some false) →
        Interrupt.waitCondition paused c = false)
      ∧ (Interrupt.waitCondition paused c = true ↔
          paused = true ∧ (c.continu = none ∨ c.continu = some true)
            ∧ (c.abort = none ∨ c.abort = some 0))
      ∧ (∀ fuel r, Interrupt.progress sppBase sppTarget spp pausedAtEntry obs fuel = some r →
          r.2 = 0)
      ∧ (pausedAtEntry = false → ∀ fuel, ∃ v,
          Interrupt.progress sppBase sppTarget spp pausedAtEntry obs fuel = some (v, 0))
      ∧ (∀ k, Interrupt.waitCondition (obs k).1 (obs k).2 = false → ∀ fuel, k < fuel →
          (∃ j, j ≤ k ∧ Interrupt.waitLoop obs fuel 0 = some j)
            ∧ ∃ v, Interrupt.progress sppBase sppTarget spp pausedAtEntry obs fuel
                = some (v, 0))
      ∧ (∀ fuel j, Interrupt.waitLoop obs fuel 0 = some j ↔
          j < fuel
            ∧ (∀ i, i < j → Interrupt.waitCondition (obs i).1 (obs i).2 = true)
            ∧ Interrupt.waitCondition (obs j).1 (obs j).2 = false)
      ∧ (∀ fuel, Interrupt.waitLoop obs fuel 0 = none ↔
          ∀ i, i < fuel → Interrupt.waitCondition (obs i).1 (obs i).2 = true)
      ∧ (pausedAtEntry = true → ∀ fuel,
          (Interrupt.progress sppBase sppTarget spp pausedAtEntry obs fuel = none ↔
            ∀ i, i < fuel → Interrupt.waitCondition (obs i).1 (obs i).2 = true))
      ∧ (pausedAtEntry = true → ∀ fuel j,
          (∀ i, i < j → Interrupt.waitCondition (obs i).1 (obs i).2 = true) →
          Interrupt.waitCondition (obs j).1 (obs j).2 = false → j < fuel →
          Interrupt.waitLoop obs fuel 0 = some j
            ∧ Interrupt.progress sppBase sppTarget spp pausedAtEntry obs fuel
                = some ((Interrupt.store sppBase spp).getD sppTarget, 0))
      ∧ (∀ p : InteractiveSceneProcess, (p.pause false).2 = true
          ∧ Interrupt.waitCondition (p.pause false).1.paused c = false) := by
  have hsome : ∀ fuel j, Interrupt.waitLoop obs fuel 0 = some j ↔
      j < fuel
        ∧ (∀ i, i < j → Interrupt.waitCondition (obs i).1 (obs i).2 = true)
        ∧ Interrupt.waitCondition (obs j).1 (obs j).2 = false := by
    intro fuel j
    rw [waitLoop_some_iff]
    constructor
    · rintro ⟨-, h2, h3, h4⟩
      exact ⟨by omega, fun i hi => h3 i (Nat.zero_le _) hi, h4⟩
    · rintro ⟨h2, h3, h4⟩
      exact ⟨Nat.zero_le _, by omega, fun i _ hi => h3 i hi, h4⟩
  have hnone : ∀ fuel, Interrupt.waitLoop obs fuel 0 = none ↔
      ∀ i, i < fuel → Interrupt.waitCondition (obs i).1 (obs i).2 = true := by
    intro fuel
    rw [waitLoop_none_iff]
    constructor
    · intro h i hi
      exact h i (Nat.zero_le _) (by omega)
    · intro h i _ hi
      exact h i (by omega)
  refine ⟨?_, ?_, ?_, ?_, ?_, hsome, hnone, ?_, ?_, ?_⟩
  · rintro (⟨a, ha, hne⟩ | hc)
    · simp [Interrupt.waitCondition, ha, hne]
    · simp [Interrupt.waitCondition, hc]
  · obtain ⟨cc, ca⟩ := c
    cases paused <;> cases cc with
    | none => cases ca <;> simp [Interrupt.waitCondition]
    | some b => cases b <;> cases ca <;> simp [Interrupt.waitCondition]
  · intro fuel r hr
    unfold Interrupt.progress at hr
    split_ifs at hr
    · cases hw : Interrupt.waitLoop obs fuel 0 with
      | none => rw [hw] at hr; simp at hr
      | some j => rw [hw] at hr; simp at hr; rw [← hr]
    · simp at hr; rw [← hr]
  · intro hp fuel
    exact ⟨(Interrupt.store sppBase spp).getD sppTarget, by simp [Interrupt.progress, hp]⟩
  · intro k hk fuel hfuel
    obtain ⟨j, -, hj, hw⟩ := waitLoop_exits obs fuel 0 k hk (Nat.zero_le _) (by omega)
    refine ⟨⟨j, hj, hw⟩, ?_⟩
    unfold Interrupt.progress
    split_ifs
    · exact ⟨_, by rw [hw]; rfl⟩
    · exact ⟨_, rfl⟩
  · intro hp fuel
    rw [← hnone fuel]
    unfold Interrupt.progress
    rw [if_pos hp]
    cases hw : Interrupt.waitLoop obs fuel 0 with
    | none => simp
    | some j => simp
  · intro hp fuel j h1 h2 h3
    have hw := (hsome fuel j).mpr ⟨h3, h1, h2⟩
    refine ⟨hw, ?_⟩
    unfold Interrupt.progress
    rw [if_pos hp, hw]
    rfl
  · intro p
    refine ⟨rfl, ?_⟩
    have hp : (p.pause false).1.paused = false := rfl
    rw [hp]
    rfl

/-- C10.  The method `InteractiveSceneProcess::pause` is total and idempotent: for every state
and every boolean `b`, `pause(b)` yields the same state with `paused = b` and no other field
changed, a second `pause(b)` changes nothing more, and the broadcast notification is issued
exactly when `b` is false. -/
theorem pause_idempotent (p : InteractiveSceneProcess) (b : Bool) :
    (p.pause b).1.paused = b
      ∧ (p.pause b).1 = { p with paused := b }
      ∧ ((p.pause b).1.pause b).1 = (p.pause b).1
      ∧ ((p.pause b).1.pause b).2 = (p.pause b).2
      ∧ ((p.pause b).2 = true ↔ b = false) := by
  refine ⟨rfl, rfl, rfl, rfl, ?_⟩
  cases b <;> simp [InteractiveSceneProcess.pause]

/-! ## Failure of the reconfiguration (C11) -/

/-- C11.  If round `k` of `render()` runs, every worker of the round returns 0 and the controls
read after the joins do not request a stop, then the reconfiguration is attempted; if
`integrator->allocate` then returns false for the re-cloned samplers, `moreRounds` is false
after the round, no further round is started (the state after any larger number of loop
iterations is the state after round `k`), and `render()` returns. -/
theorem render_reconfiguration_failure (K : Kernel) (ctl : Nat → Controls)
    (p : InteractiveSceneProcess) (samples : Nat → ℚ) (numThreads : Int) (k : Nat)
    (hrun : (p.renderAfter K ctl samples numThreads k).moreRounds = true)
    (hrc : ∀ tid, tid < (clampThreads p.maxThreads numThreads).toNat →
      (K.render k tid (clampThreads p.maxThreads numThreads)).rc = 0)
    (hctl : moreRoundsAfterJoin 0 (ctl k) = true)
    (halloc : K.allocate ((p.renderAfter K ctl samples numThreads k).scramble + 1) = false) :
    (p.renderAfter K ctl samples numThreads (k + 1)).moreRounds = false
      ∧ (p.renderAfter K ctl samples numThreads (k + 1)).rounds = k + 1
      ∧ reconfigurations (p.renderAfter K ctl samples numThreads (k + 1)).log
          = reconfigurations (p.renderAfter K ctl samples numThreads k).log
            ++ [((p.renderAfter K ctl samples numThreads k).scramble + 1, 2)]
      ∧ (∀ m, k + 1 ≤ m →
          p.renderAfter K ctl samples numThreads m
            = p.renderAfter K ctl samples numThreads (k + 1))
      ∧ (∀ fuel, k + 1 ≤ fuel →
          p.render K ctl samples numThreads fuel
            = some (renderEnd (clampThreads p.maxThreads numThreads)
                (p.renderAfter K ctl samples numThreads (k + 1)))) := by
  obtain ⟨hrounds, hrc0, hstep⟩ := renderAfter_succ K numThreads ctl p samples k hrun
  have hcode : (runWorkers K (clampThreads p.maxThreads numThreads)
      (roundBase (clampThreads p.maxThreads numThreads)
        (p.renderAfter K ctl samples numThreads k))).returnCode = 0 := by
    rw [runWorkers_returnCode]
    refine ⟨hrc0, fun t ht => ?_⟩
    have e : (roundBase (clampThreads p.maxThreads numThreads)
        (p.renderAfter K ctl samples numThreads k)).rounds = k := hrounds
    rw [e]
    exact hrc t ht
  have hmore := renderRound_more K (clampThreads p.maxThreads numThreads) (ctl k)
    (p.renderAfter K ctl samples numThreads k) (by rw [hcode]; exact hctl)
  rw [← hstep] at hmore
  obtain ⟨m1, -, m3, -⟩ := hmore
  have hstop : (p.renderAfter K ctl samples numThreads (k + 1)).moreRounds = false := by
    rw [m1, halloc]
  refine ⟨hstop, ?_, m3, ?_, ?_⟩
  · rw [hstep, renderRound_rounds, hrounds]
  · intro m hm
    exact renderRounds_stable K (clampThreads p.maxThreads numThreads) ctl (k + 1) m _ hstop hm
  · intro fuel hfuel
    exact render_of_stopped K ctl p samples numThreads (k + 1) fuel hstop hfuel

/-- C11 at a concrete input: the kernel of the scenario with a failing reallocation, no stop
requested; the first round is the only one. -/
theorem render_reconfiguration_failure_witness :
    (process4.renderAfter kernelNoRealloc neverStop zeroSamples 4 1).moreRounds = false
      ∧ (process4.renderAfter kernelNoRealloc neverStop zeroSamples 4 1).rounds = 1
      ∧ (process4.render kernelNoRealloc neverStop zeroSamples 4 7).isSome = true := by
  have h := render_reconfiguration_failure kernelNoRealloc neverStop process4 zeroSamples 4 0
    rfl (fun _ _ => rfl) rfl rfl
  exact ⟨h.1, h.2.1, by rw [h.2.2.2.2 7 (by decide)]; rfl⟩

/-! ## Starts and joins of the workers (C17) -/

theorem foldl_parallel_execution_stores (K : Kernel) (n : Int) (l : List Nat)
    (s : RenderState) :
    ∃ stores, (l.foldl (parallel_execution K n) s).log = s.log ++ stores
      ∧ ∀ e ∈ stores, ∃ tid v, e = Event.store tid v ∧ tid ∈ l := by
  induction l generalizing s with
  | nil => exact ⟨[], by simp, by simp⟩
  | cons a l ih =>
    obtain ⟨st, h1, h2⟩ := ih (parallel_execution K n s a)
    refine ⟨(workerStores K n s.rounds (s.proc.sppBase.getD a 0) a).map (Event.store a) ++ st,
      ?_, ?_⟩
    · rw [List.foldl_cons, h1, parallel_execution_log, List.append_assoc]
    · intro e he
      rcases List.mem_append.mp he with he | he
      · obtain ⟨v, -, rfl⟩ := List.mem_map.mp he
        exact ⟨a, v, rfl, List.mem_cons_self _ _⟩
      · obtain ⟨tid, v, rfl, ht⟩ := h2 e he
        exact ⟨tid, v, rfl, List.mem_cons_of_mem _ ht⟩

/-- The log of one iteration of the round loop: the starts of the workers 0 to `n - 1`, the
stores of these workers, the joins of all of them, and only then the step of the restart
decision, if any. -/
theorem renderRound_log (K : Kernel) (c : Controls) (n : Int) (s : RenderState) :
    ∃ stores rest,
      (renderRound K c n s).log
          = s.log ++ (List.range n.toNat).map Event.start ++ stores
              ++ (List.range n.toNat).reverse.map Event.join ++ rest
        ∧ (∀ e ∈ stores, ∃ tid v, e = Event.store tid v ∧ tid < n.toNat)
        ∧ (rest = [] ∨ rest = [Event.reconfigure (s.scramble + 1) 2]) := by
  obtain ⟨st, h1, h2⟩ := foldl_parallel_execution_stores K n (List.range n.toNat)
    { roundBase n s with log := s.log ++ (List.range n.toNat).map Event.start }
  have hw : (runWorkers K n (roundBase n s)).log
      = s.log ++ (List.range n.toNat).map Event.start ++ st
          ++ (List.range n.toNat).reverse.map Event.join := by
    show ((List.range n.toNat).foldl (parallel_execution K n) _).log ++ _ = _
    exact congrArg (fun l => l ++ (List.range n.toNat).reverse.map Event.join) h1
  have hsc : (runWorkers K n (roundBase n s)).scramble = s.scramble :=
    (runWorkers_frame K n (roundBase n s)).2.2.1
  have hst : ∀ e ∈ st, ∃ tid v, e = Event.store tid v ∧ tid < n.toNat := by
    intro e he
    obtain ⟨tid, v, rfl, ht⟩ := h2 e he
    exact ⟨tid, v, rfl, List.mem_range.mp ht⟩
  cases hm : moreRoundsAfterJoin (runWorkers K n (roundBase n s)).returnCode c
  · refine ⟨st, [], ?_, hst, Or.inl rfl⟩
    simp only [renderRound]
    rw [restartDecision_stop K c _ hm, List.append_nil]
    exact hw
  · refine ⟨st, [Event.reconfigure (s.scramble + 1) 2], ?_, hst, Or.inr rfl⟩
    simp only [renderRound]
    rw [restartDecision_more K c _ hm]
    show (runWorkers K n (roundBase n s)).log
      ++ [Event.reconfigure ((runWorkers K n (roundBase n s)).scramble + 1) 2] = _
    rw [hw, hsc]

theorem threadEvents_append (l1 l2 : List Event) :
    threadEvents (l1 ++ l2) = threadEvents l1 ++ threadEvents l2 := by
  simp [threadEvents]

theorem threadEvents_starts (l : List Nat) :
    threadEvents (l.map Event.start) = l.map Event.start := by
  induction l with
  | nil => rfl
  | cons a l ih => simp only [List.map_cons, threadEvents, List.filter_cons] at ih ⊢; simp [ih]

theorem threadEvents_joins (l : List Nat) :
    threadEvents (l.map Event.join) = l.map Event.join := by
  induction l with
  | nil => rfl
  | cons a l ih => simp only [List.map_cons, threadEvents, List.filter_cons] at ih ⊢; simp [ih]

theorem threadEvents_stores (st : List Event) (h : ∀ e ∈ st, ∃ tid v, e = Event.store tid v) :
    threadEvents st = [] := by
  induction st with
  | nil => rfl
  | cons a l ih =>
    obtain ⟨tid, v, rfl⟩ := h _ (List.mem_cons_self _ _)
    have := ih (fun e he => h e (List.mem_cons_of_mem _ he))
    simp only [threadEvents, List.filter_cons] at this ⊢
    simpa using this

theorem runningFrom_append (acc : List Nat) (l1 l2 : List Event) :
    runningFrom acc (l1 ++ l2) = runningFrom (runningFrom acc l1) l2 := by
  simp [runningFrom, List.foldl_append]

theorem runningFrom_starts (acc l : List Nat) :
    runningFrom acc (l.map Event.start) = acc ++ l := by
  induction l generalizing acc with
  | nil => simp [runningFrom]
  | cons a l ih =>
    have := ih (acc ++ [a])
    simp only [runningFrom, List.map_cons, List.foldl_cons] at this ⊢
    rw [this]; simp

theorem runningFrom_stores (acc : List Nat) (st : List Event)
    (h : ∀ e ∈ st, ∃ tid v, e = Event.store tid v) : runningFrom acc st = acc := by
  induction st with
  | nil => rfl
  | cons a l ih =>
    obtain ⟨tid, v, rfl⟩ := h _ (List.mem_cons_self _ _)
    have := ih (fun e he => h e (List.mem_cons_of_mem _ he))
    simp only [runningFrom, List.foldl_cons] at this ⊢
    exact this

theorem runningFrom_joins (m : Nat) :
    runningFrom (List.range m) ((List.range m).reverse.map Event.join) = [] := by
  induction m with
  | zero => rfl
  | succ m ih =>
    have he : (List.range (m + 1)).erase m = List.range m := by
      rw [List.range_succ, List.erase_append_right _ (by simp)]
      simp
    rw [List.range_succ, List.reverse_append]
    simp only [List.reverse_cons, List.reverse_nil, List.nil_append, List.singleton_append,
      List.map_cons, runningFrom, List.foldl_cons]
    rw [← List.range_succ, he]
    exact ih

/-- After any number of iterations of the round loop the thread operations performed are, for
every completed round, the starts of the workers 0 to `n - 1` followed by the joins of all of
them, and no worker is running. -/
theorem renderAfter_threads (K : Kernel) (ctl : Nat → Controls) (p : InteractiveSceneProcess)
    (samples : Nat → ℚ) (numThreads : Int) (k : Nat) :
    threadEvents (p.renderAfter K ctl samples numThreads k).log
        = (List.replicate (p.renderAfter K ctl samples numThreads k).rounds
            (roundThreadEvents (clampThreads p.maxThreads numThreads).toNat)).flatten
      ∧ running (p.renderAfter K ctl samples numThreads k).log = []
      ∧ ((p.renderAfter K ctl samples numThreads k).moreRounds = false →
          1 ≤ (p.renderAfter K ctl samples numThreads k).rounds) := by
  induction k with
  | zero => exact ⟨rfl, rfl, fun h => by cases h⟩
  | succ k ih =>
    by_cases hrun : (p.renderAfter K ctl samples numThreads k).moreRounds = true
    · obtain ⟨hr, -, hstep⟩ := renderAfter_succ K numThreads ctl p samples k hrun
      obtain ⟨st, rest, hlog, hst, hrest⟩ := renderRound_log K (ctl k)
        (clampThreads p.maxThreads numThreads) (p.renderAfter K ctl samples numThreads k)
      have hst2 : ∀ e ∈ st, ∃ tid v, e = Event.store tid v := fun e he => by
        obtain ⟨tid, v, h, -⟩ := hst e he
        exact ⟨tid, v, h⟩
      have hrest1 : threadEvents rest = [] := by
        rcases hrest with h | h <;> rw [h] <;> rfl
      have hrest2 : ∀ acc, runningFrom acc rest = acc := by
        intro acc
        rcases hrest with h | h <;> rw [h] <;> rfl
      rw [hstep]
      refine ⟨?_, ?_, fun _ => by rw [renderRound_rounds]; omega⟩
      · rw [hlog, renderRound_rounds, List.replicate_succ', List.flatten_append]
        simp only [threadEvents_append, threadEvents_starts, threadEvents_joins,
          threadEvents_stores st hst2, hrest1, ih.1, List.append_nil, List.flatten_cons,
          List.flatten_nil, roundThreadEvents, List.append_assoc, List.nil_append]
      · rw [hlog]
        unfold running
        rw [runningFrom_append, runningFrom_append, runningFrom_append, runningFrom_append,
          hrest2]
        have h0 : runningFrom [] (p.renderAfter K ctl samples numThreads k).log = [] := ih.2.1
        rw [h0, runningFrom_starts, runningFrom_stores _ st hst2, List.nil_append]
        exact runningFrom_joins _
    · rw [renderAfter_stopped_succ K ctl p samples numThreads k hrun]
      exact ⟨ih.1, ih.2.1, fun h => ih.2.2 (by simpa using hrun)⟩

theorem renderEnd_log (n : Int) (s : RenderState) :
    ((renderEnd n s).log = s.log ∨ (renderEnd n s).log = s.log ++ [Event.swap])
      ∧ (renderEnd n s).rounds = s.rounds := by
  unfold renderEnd
  split_ifs <;> simp

/-- C17.  For every thread count `T` with `1 ≤ T ≤ maxThreads`, every round of `render()`
starts exactly the workers 0 to `T - 1`, in this order, and joins every one of them before
the restart decision acts (its reconfiguration step comes after the last join, at a point
where no worker is running).  When `render()` returns, at least one round has been run, the
thread operations performed are, round by round, the `T` starts followed by the `T` joins, and
no worker is left running. -/
theorem render_joins_all_workers (K : Kernel) (ctl : Nat → Controls)
    (p : InteractiveSceneProcess) (samples : Nat → ℚ) (T : Int)
    (h1 : 1 ≤ T) (h2 : T ≤ p.maxThreads) :
    (∀ k, (p.renderAfter K ctl samples T k).moreRounds = true →
        ∃ stores rest,
          (p.renderAfter K ctl samples T (k + 1)).log
              = (p.renderAfter K ctl samples T k).log
                ++ (List.range T.toNat).map Event.start ++ stores
                ++ (List.range T.toNat).reverse.map Event.join ++ rest
            ∧ (∀ e ∈ stores, ∃ tid v, e = Event.store tid v ∧ tid < T.toNat)
            ∧ (rest = [] ∨ rest
                = [Event.reconfigure ((p.renderAfter K ctl samples T k).scramble + 1) 2])
            ∧ running ((p.renderAfter K ctl samples T k).log
                ++ (List.range T.toNat).map Event.start ++ stores
                ++ (List.range T.toNat).reverse.map Event.join) = [])
      ∧ (∀ fuel r, p.render K ctl samples T fuel = some r →
          1 ≤ r.rounds
            ∧ threadEvents r.log
                = (List.replicate r.rounds (roundThreadEvents T.toNat)).flatten
            ∧ running r.log = []) := by
  have hT : clampThreads p.maxThreads T = T := by
    rw [clampThreads_eq, if_pos ⟨by omega, h2⟩]
  constructor
  · intro k hrun
    obtain ⟨-, -, hstep⟩ := renderAfter_succ K T ctl p samples k hrun
    obtain ⟨st, rest, hlog, hst, hrest⟩ := renderRound_log K (ctl k)
      (clampThreads p.maxThreads T) (p.renderAfter K ctl samples T k)
    rw [hT] at hlog hst
    rw [hT] at hstep
    refine ⟨st, rest, by rw [hstep]; exact hlog, hst, hrest, ?_⟩
    have hst2 : ∀ e ∈ st, ∃ tid v, e = Event.store tid v := fun e he => by
      obtain ⟨tid, v, h, -⟩ := hst e he
      exact ⟨tid, v, h⟩
    unfold running
    rw [runningFrom_append, runningFrom_append, runningFrom_append]
    have h0 : runningFrom [] (p.renderAfter K ctl samples T k).log = [] :=
      (renderAfter_threads K ctl p samples T k).2.1
    rw [h0, runningFrom_starts, runningFrom_stores _ st hst2, List.nil_append]
    exact runningFrom_joins _
  · intro fuel r hr
    obtain ⟨hstop, rfl⟩ := render_some K ctl p samples T fuel r hr
    obtain ⟨t1, t2, t3⟩ := renderAfter_threads K ctl p samples T fuel
    obtain ⟨hl, hrd⟩ := renderEnd_log (clampThreads p.maxThreads T)
      (p.renderAfter K ctl samples T fuel)
    rw [hT] at t1
    rw [hrd]
    refine ⟨t3 hstop, ?_, ?_⟩
    · rcases hl with h | h
      · rw [h]; exact t1
      · rw [h, threadEvents_append, t1]
        show _ ++ [] = _
        rw [List.append_nil]
    · rcases hl with h | h
      · rw [h]; exact t2
      · rw [h]
        unfold running
        rw [runningFrom_append]
        have : runningFrom [] (p.renderAfter K ctl samples T fuel).log = [] := t2
        rw [this]
        rfl

/-- C17 at a concrete input: the scenario run with three of the four workers and aborted
after the first round. -/
theorem render_joins_all_workers_witness :
    (1 : Int) ≤ 3 ∧ (3 : Int) ≤ process4.maxThreads
      ∧ ∀ r, process4.render kernel10 abortAfterFirstRound zeroSamples 3 1 = some r →
          1 ≤ r.rounds
            ∧ threadEvents r.log = (List.replicate r.rounds (roundThreadEvents 3)).flatten
            ∧ running r.log = [] :=
  ⟨by decide, by decide, fun r hr =>
    (render_joins_all_workers kernel10 abortAfterFirstRound process4 zeroSamples 3
      (by decide) (by decide)).2 1 r hr⟩

/-! ## The clear of the accumulation buffer (C19) -/

theorem foldl_parallel_execution_writes (K : Kernel) (n : Int) (l : List Nat)
    (s : RenderState) :
    (l.foldl (parallel_execution K n) s).proc.blocks
      = roundWrites K n s.rounds s.proc.framebuffers l s.proc.blocks := by
  induction l generalizing s with
  | nil => rfl
  | cons a l ih =>
    rw [List.foldl_cons, ih]
    rfl

theorem renderRound_writes (K : Kernel) (c : Controls) (n : Int) (s : RenderState) :
    (renderRound K c n s).proc.blocks
      = roundWrites K n s.rounds s.proc.framebuffers (List.range n.toNat) s.proc.blocks := by
  have h1 : (runWorkers K n (roundBase n s)).proc.blocks
      = roundWrites K n s.rounds s.proc.framebuffers (List.range n.toNat) s.proc.blocks := by
    simp only [runWorkers]
    exact foldl_parallel_execution_writes K n (List.range n.toNat) _
  simp only [renderRound]
  cases hm : moreRoundsAfterJoin (runWorkers K n (roundBase n s)).returnCode c
  · rw [restartDecision_stop K c _ hm]; exact h1
  · rw [restartDecision_more K c _ hm]; exact h1

theorem clears_append (l1 l2 : List Event) : clears (l1 ++ l2) = clears l1 ++ clears l2 := by
  simp [clears]

theorem clears_map_start (l : List Nat) : clears (l.map Event.start) = [] := by
  induction l with
  | nil => rfl
  | cons a l ih => simp [clears]

theorem clears_map_join (l : List Nat) : clears (l.map Event.join) = [] := by
  induction l with
  | nil => rfl
  | cons a l ih => simp [clears]

theorem clears_stores (st : List Event) (h : ∀ e ∈ st, ∃ tid v, e = Event.store tid v) :
    clears st = [] := by
  induction st with
  | nil => rfl
  | cons a l ih =>
    obtain ⟨tid, v, rfl⟩ := h _ (List.mem_cons_self _ _)
    have := ih (fun e he => h e (List.mem_cons_of_mem _ he))
    simpa [clears] using this

/-- The rounds of the loop clear no block: the only clear in the log is the one that
`render()` performs before its loop, and it is the first step of the log. -/
theorem renderAfter_clears (K : Kernel) (ctl : Nat → Controls) (p : InteractiveSceneProcess)
    (samples : Nat → ℚ) (numThreads : Int) (k : Nat) :
    clears (p.renderAfter K ctl samples numThreads k).log = [p.framebuffers.getD 0 0]
      ∧ (p.renderAfter K ctl samples numThreads k).log.head?
          = some (Event.clear (p.framebuffers.getD 0 0)) := by
  induction k with
  | zero => exact ⟨rfl, rfl⟩
  | succ k ih =>
    by_cases hrun : (p.renderAfter K ctl samples numThreads k).moreRounds = true
    · obtain ⟨-, -, hstep⟩ := renderAfter_succ K numThreads ctl p samples k hrun
      obtain ⟨st, rest, hlog, hst, hrest⟩ := renderRound_log K (ctl k)
        (clampThreads p.maxThreads numThreads) (p.renderAfter K ctl samples numThreads k)
      have hst2 : ∀ e ∈ st, ∃ tid v, e = Event.store tid v := fun e he => by
        obtain ⟨tid, v, h, -⟩ := hst e he
        exact ⟨tid, v, h⟩
      have hrest1 : clears rest = [] := by
        rcases hrest with h | h <;> rw [h] <;> rfl
      rw [hstep, hlog]
      constructor
      · rw [clears_append, clears_append, clears_append, clears_append, clears_map_start,
          clears_map_join, clears_stores st hst2, hrest1, ih.1]
        rfl
      · cases hl : (p.renderAfter K ctl samples numThreads k).log with
        | nil => rw [hl] at ih; cases ih.2
        | cons e l =>
          rw [hl] at ih
          simpa using ih.2
    · rw [renderAfter_stopped_succ K ctl p samples numThreads k hrun]
      exact ih

/-- C19.  The accumulation buffer is cleared exactly once per call of `render()`, before the
first round: the state before the loop has the shared block cleared and the clear as its only
step, every pixel of block `framebuffers[0]` is 0 there, the block has as many pixels as
before and no other block is touched; after any number of rounds, and on return, the log
holds exactly this one clear, as its first step.  A round, its restart decision included,
does not clear: the restart decision leaves every block as it is, and the pixel contents
after round `k` are those before the round with the writes of its workers applied, so every
round after the first accumulates into what the earlier rounds left. -/
theorem render_clears_once (K : Kernel) (ctl : Nat → Controls) (p : InteractiveSceneProcess)
    (samples : Nat → ℚ) (numThreads : Int) :
    (p.renderAfter K ctl samples numThreads 0).log = [Event.clear (p.framebuffers.getD 0 0)]
      ∧ (p.renderAfter K ctl samples numThreads 0).rounds = 0
      ∧ (p.renderAfter K ctl samples numThreads 0).proc.blocks
          = Function.update p.blocks (p.framebuffers.getD 0 0)
              (clearPixels (p.blocks (p.framebuffers.getD 0 0)))
      ∧ (∀ k, clears (p.renderAfter K ctl samples numThreads k).log = [p.framebuffers.getD 0 0]
          ∧ (p.renderAfter K ctl samples numThreads k).log.head?
              = some (Event.clear (p.framebuffers.getD 0 0)))
      ∧ (∀ k, (p.renderAfter K ctl samples numThreads k).moreRounds = true →
          (p.renderAfter K ctl samples numThreads (k + 1)).proc.blocks
            = roundWrites K (clampThreads p.maxThreads numThreads) k p.framebuffers
                (List.range (clampThreads p.maxThreads numThreads).toNat)
                (p.renderAfter K ctl samples numThreads k).proc.blocks)
      ∧ (∀ fuel r, p.render K ctl samples numThreads fuel = some r →
          clears r.log = [p.framebuffers.getD 0 0]
            ∧ r.log.head? = some (Event.clear (p.framebuffers.getD 0 0))
            ∧ r.proc.blocks = (p.renderAfter K ctl samples numThreads fuel).proc.blocks)
      ∧ (∀ x ∈ (p.renderAfter K ctl samples numThreads 0).proc.blocks
            (p.framebuffers.getD 0 0), x = 0)
      ∧ ((p.renderAfter K ctl samples numThreads 0).proc.blocks
            (p.framebuffers.getD 0 0)).length = (p.blocks (p.framebuffers.getD 0 0)).length
      ∧ (∀ b, b ≠ p.framebuffers.getD 0 0 →
          (p.renderAfter K ctl samples numThreads 0).proc.blocks b = p.blocks b)
      ∧ (∀ c s, (restartDecision K c s).proc.blocks = s.proc.blocks) := by
  refine ⟨rfl, rfl, rfl, renderAfter_clears K ctl p samples numThreads, ?_, ?_, ?_, ?_, ?_, ?_⟩
  rotate_left 2
  · intro x hx
    have hb : (p.renderAfter K ctl samples numThreads 0).proc.blocks (p.framebuffers.getD 0 0)
        = clearPixels (p.blocks (p.framebuffers.getD 0 0)) := by
      show Function.update p.blocks (p.framebuffers.getD 0 0)
        (clearPixels (p.blocks (p.framebuffers.getD 0 0))) (p.framebuffers.getD 0 0) = _
      rw [Function.update_same]
    rw [hb, clearPixels, List.mem_map] at hx
    obtain ⟨-, -, rfl⟩ := hx
    rfl
  · have hb : (p.renderAfter K ctl samples numThreads 0).proc.blocks (p.framebuffers.getD 0 0)
        = clearPixels (p.blocks (p.framebuffers.getD 0 0)) := by
      show Function.update p.blocks (p.framebuffers.getD 0 0)
        (clearPixels (p.blocks (p.framebuffers.getD 0 0))) (p.framebuffers.getD 0 0) = _
      rw [Function.update_same]
    rw [hb, clearPixels, List.length_map]
  · intro b hb
    show Function.update p.blocks (p.framebuffers.getD 0 0)
      (clearPixels (p.blocks (p.framebuffers.getD 0 0))) b = _
    rw [Function.update_noteq hb]
  · intro c s
    cases hm : moreRoundsAfterJoin s.returnCode c
    · rw [restartDecision_stop K c s hm]
    · rw [restartDecision_more K c s hm]
  · intro k hrun
    obtain ⟨hr, -, hstep⟩ := renderAfter_succ K numThreads ctl p samples k hrun
    have hst := renderRounds_statics K (clampThreads p.maxThreads numThreads) ctl k
      (renderBegin p samples numThreads)
    have hfb : (p.renderAfter K ctl samples numThreads k).proc.framebuffers
        = p.framebuffers := hst.2.2.2.2.1
    rw [hstep, renderRound_writes, hr, hfb]
  · intro fuel r hr
    obtain ⟨-, rfl⟩ := render_some K ctl p samples numThreads fuel r hr
    obtain ⟨c1, c2⟩ := renderAfter_clears K ctl p samples numThreads fuel
    obtain ⟨hl, -⟩ := renderEnd_log (clampThreads p.maxThreads numThreads)
      (p.renderAfter K ctl samples numThreads fuel)
    refine ⟨?_, ?_, (renderEnd_statics _ _).2.2.2.1⟩
    · rcases hl with h | h
      · rw [h]; exact c1
      · rw [h, clears_append, c1]; rfl
    · rcases hl with h | h
      · rw [h]; exact c2
      · rw [h]
        cases hlog : (p.renderAfter K ctl samples numThreads fuel).log with
        | nil => rw [hlog] at c2; cases c2
        | cons e l =>
          rw [hlog] at c2
          simpa using c2

/-! ## The worker pool (C18) -/

theorem growWorkers_getElem? (ws : List (Option Thread)) (n : Int) (i : Nat) :
    (growWorkers ws n)[i]?
      = if i < n.toNat then
          some (some (match ws[i]?.join with
            | some w => { w with numThreads := n }
            | none => { tid := i, numThreads := n }))
        else ws[i]? := by
  unfold growWorkers
  simp only [List.getElem?_map, List.getElem?_enum]
  by_cases hgt : n > (ws.length : Int)
  · rw [if_pos hgt]
    have hlen : ws.length < n.toNat := by omega
    by_cases hi : i < n.toNat
    · rw [if_pos hi]
      by_cases hiw : i < ws.length
      · rw [List.getElem?_append_left hiw, List.getElem?_eq_getElem hiw]
        simp only [Option.map_some', if_pos hi, Option.join]
        cases ws[i] <;> rfl
      · rw [List.getElem?_append_right (by omega), List.getElem?_replicate,
          if_pos (by omega), List.getElem?_eq_none (by omega)]
        simp only [Option.map_some', if_pos hi, Option.join]
        rfl
    · rw [if_neg hi, List.getElem?_eq_none (by simp; omega), List.getElem?_eq_none (by omega)]
      rfl
  · rw [if_neg hgt]
    have hlen : n.toNat ≤ ws.length := by omega
    by_cases hi : i < n.toNat
    · rw [if_pos hi, List.getElem?_eq_getElem (by omega)]
      simp only [Option.map_some', if_pos hi, Option.join]
      cases ws[i] <;> rfl
    · rw [if_neg hi]
      cases h : ws[i]? with
      | none => rfl
      | some w => simp only [Option.map_some', if_neg hi]

theorem growWorkers_length (ws : List (Option Thread)) (n : Int) :
    (growWorkers ws n).length = max ws.length n.toNat := by
  unfold growWorkers
  simp only [List.length_map, List.enum_length]
  split_ifs with h
  · rw [List.length_append, List.length_replicate]; omega
  · omega


theorem renderEnd_workers (n : Int) (s : RenderState) :
    (renderEnd n s).proc.workers = s.proc.workers := by
  unfold renderEnd
  split_ifs <;> rfl

theorem render_workers (K : Kernel) (ctl : Nat → Controls) (p : InteractiveSceneProcess)
    (samples : Nat → ℚ) (numThreads : Int) (fuel : Nat) (r : RenderState)
    (hr : p.render K ctl samples numThreads fuel = some r) :
    r.proc.workers = growWorkers p.workers (clampThreads p.maxThreads numThreads)
      ∧ r.proc.maxThreads = p.maxThreads := by
  obtain ⟨-, rfl⟩ := render_some K ctl p samples numThreads fuel r hr
  have hst := renderRounds_statics K (clampThreads p.maxThreads numThreads) ctl fuel
    (renderBegin p samples numThreads)
  constructor
  · rw [renderEnd_workers]
    exact hst.2.2.2.2.2.2.2.2.1
  · rw [(renderEnd_statics _ _).2.1]
    exact hst.2.2.1

theorem renderMany_pool (calls : List RenderCall) (p q : InteractiveSceneProcess)
    (h : renderMany calls p = some q) :
    p.workers.length ≤ q.workers.length
      ∧ q.maxThreads = p.maxThreads
      ∧ (p.workers.length ≤ p.maxThreads.toNat → q.workers.length ≤ p.maxThreads.toNat)
      ∧ (∀ (i : Nat) (w : Thread), p.workers[i]? = some (some w) →
          ∃ m, q.workers[i]? = some (some { w with numThreads := m })) := by
  induction calls generalizing p with
  | nil =>
    simp only [renderMany, Option.some.injEq] at h
    subst h
    exact ⟨le_refl _, rfl, fun h => h, fun i w hw => ⟨w.numThreads, hw⟩⟩
  | cons c cs ih =>
    simp only [renderMany] at h
    cases hr : p.render c.kernel c.controls c.imageSamples c.numThreads c.fuel with
    | none => rw [hr] at h; cases h
    | some r =>
      rw [hr] at h
      obtain ⟨hw, hm⟩ := render_workers _ _ _ _ _ _ _ hr
      obtain ⟨i1, i2, i3, i4⟩ := ih r.proc h
      have hlen : r.proc.workers.length
          = max p.workers.length (clampThreads p.maxThreads c.numThreads).toNat := by
        rw [hw, growWorkers_length]
      have hcl : (clampThreads p.maxThreads c.numThreads).toNat ≤ p.maxThreads.toNat :=
        Int.toNat_le_toNat (clampThreads_le _ _)
      refine ⟨by omega, by rw [i2, hm], fun hp => ?_, fun i w hiw => ?_⟩
      · rw [hm] at i3
        exact i3 (by omega)
      · have hg := growWorkers_getElem? p.workers (clampThreads p.maxThreads c.numThreads) i
        rw [← hw, hiw] at hg
        by_cases hi : i < (clampThreads p.maxThreads c.numThreads).toNat
        · rw [if_pos hi] at hg
          have hg2 : r.proc.workers[i]?
              = some (some { w with numThreads := clampThreads p.maxThreads c.numThreads }) :=
            hg
          obtain ⟨m, hm2⟩ := i4 i _ hg2
          exact ⟨m, hm2⟩
        · rw [if_neg hi] at hg
          exact i4 i w hg

/-- C18.  The worker pool only grows.  After a call of `render()` the pool has
`max(previous size, clamped thread count)` slots; every slot below the clamped count holds a
thread, the thread object that was there before with its closure rebound to the new count
when there was one, and a new thread of that index otherwise; the slots from the clamped
count on are untouched.  Over a sequence of calls of `render()` on the process the pool size
does not decrease, `maxThreads` is unchanged, a pool that did not exceed `maxThreads` never
does, and a thread object once created stays in its slot. -/
theorem worker_pool_only_grows (calls : List RenderCall) (p q : InteractiveSceneProcess)
    (h : renderMany calls p = some q) :
    (∀ (c : RenderCall) (r : RenderState),
        p.render c.kernel c.controls c.imageSamples c.numThreads c.fuel = some r →
        r.proc.workers.length
            = max p.workers.length (clampThreads p.maxThreads c.numThreads).toNat
          ∧ (∀ i, i < (clampThreads p.maxThreads c.numThreads).toNat →
              r.proc.workers[i]? = some (some (match p.workers[i]?.join with
                | some w => { w with numThreads := clampThreads p.maxThreads c.numThreads }
                | none =>
                  { tid := i, numThreads := clampThreads p.maxThreads c.numThreads })))
          ∧ (∀ i, (clampThreads p.maxThreads c.numThreads).toNat ≤ i →
              r.proc.workers[i]? = p.workers[i]?))
      ∧ p.workers.length ≤ q.workers.length
      ∧ q.maxThreads = p.maxThreads
      ∧ (p.workers.length ≤ p.maxThreads.toNat → q.workers.length ≤ p.maxThreads.toNat)
      ∧ (∀ (i : Nat) (w : Thread), p.workers[i]? = some (some w) →
          ∃ m, q.workers[i]? = some (some { w with numThreads := m })) := by
  refine ⟨fun c r hr => ?_, renderMany_pool calls p q h⟩
  obtain ⟨hw, -⟩ := render_workers _ _ _ _ _ _ _ hr
  refine ⟨by rw [hw, growWorkers_length], fun i hi => ?_, fun i hi => ?_⟩
  · rw [hw, growWorkers_getElem?, if_pos hi]
  · rw [hw, growWorkers_getElem?, if_neg (by omega)]

/-- C18 at a concrete input: three calls with 2, 4 and 1 workers on the process of the
scenario, whose pool is empty after construction. -/
theorem worker_pool_only_grows_witness :
    (renderMany threeCalls process4).map (fun q => q.workers.length) = some 4
      ∧ ∀ q, renderMany threeCalls process4 = some q →
          process4.workers.length ≤ q.workers.length
            ∧ q.workers.length ≤ process4.maxThreads.toNat :=
  ⟨rfl, fun q hq => ⟨(worker_pool_only_grows threeCalls process4 q hq).2.1,
    (worker_pool_only_grows threeCalls process4 q hq).2.2.2.1 (by decide)⟩⟩

/-! ## The buffer sets after construction (C20) -/

/-- C20.  In the `ATOMIC_SPLAT` configuration, on a machine with at least one core, the
constructor leaves `uniqueTargets = 1` and a buffer set of `maxThreads` slots that all refer
to one image block, with data pointers that all point into that block.  With double buffering
the second set has the same shape and refers to a different block; without, the second set is
empty. -/
theorem create_shares_one_buffer (K : Kernel) (coreCount : Int) (sampler : Sampler)
    (pixels : List ℚ) (config : ProcessConfig) (p : InteractiveSceneProcess)
    (hcore : 0 < coreCount)
    (hp : p = InteractiveSceneProcess.create K coreCount sampler pixels config) :
    p.uniqueTargets = 1
      ∧ 0 < p.maxThreads
      ∧ p.framebuffers.length = p.maxThreads.toNat
      ∧ p.frambufferData.length = p.maxThreads.toNat
      ∧ (∃ b, p.framebuffers[0]? = some b
          ∧ ∀ j, j < p.maxThreads.toNat →
              p.framebuffers[j]? = some b ∧ p.frambufferData[j]? = some b)
      ∧ (config.doubleBuffered = false →
          p.framebuffersDouble = [] ∧ p.frambufferDataDouble = [])
      ∧ (config.doubleBuffered = true →
          p.framebuffersDouble.length = p.maxThreads.toNat
            ∧ p.frambufferDataDouble.length = p.maxThreads.toNat
            ∧ ∃ b d, b ≠ d
                ∧ (∀ j, j < p.maxThreads.toNat →
                    p.framebuffers[j]? = some b ∧ p.frambufferData[j]? = some b)
                ∧ (∀ j, j < p.maxThreads.toNat →
                    p.framebuffersDouble[j]? = some d
                      ∧ p.frambufferDataDouble[j]? = some d)) := by
  subst hp
  obtain ⟨h1, h2, h3, h4, h5, h6⟩ := create_sets K coreCount sampler pixels config
  have hmax : 0 < (InteractiveSceneProcess.create K coreCount sampler pixels config).maxThreads := by
    rw [h1]
    split_ifs with h
    · exact h.1
    · exact hcore
  have hpos : 0 < (InteractiveSceneProcess.create K coreCount sampler pixels
      config).maxThreads.toNat := by omega
  refine ⟨h2, hmax, by rw [h3]; simp, by rw [h4]; simp, ⟨config.doubleBuffered.toNat, ?_, ?_⟩,
    ?_, ?_⟩
  · rw [h3, List.getElem?_replicate, if_pos hpos]
  · intro j hj
    rw [h3, h4, List.getElem?_replicate, if_pos hj]
    exact ⟨rfl, rfl⟩
  · intro hd
    rw [h5, h6, hd]
    exact ⟨rfl, rfl⟩
  · intro hd
    rw [h5, h6, hd]
    refine ⟨by simp, by simp, 1, 0, one_ne_zero, fun j hj => ?_, fun j hj => ?_⟩
    · rw [h3, h4, hd, List.getElem?_replicate, if_pos hj]
      exact ⟨rfl, rfl⟩
    · simp [hj]

/-- C20 at a concrete input: the double-buffered process of the scenario (four cores). -/
theorem create_shares_one_buffer_witness :
    process4Double.uniqueTargets = 1
      ∧ process4Double.framebuffers = [1, 1, 1, 1]
      ∧ process4Double.framebuffersDouble = [0, 0, 0, 0]
      ∧ ∃ b d, b ≠ d
          ∧ (∀ j, j < process4Double.maxThreads.toNat →
              process4Double.framebuffers[j]? = some b
                ∧ process4Double.frambufferData[j]? = some b)
          ∧ (∀ j, j < process4Double.maxThreads.toNat →
              process4Double.framebuffersDouble[j]? = some d
                ∧ process4Double.frambufferDataDouble[j]? = some d) :=
  ⟨rfl, rfl, rfl,
    ((create_shares_one_buffer kernel10 4 { sampleCount := some 4, scramble := none } [0, 0]
      { maxThreads := -1, doubleBuffered := true } process4Double (by decide) rfl).2.2.2.2.2.2
        rfl).2.2⟩

/-! ## What `render()` reports of a failure (C12) -/

theorem foldl_parallel_execution_congr (K K2 : Kernel) (n : Int) (l : List Nat)
    (s : RenderState) (h : ∀ tid, K.render s.rounds tid n = K2.render s.rounds tid n) :
    l.foldl (parallel_execution K n) s = l.foldl (parallel_execution K2 n) s := by
  induction l generalizing s with
  | nil => rfl
  | cons a l ih =>
    have e : parallel_execution K n s a = parallel_execution K2 n s a := by
      simp only [parallel_execution, workerStores, h]
    rw [List.foldl_cons, List.foldl_cons, e]
    exact ih _ h

theorem renderRound_congr (K K2 : Kernel) (c : Controls) (n : Int) (s : RenderState)
    (h : ∀ tid, K.render s.rounds tid n = K2.render s.rounds tid n)
    (ha : K.allocate = K2.allocate) :
    renderRound K c n s = renderRound K2 c n s := by
  have e : runWorkers K n (roundBase n s) = runWorkers K2 n (roundBase n s) :=
    congrArg (fun t : RenderState =>
        ({ t with log := t.log ++ (List.range n.toNat).reverse.map Event.join } : RenderState))
      (foldl_parallel_execution_congr K K2 n (List.range n.toNat)
        { roundBase n s with log := (roundBase n s).log ++ (List.range n.toNat).map Event.start }
        h)
  simp only [renderRound, e, restartDecision,
    InteractiveSceneProcess.updateSamplersAndIntegrator, ha]

/-- The state after `j` rounds depends on the kernel and on the controls only through the
rounds that were run. -/
theorem renderAfter_congr (K K2 : Kernel) (ctl ctl2 : Nat → Controls)
    (p : InteractiveSceneProcess) (samples : Nat → ℚ) (numThreads : Int) (k : Nat)
    (hK : ∀ r, r < k → ∀ tid n, K.render r tid n = K2.render r tid n)
    (ha : K.allocate = K2.allocate) (hc : ∀ r, r < k → ctl r = ctl2 r) :
    ∀ j, j ≤ k →
      p.renderAfter K ctl samples numThreads j = p.renderAfter K2 ctl2 samples numThreads j := by
  intro j
  induction j with
  | zero => intro _; rfl
  | succ j ih =>
    intro hj
    have e := ih (by omega)
    by_cases hrun : (p.renderAfter K ctl samples numThreads j).moreRounds = true
    · obtain ⟨hr, -, hstep⟩ := renderAfter_succ K numThreads ctl p samples j hrun
      obtain ⟨-, -, hstep2⟩ := renderAfter_succ K2 numThreads ctl2 p samples j (e ▸ hrun)
      rw [hstep, hstep2, ← e, ← hc j (by omega)]
      exact renderRound_congr K K2 _ _ _ (fun tid => by rw [hr]; exact hK j (by omega) tid _) ha
    · rw [renderAfter_stopped_succ K ctl p samples numThreads j hrun,
        renderAfter_stopped_succ K2 ctl2 p samples numThreads j (e ▸ hrun)]
      exact e

theorem forgetCode_fields (s t : RenderState) (h : forgetCode s = forgetCode t) :
    s.proc = t.proc ∧ s.imageSamples = t.imageSamples ∧ s.initialRun = t.initialRun
      ∧ s.moreRounds = t.moreRounds ∧ s.scramble = t.scramble ∧ s.rounds = t.rounds
      ∧ s.log = t.log :=
  ⟨(congrArg RenderState.proc h : (forgetCode s).proc = (forgetCode t).proc),
    (congrArg RenderState.imageSamples h
      : (forgetCode s).imageSamples = (forgetCode t).imageSamples),
    (congrArg RenderState.initialRun h : (forgetCode s).initialRun = (forgetCode t).initialRun),
    (congrArg RenderState.moreRounds h : (forgetCode s).moreRounds = (forgetCode t).moreRounds),
    (congrArg RenderState.scramble h : (forgetCode s).scramble = (forgetCode t).scramble),
    (congrArg RenderState.rounds h : (forgetCode s).rounds = (forgetCode t).rounds),
    (congrArg RenderState.log h : (forgetCode s).log = (forgetCode t).log)⟩

theorem foldl_parallel_execution_forget (K : Kernel) (n : Int) (k : Nat) (l : List Nat)
    (s t : RenderState) (h : forgetCode s = forgetCode t) (hk : s.rounds = k) :
    forgetCode (l.foldl (parallel_execution K n) s)
      = forgetCode (l.foldl (parallel_execution (K.succeedAt k) n) t) := by
  induction l generalizing s t with
  | nil => exact h
  | cons a l ih =>
    rw [List.foldl_cons, List.foldl_cons]
    refine ih _ _ ?_ hk
    obtain ⟨f1, f2, f3, f4, f5, f6, f7⟩ := forgetCode_fields s t h
    obtain ⟨p1, i1, c1, r1, m1, sc1, ro1, l1⟩ := s
    obtain ⟨p2, i2, c2, r2, m2, sc2, ro2, l2⟩ := t
    simp only at f1 f2 f3 f4 f5 f6 f7 hk
    subst f1 f2 f3 f4 f5 f6 f7 hk
    simp [forgetCode, parallel_execution, workerStores, Kernel.succeedAt]

theorem renderEnd_forget (n : Int) (s : RenderState) :
    forgetCode (renderEnd n s) = renderEnd n (forgetCode s) := by
  have e1 : (forgetCode s).proc = s.proc := rfl
  have e2 : (forgetCode s).imageSamples = s.imageSamples := rfl
  unfold renderEnd
  rw [e1, e2]
  split_ifs <;> rfl

/-- A round that ends by a kernel failure leaves the same loop state, the local `returnCode`
apart, as the round of the kernel that differs only by returning 0, stopped cooperatively. -/
theorem renderRound_failure_forget (K : Kernel) (c c2 : Controls) (n : Int) (s : RenderState)
    (hs0 : s.returnCode = 0)
    (hfail : ∃ tid, tid < n.toNat ∧ (K.render s.rounds tid n).rc ≠ 0)
    (hstop : ∀ rc, moreRoundsAfterJoin rc c2 = false) :
    forgetCode (renderRound K c n s) = forgetCode (renderRound (K.succeedAt s.rounds) c2 n s)
      ∧ (renderRound K c n s).returnCode ≠ 0
      ∧ (renderRound (K.succeedAt s.rounds) c2 n s).returnCode = 0
      ∧ (renderRound K c n s).moreRounds = false
      ∧ (renderRound (K.succeedAt s.rounds) c2 n s).moreRounds = false := by
  have hA : (runWorkers K n (roundBase n s)).returnCode ≠ 0 := by
    intro h0
    obtain ⟨tid, ht, hrc⟩ := hfail
    exact hrc (((runWorkers_returnCode K n (roundBase n s)).mp h0).2 tid ht)
  have hB : (runWorkers (K.succeedAt s.rounds) n (roundBase n s)).returnCode = 0 := by
    rw [runWorkers_returnCode]
    refine ⟨hs0, fun t _ => ?_⟩
    show ((K.succeedAt s.rounds).render s.rounds t n).rc = 0
    simp [Kernel.succeedAt]
  have hmA : moreRoundsAfterJoin (runWorkers K n (roundBase n s)).returnCode c = false := by
    simp [moreRoundsAfterJoin, hA]
  have hf : forgetCode (runWorkers K n (roundBase n s))
      = forgetCode (runWorkers (K.succeedAt s.rounds) n (roundBase n s)) := by
    have := foldl_parallel_execution_forget K n s.rounds (List.range n.toNat)
      { roundBase n s with log := (roundBase n s).log ++ (List.range n.toNat).map Event.start }
      { roundBase n s with log := (roundBase n s).log ++ (List.range n.toNat).map Event.start }
      rfl rfl
    exact congrArg (fun t : RenderState =>
      ({ t with log := t.log ++ (List.range n.toNat).reverse.map Event.join } : RenderState))
      this
  obtain ⟨f1, f2, f3, f4, f5, f6, f7⟩ := forgetCode_fields _ _ hf
  simp only [renderRound]
  rw [restartDecision_stop K c _ hmA, restartDecision_stop (K.succeedAt s.rounds) c2 _ (hstop _)]
  refine ⟨?_, hA, hB, rfl, rfl⟩
  exact congrArg (fun t : RenderState =>
    ({ t with initialRun := false, moreRounds := false, rounds := t.rounds + 1 } : RenderState))
    hf

theorem stopAt_stops (ctl : Nat → Controls) (k : Nat) (rc : Int) :
    moreRoundsAfterJoin rc (stopAt ctl k k) = false := by
  simp only [stopAt, if_true, moreRoundsAfterJoin]
  simp

/-- A round whose reconfiguration fails leaves the same loop state as the same round stopped
cooperatively, apart from the sampler prototype, the samplers, the scramble index and the
reconfiguration step in the log. -/
theorem renderRound_realloc_failure (K : Kernel) (c c2 : Controls) (n : Int) (s : RenderState)
    (hmore : moreRoundsAfterJoin (runWorkers K n (roundBase n s)).returnCode c = true)
    (halloc : K.allocate (s.scramble + 1) = false)
    (hstop : ∀ rc, moreRoundsAfterJoin rc c2 = false) :
    (renderRound K c n s).moreRounds = false
      ∧ (renderRound K c2 n s).moreRounds = false
      ∧ (renderRound K c n s).returnCode = (renderRound K c2 n s).returnCode
      ∧ (renderRound K c n s).imageSamples = (renderRound K c2 n s).imageSamples
      ∧ sameStatics (renderRound K c2 n s).proc (renderRound K c n s).proc
      ∧ (renderRound K c n s).proc.blocks = (renderRound K c2 n s).proc.blocks
      ∧ (renderRound K c n s).proc.sppBase = (renderRound K c2 n s).proc.sppBase := by
  have hsc : (runWorkers K n (roundBase n s)).scramble = s.scramble :=
    (runWorkers_frame K n (roundBase n s)).2.2.1
  simp only [renderRound]
  rw [restartDecision_more K c _ hmore, restartDecision_stop K c2 _ (hstop _), hsc, halloc]
  exact ⟨rfl, rfl, rfl, rfl, ⟨rfl, rfl, rfl, rfl, rfl, rfl, rfl, rfl, rfl, rfl⟩, rfl, rfl⟩

theorem renderEnd_same_view (n : Int) (s t : RenderState)
    (hi : s.imageSamples = t.imageSamples) (hst : sameStatics t.proc s.proc)
    (hb : s.proc.blocks = t.proc.blocks) (hp : s.proc.sppBase = t.proc.sppBase)
    (hc : s.returnCode = t.returnCode) :
    (renderEnd n s).imageSamples = (renderEnd n t).imageSamples
      ∧ sameStatics (renderEnd n t).proc (renderEnd n s).proc
      ∧ (renderEnd n s).proc.blocks = (renderEnd n t).proc.blocks
      ∧ (renderEnd n s).proc.sppBase = (renderEnd n t).proc.sppBase
      ∧ (renderEnd n s).returnCode = (renderEnd n t).returnCode := by
  obtain ⟨s1, s2, s3, s4, s5, s6, s7, s8, s9, s10⟩ := hst
  unfold renderEnd
  by_cases h1 : t.proc.framebuffersDouble ≠ []
  · have h1s : s.proc.framebuffersDouble ≠ [] := by rw [s7]; exact h1
    by_cases h2 : hadRevisions n t.imageSamples = true
    · have h2s : hadRevisions n s.imageSamples = true := by rw [hi]; exact h2
      rw [if_pos h1, if_pos h2, if_pos h1s, if_pos h2s]
      exact ⟨hi, ⟨s1, s2, s3, s4, s7, s8, s5, s6, s9, s10⟩, hb, hp, hc⟩
    · have h2s : ¬ hadRevisions n s.imageSamples = true := by rw [hi]; exact h2
      rw [if_pos h1, if_neg h2, if_pos h1s, if_neg h2s]
      exact ⟨hi, ⟨s1, s2, s3, s4, s5, s6, s7, s8, s9, s10⟩, hb, hp, hc⟩
  · have h1s : ¬ s.proc.framebuffersDouble ≠ [] := by rw [s7]; exact h1
    rw [if_neg h1, if_neg h1s]
    exact ⟨hi, ⟨s1, s2, s3, s4, s5, s6, s7, s8, s9, s10⟩, hb, hp, hc⟩

/-- C12, the claim refuted at a concrete input.  On the process of the scenario, a call of
`render()` whose kernel fails (every worker returns 1, no stop requested) and a call whose
kernel succeeds and which is aborted after the first round both return after one round and
leave the same process and the same counters: the two runs differ only in the local
`returnCode`, which `render()` does not return. -/
theorem render_hides_kernel_failure :
    ∃ rA rB, process4.render kernelFailing neverStop zeroSamples 4 1 = some rA
      ∧ process4.render kernel10 abortAfterFirstRound zeroSamples 4 1 = some rB
      ∧ rA.returnCode = 1 ∧ rB.returnCode = 0
      ∧ rA.proc = rB.proc ∧ rA.imageSamples = rB.imageSamples :=
  ⟨renderEnd 4 (process4.renderAfter kernelFailing neverStop zeroSamples 4 1),
    renderEnd 4 (process4.renderAfter kernel10 abortAfterFirstRound zeroSamples 4 1),
    rfl, rfl, rfl, rfl, rfl, rfl⟩

/-- C12, as amended.  `render()` reports neither kernel failures nor reconfiguration
failures: it returns nothing, and what it leaves to its caller does not tell a failure from a
cooperative stop.  If round `k` runs and a worker of the round returns a non-zero code, the
call returns after that round with the status kept in the local `returnCode` only, and it
leaves exactly the process and the counters left by the call in which the kernel returns 0 in
round `k` and the abort flag is read set after it.  If round `k` succeeds, no stop is
requested and the reallocation fails, the call returns after that round with `returnCode` 0,
and it leaves the process and the counters left by the call aborted after round `k`, apart
from the sampler prototype and the samplers, which are members of the implementation. -/
theorem render_failures_not_reported (K : Kernel) (ctl : Nat → Controls)
    (p : InteractiveSceneProcess) (samples : Nat → ℚ) (numThreads : Int) (k fuel : Nat)
    (hrun : (p.renderAfter K ctl samples numThreads k).moreRounds = true)
    (hfuel : k + 1 ≤ fuel) :
    ((∃ tid, tid < (clampThreads p.maxThreads numThreads).toNat
          ∧ (K.render k tid (clampThreads p.maxThreads numThreads)).rc ≠ 0) →
        ∃ rA rB, p.render K ctl samples numThreads fuel = some rA
          ∧ p.render (K.succeedAt k) (stopAt ctl k) samples numThreads fuel = some rB
          ∧ rA.returnCode ≠ 0 ∧ rB.returnCode = 0
          ∧ rA.proc = rB.proc ∧ rA.imageSamples = rB.imageSamples)
      ∧ ((∀ tid, tid < (clampThreads p.maxThreads numThreads).toNat →
            (K.render k tid (clampThreads p.maxThreads numThreads)).rc = 0) →
          moreRoundsAfterJoin 0 (ctl k) = true →
          K.allocate ((p.renderAfter K ctl samples numThreads k).scramble + 1) = false →
        ∃ rA rB, p.render K ctl samples numThreads fuel = some rA
          ∧ p.render K (stopAt ctl k) samples numThreads fuel = some rB
          ∧ rA.returnCode = 0 ∧ rB.returnCode = 0
          ∧ rA.imageSamples = rB.imageSamples
          ∧ sameStatics rB.proc rA.proc
          ∧ rA.proc.blocks = rB.proc.blocks
          ∧ rA.proc.sppBase = rB.proc.sppBase) := by
  obtain ⟨hr, hrc0, hstep⟩ := renderAfter_succ K numThreads ctl p samples k hrun
  constructor
  · intro hfail
    have e := renderAfter_congr K (K.succeedAt k) ctl (stopAt ctl k) p samples numThreads k
      (fun r hr2 tid n => by simp [Kernel.succeedAt, Nat.ne_of_lt hr2]) rfl
      (fun r hr2 => by simp [stopAt, Nat.ne_of_lt hr2]) k (le_refl _)
    obtain ⟨-, -, hstep2⟩ := renderAfter_succ (K.succeedAt k) numThreads (stopAt ctl k) p
      samples k (e ▸ hrun)
    have hfail2 : ∃ tid, tid < (clampThreads p.maxThreads numThreads).toNat
        ∧ (K.render (p.renderAfter K ctl samples numThreads k).rounds tid
            (clampThreads p.maxThreads numThreads)).rc ≠ 0 := by
      rw [hr]; exact hfail
    obtain ⟨g1, g2, g3, g4, g5⟩ := renderRound_failure_forget K (ctl k) (stopAt ctl k k)
      (clampThreads p.maxThreads numThreads) (p.renderAfter K ctl samples numThreads k)
      hrc0 hfail2 (stopAt_stops ctl k)
    rw [hr] at g1 g3 g5
    rw [← hstep] at g1 g2 g4
    rw [e, ← hstep2] at g1 g3 g5
    have hend := congrArg (renderEnd (clampThreads p.maxThreads numThreads)) g1
    rw [← renderEnd_forget, ← renderEnd_forget] at hend
    obtain ⟨f1, f2, -⟩ := forgetCode_fields _ _ hend
    refine ⟨_, _, render_of_stopped K ctl p samples numThreads (k + 1) fuel g4 hfuel,
      render_of_stopped (K.succeedAt k) (stopAt ctl k) p samples numThreads (k + 1) fuel g5
        hfuel, ?_, ?_, f1, f2⟩
    · unfold renderEnd; split_ifs <;> exact g2
    · unfold renderEnd; split_ifs <;> exact g3
  · intro hok hctl halloc
    have e := renderAfter_congr K K ctl (stopAt ctl k) p samples numThreads k
      (fun _ _ _ _ => rfl) rfl (fun r hr2 => by simp [stopAt, Nat.ne_of_lt hr2]) k (le_refl _)
    obtain ⟨-, -, hstep2⟩ := renderAfter_succ K numThreads (stopAt ctl k) p samples k
      (e ▸ hrun)
    have hcode : (runWorkers K (clampThreads p.maxThreads numThreads)
        (roundBase (clampThreads p.maxThreads numThreads)
          (p.renderAfter K ctl samples numThreads k))).returnCode = 0 := by
      rw [runWorkers_returnCode]
      refine ⟨hrc0, fun t ht => ?_⟩
      have e2 : (roundBase (clampThreads p.maxThreads numThreads)
          (p.renderAfter K ctl samples numThreads k)).rounds = k := hr
      rw [e2]
      exact hok t ht
    obtain ⟨g1, g2, g3, g4, g5, g6, g7⟩ := renderRound_realloc_failure K (ctl k)
      (stopAt ctl k k) (clampThreads p.maxThreads numThreads)
      (p.renderAfter K ctl samples numThreads k) (by rw [hcode]; exact hctl) halloc
      (stopAt_stops ctl k)
    have hcA : (renderRound K (ctl k) (clampThreads p.maxThreads numThreads)
        (p.renderAfter K ctl samples numThreads k)).returnCode = 0 :=
      (renderRound_more K (clampThreads p.maxThreads numThreads) (ctl k)
        (p.renderAfter K ctl samples numThreads k) (by rw [hcode]; exact hctl)).2.2.2
    rw [← hstep] at g1 g3 g4 g5 g6 g7 hcA
    rw [e, ← hstep2] at g2 g3 g4 g5 g6 g7
    obtain ⟨v1, v2, v3, v4, v5⟩ := renderEnd_same_view (clampThreads p.maxThreads numThreads)
      _ _ g4 g5 g6 g7 g3
    refine ⟨_, _, render_of_stopped K ctl p samples numThreads (k + 1) fuel g1 hfuel,
      render_of_stopped K (stopAt ctl k) p samples numThreads (k + 1) fuel g2 hfuel,
      ?_, ?_, v1, v2, v3, v4⟩
    · unfold renderEnd; split_ifs <;> exact hcA
    · rw [← v5]; unfold renderEnd; split_ifs <;> exact hcA

/-- C12, as amended, at a concrete input: the failing kernel on the process of the
scenario. -/
theorem render_failures_not_reported_witness :
    ∃ rA rB, process4.render kernelFailing neverStop zeroSamples 4 3 = some rA
      ∧ process4.render (kernelFailing.succeedAt 0) (stopAt neverStop 0) zeroSamples 4 3
          = some rB
      ∧ rA.returnCode ≠ 0 ∧ rB.returnCode = 0
      ∧ rA.proc = rB.proc ∧ rA.imageSamples = rB.imageSamples :=
  (render_failures_not_reported kernelFailing neverStop process4 zeroSamples 4 0 3 rfl
    (by decide)).1 ⟨0, by decide, by decide⟩

/-! ## The handshake of the work lane (C13) -/

theorem iterate_synchronize (n : Nat) (lane : WorkLane) :
    (Nat.iterate WorkLane.synchronize n lane).awaiting_sync = lane.awaiting_sync + n
      ∧ (Nat.iterate WorkLane.synchronize n lane).continu = lane.continu
      ∧ (Nat.iterate WorkLane.synchronize n lane).started = lane.started
      ∧ (Nat.iterate WorkLane.synchronize n lane).stopped = lane.stopped := by
  induction n generalizing lane with
  | zero => simp
  | succ n ih =>
    rw [Function.iterate_succ_apply]
    obtain ⟨h1, h2, h3, h4⟩ := ih lane.synchronize
    refine ⟨?_, h2, h3, h4⟩
    rw [h1]
    simp only [WorkLane.synchronize]
    push_cast
    ring

/-- C13.  The handshake of the work lane.  Starting from a lane with no request pending,
`requests ≥ 1` calls of `synchronize()` leave the counter at `requests`.  A call of
`synchronized(sync)` then calls `sync.sync()` exactly once (the state of the `Sync` object is
the one after a single call, and a callback instrumented with a call counter counts one
call), returns its result, resets the counter to 0, leaves the other flags of the lane alone
and notifies the waiters.  A call of `synchronized(sync)` made while the counter is 0 does not
call `sync.sync()`, returns 0, notifies nobody and changes nothing. -/
theorem synchronized_handshake {σ : Type} (sync : σ → σ × Int) (lane : WorkLane) (target : σ)
    (requests arrivals calls : Nat) (h0 : lane.awaiting_sync = 0) (hreq : 1 ≤ requests) :
    (Nat.iterate WorkLane.synchronize requests lane).awaiting_sync = requests
      ∧ (WorkLane.synchronized sync arrivals
            (Nat.iterate WorkLane.synchronize requests lane) target).target = (sync target).1
      ∧ (WorkLane.synchronized
            (fun tc : σ × Nat => (((sync tc.1).1, tc.2 + 1), (sync tc.1).2)) arrivals
            (Nat.iterate WorkLane.synchronize requests lane) (target, calls)).target
          = ((sync target).1, calls + 1)
      ∧ (WorkLane.synchronized sync arrivals
            (Nat.iterate WorkLane.synchronize requests lane) target).result = (sync target).2
      ∧ (WorkLane.synchronized sync arrivals
            (Nat.iterate WorkLane.synchronize requests lane) target).lane = lane
      ∧ (WorkLane.synchronized sync arrivals
            (Nat.iterate WorkLane.synchronize requests lane) target).synced = true
      ∧ (WorkLane.synchronized sync arrivals lane target).target = target
      ∧ (WorkLane.synchronized
            (fun tc : σ × Nat => (((sync tc.1).1, tc.2 + 1), (sync tc.1).2)) arrivals
            lane (target, calls)).target = (target, calls)
      ∧ (WorkLane.synchronized sync arrivals lane target).result = 0
      ∧ (WorkLane.synchronized sync arrivals lane target).lane = lane
      ∧ (WorkLane.synchronized sync arrivals lane target).synced = false := by
  obtain ⟨i1, i2, i3, i4⟩ := iterate_synchronize requests lane
  rw [h0, zero_add] at i1
  have hne : (Nat.iterate WorkLane.synchronize requests lane).awaiting_sync ≠ 0 := by
    rw [i1]; omega
  have hne2 : (Nat.iterate WorkLane.synchronize requests lane).awaiting_sync + (arrivals : Int)
      ≠ 0 := by
    rw [i1]; omega
  have hlane : ({ Nat.iterate WorkLane.synchronize requests lane with awaiting_sync := 0 }
      : WorkLane) = lane := by
    have key : ∀ L : WorkLane, L.continu = lane.continu → L.started = lane.started →
        L.stopped = lane.stopped → ({ L with awaiting_sync := 0 } : WorkLane) = lane := by
      intro L e1 e2 e3
      obtain ⟨c1, st1, sp1, a1⟩ := lane
      obtain ⟨c2, st2, sp2, a2⟩ := L
      simp only at e1 e2 e3 h0
      subst e1 e2 e3 h0
      rfl
    exact key _ i2 i3 i4
  refine ⟨i1, ?_, ?_, ?_, ?_, ?_, ?_, ?_, ?_, ?_, ?_⟩
  · simp only [WorkLane.synchronized, if_pos hne, if_pos hne2]
  · simp only [WorkLane.synchronized, if_pos hne, if_pos hne2]
  · simp only [WorkLane.synchronized, if_pos hne, if_pos hne2]
  · simp only [WorkLane.synchronized, if_pos hne, if_pos hne2]
    exact hlane
  · simp only [WorkLane.synchronized, if_pos hne, if_pos hne2]
  · simp only [WorkLane.synchronized, h0, ne_eq, not_true_eq_false, if_false]
  · simp only [WorkLane.synchronized, h0, ne_eq, not_true_eq_false, if_false]
  · simp only [WorkLane.synchronized, h0, ne_eq, not_true_eq_false, if_false]
  · simp only [WorkLane.synchronized, h0, ne_eq, not_true_eq_false, if_false]
  · simp only [WorkLane.synchronized, h0, ne_eq, not_true_eq_false, if_false]

/-- C13 at a concrete input, the scenario of the specification: a `Sync` object whose
`sync()` increments a counter; one `synchronize()` followed by `synchronized(sync)` gives
exactly one increment. -/
theorem synchronized_handshake_witness :
    (WorkLane.synchronized countingSync 0 (Nat.iterate WorkLane.synchronize 1 lane0) 0).target
        = 1
      ∧ (WorkLane.synchronized countingSync 0 (Nat.iterate WorkLane.synchronize 1 lane0)
          0).lane = lane0
      ∧ (WorkLane.synchronized countingSync 0 lane0 0).target = 0 :=
  ⟨(synchronized_handshake countingSync lane0 0 1 0 0 rfl (by decide)).2.1,
    (synchronized_handshake countingSync lane0 0 1 0 0 rfl (by decide)).2.2.2.2.1,
    (synchronized_handshake countingSync lane0 0 1 0 0 rfl (by decide)).2.2.2.2.2.2.1⟩

/-! ## The termination of the work lane (C15) -/

/-- C15.  The destructor of a work lane performs its steps in the order: clear `continu`,
call `worker->quit(lane)`, join the lane thread.  After the first step the flag is cleared and
the worker untouched; the worker's `quit` is called on the lane with the flag cleared; the
join comes last.  The `quit` of the render worker is `pause(false)` on its process: it
changes only `paused`, to false, and issues the broadcast on the pause gate.  A worker parked
in the wait loop of the interrupt callback then finds the loop condition false, by
`paused = false` whatever its controls, and by the cleared continue flag whatever
`paused`, and leaves the loop at its next evaluation of the condition. -/
theorem destroy_clears_quits_joins (lane : WorkLane) (r : Renderer) :
    WorkLane.teardown = [Teardown.clearContinu, Teardown.quit, Teardown.join]
      ∧ (∀ (σ : Type) (quit : WorkLane → σ → σ) (w : σ),
          (WorkLane.teardown.take 1).foldl (fun state step => step.apply quit state) (lane, w)
              = ({ lane with continu := false }, w)
            ∧ (WorkLane.teardown.take 2).foldl (fun state step => step.apply quit state)
                  (lane, w)
              = ({ lane with continu := false }, quit { lane with continu := false } w)
            ∧ WorkLane.destroy quit lane w
              = ({ lane with continu := false, started := true, stopped := true },
                  quit { lane with continu := false } w))
      ∧ (WorkLane.destroy (fun _ w => (Renderer.quit w).1) lane r).1.continu = false
      ∧ (WorkLane.destroy (fun _ w => (Renderer.quit w).1) lane r).2 = (Renderer.quit r).1
      ∧ (Renderer.quit r).2 = true
      ∧ (Renderer.quit r).1.integration.process
          = { r.integration.process with paused := false }
      ∧ (∀ c : Controls,
          Interrupt.waitCondition (Renderer.quit r).1.integration.process.paused c = false)
      ∧ (∀ (paused : Bool) (abort : Option Int),
          Interrupt.waitCondition paused
            { continu := some (WorkLane.destroy (fun _ w => (Renderer.quit w).1) lane r).1.continu
              abort := abort } = false)
      ∧ (∀ (obs : Nat → Bool × Controls) (k fuel : Nat),
          ((obs k).1 = (Renderer.quit r).1.integration.process.paused
              ∨ (obs k).2.continu = some false) →
            Interrupt.waitLoop obs (fuel + 1) k = some k) := by
  refine ⟨rfl, fun σ quit w => ⟨rfl, rfl, rfl⟩, rfl, rfl, rfl, rfl, fun c => rfl, ?_, ?_⟩
  · intro paused abort
    cases paused <;> rfl
  · intro obs k fuel h
    have hc : Interrupt.waitCondition (obs k).1 (obs k).2 = false := by
      rcases h with h | h
      · rw [h]; rfl
      · unfold Interrupt.waitCondition
        rw [h]
        cases (obs k).1 <;> rfl
    simp only [Interrupt.waitLoop, hc]
    rfl

/-! ## Synchronisation and rendering (C14, C16) -/

/-- C14, evaluated at the failing interleaving.  The wait of `synchronize()` times out twice
and the controller's `prepareFrame` falls between the lane thread's read of `needsSync()` and
its entry into `synchronize()`: the lane thread leaves the loop of `work` and enters
`render()` with the counter `awaiting_sync` at 1, and the `prepareFrame` that follows the next
scene change executes `Sync.sync()` while the lane thread is inside `render()`.  When the
change replaces the integrator or the film, that `sync()` replaces the integration that
`render()` is running on. -/
theorem sync_during_render (fresh : Integration) :
    (Shell.run false fresh staleRequestSchedule shell0).map (fun s => (s.trace, s.pc))
        = some ([Trace.sync Actor.controller LanePc.wantSync 1, Trace.leftLoop 1,
            Trace.sync Actor.controller LanePc.rendering 1], LanePc.rendering)
      ∧ (Shell.run true fresh staleRequestSchedule shell0).map (fun s => (s.trace, s.pc))
        = some ([Trace.sync Actor.controller LanePc.wantSync 1, Trace.leftLoop 1,
            Trace.sync Actor.controller LanePc.rendering 1], LanePc.rendering)
      ∧ (Shell.run true fresh staleRequestSchedule shell0).map
          (fun s => s.renderer.integration.samples) = some fresh.samples :=
  ⟨rfl, rfl, rfl⟩

/-- C16, the claim refuted at a concrete input.  In the usual course of a scene change the
callback requested by the lane thread is executed by the controller thread, inside its call
of `prepareFrame`, while the lane thread is parked in `synchronize()`; the lane thread
executes no `sync()`. -/
theorem sync_runs_on_controller_thread :
    (Shell.run false integration4Double handshakeSchedule shell0).map (fun s => s.trace)
        = some [Trace.sync Actor.controller LanePc.parked 1, Trace.leftLoop 0]
      ∧ ¬ (∀ t, Shell.run false integration4Double handshakeSchedule shell0 = some t →
            ∀ thread pc r, Trace.sync thread pc r ∈ t.trace → thread = Actor.lane) := by
  refine ⟨rfl, fun h => ?_⟩
  cases hrun : Shell.run false integration4Double handshakeSchedule shell0 with
  | none => exact absurd (congrArg Option.isSome hrun) (by decide)
  | some t =>
    have htr : t.trace = [Trace.sync Actor.controller LanePc.parked 1, Trace.leftLoop 0] := by
      have : (Shell.run false integration4Double handshakeSchedule shell0).map
          (fun s => s.trace)
          = some [Trace.sync Actor.controller LanePc.parked 1, Trace.leftLoop 0] := rfl
      rw [hrun] at this
      exact Option.some.inj this
    have := h t hrun Actor.controller LanePc.parked 1 (by rw [htr]; simp)
    cases this

theorem callSynchronized_trace (changed : Bool) (fresh : Integration) (caller : Actor)
    (s : Shell) :
    (s.callSynchronized changed fresh caller).trace = s.trace
      ∨ (s.callSynchronized changed fresh caller).trace
          = s.trace ++ [Trace.sync caller s.pc (Renderer.sync changed fresh s.renderer).2] := by
  simp only [Shell.callSynchronized, WorkLane.synchronized]
  by_cases h : s.lane.awaiting_sync ≠ 0
  · have h2 : s.lane.awaiting_sync + ((0 : Nat) : Int) ≠ 0 := by simpa using h
    right
    rw [if_pos h, if_pos h2]
    rfl
  · left
    rw [if_neg h]
    simp

theorem laneStep_trace (a : LaneAction) (s t : Shell) (h : s.laneStep a = some t) :
    t.trace = s.trace ∨ t.trace = s.trace ++ [Trace.leftLoop s.lane.awaiting_sync] := by
  unfold Shell.laneStep at h
  split at h
  · split_ifs at h <;> (simp only [Option.some.injEq] at h; subst h; simp)
  · split_ifs at h <;> (simp only [Option.some.injEq] at h; subst h; simp)
  · simp only [Option.some.injEq] at h; subst h; simp
  · simp only [Option.some.injEq] at h; subst h; simp
  · split_ifs at h <;> (simp only [Option.some.injEq] at h; subst h; simp)
  · simp only [Option.some.injEq] at h; subst h; simp
  · cases h

theorem controllerStep_trace (changed : Bool) (fresh : Integration) (a : ControllerAction)
    (s : Shell) :
    (s.controllerStep changed fresh a).trace = s.trace
      ∨ ∃ r, (s.controllerStep changed fresh a).trace
          = s.trace ++ [Trace.sync Actor.controller s.pc r] := by
  cases a
  · simp only [Shell.controllerStep]
    split_ifs
    · exact Or.inl rfl
    · exact Or.inl rfl
  · exact Or.inl rfl
  · rcases callSynchronized_trace changed fresh Actor.controller s with h | h
    · exact Or.inl h
    · exact Or.inr ⟨_, h⟩

theorem run_trace (changed : Bool) (fresh : Integration) (sched : List Action) (s t : Shell)
    (hrun : Shell.run changed fresh sched s = some t) :
    ∃ added, t.trace = s.trace ++ added
      ∧ ∀ e ∈ added, (∃ a, e = Trace.leftLoop a) ∨ ∃ pc r, e = Trace.sync Actor.controller pc r := by
  induction sched generalizing s with
  | nil =>
    simp only [Shell.run, Option.some.injEq] at hrun
    subst hrun
    exact ⟨[], by simp, by simp⟩
  | cons a as ih =>
    simp only [Shell.run] at hrun
    cases hstep : s.step changed fresh a with
    | none => rw [hstep] at hrun; cases hrun
    | some u =>
      rw [hstep] at hrun
      obtain ⟨added, h1, h2⟩ := ih u hrun
      have hu : ∃ one, u.trace = s.trace ++ one
          ∧ ∀ e ∈ one, (∃ a, e = Trace.leftLoop a)
              ∨ ∃ pc r, e = Trace.sync Actor.controller pc r := by
        cases a with
        | lane la =>
          rcases laneStep_trace la s u hstep with h | h
          · exact ⟨[], by simp [h], by simp⟩
          · exact ⟨_, h, by simp⟩
        | controller ca =>
          simp only [Shell.step, Option.some.injEq] at hstep
          subst hstep
          rcases controllerStep_trace changed fresh ca s with h | ⟨r, h⟩
          · exact ⟨[], by simp [h], by simp⟩
          · exact ⟨_, h, by simp⟩
      obtain ⟨one, o1, o2⟩ := hu
      refine ⟨one ++ added, by rw [h1, o1, List.append_assoc], fun e he => ?_⟩
      rcases List.mem_append.mp he with he | he
      · exact o2 e he
      · exact h2 e he

/-- C16, as amended.  The callback `Sync.sync()` requested through the handshake is executed
by the thread that calls `synchronized(sync)`, inside that call.  In every interleaving of the
lane thread and the controller thread, every execution of the callback recorded is one by the
controller thread (its `prepareFrame`); no step of the lane thread executes the callback: the
lane thread only posts the request in `synchronize()` and waits. -/
theorem sync_runs_on_calling_thread (changed : Bool) (fresh : Integration)
    (sched : List Action) (s t : Shell)
    (hrun : Shell.run changed fresh sched s = some t) :
    (∃ added, t.trace = s.trace ++ added
        ∧ ∀ thread pc r, Trace.sync thread pc r ∈ added → thread = Actor.controller)
      ∧ (∀ la u, s.laneStep la = some u →
          ∀ thread pc r, Trace.sync thread pc r ∈ u.trace → Trace.sync thread pc r ∈ s.trace)
      ∧ (∀ caller, s.lane.awaiting_sync ≠ 0 →
          (s.callSynchronized changed fresh caller).trace
            = s.trace ++ [Trace.sync caller s.pc (Renderer.sync changed fresh s.renderer).2]) := by
  refine ⟨?_, ?_, ?_⟩
  · obtain ⟨added, h1, h2⟩ := run_trace changed fresh sched s t hrun
    refine ⟨added, h1, fun thread pc r he => ?_⟩
    rcases h2 _ he with ⟨a, h⟩ | ⟨pc2, r2, h⟩
    · cases h
    · cases h; rfl
  · intro la u hu thread pc r he
    rcases laneStep_trace la s u hu with h | h
    · rw [h] at he; exact he
    · rw [h] at he
      rcases List.mem_append.mp he with he | he
      · exact he
      · simp at he
  · intro caller hne
    simp only [Shell.callSynchronized, WorkLane.synchronized, if_pos hne]
    have : s.lane.awaiting_sync + ((0 : Nat) : Int) ≠ 0 := by simpa using hne
    rw [if_pos this]
    rfl

/-- C16, as amended, at a concrete input: the usual course of a scene change. -/
theorem sync_runs_on_calling_thread_witness :
    (Shell.run false integration4Double handshakeSchedule shell0).isSome = true
      ∧ ∀ t, Shell.run false integration4Double handshakeSchedule shell0 = some t →
          ∃ added, t.trace = shell0.trace ++ added
            ∧ ∀ thread pc r, Trace.sync thread pc r ∈ added → thread = Actor.controller :=
  ⟨rfl, fun t ht =>
    (sync_runs_on_calling_thread false integration4Double handshakeSchedule shell0 t ht).1⟩

/-! ## The thread limit (C23) -/

/-- C23.  The thread limit of a process is resolved at construction: `maxThreads` is
`config.maxThreads` when `0 < config.maxThreads < coreCount` and `coreCount` otherwise, so
that `1 ≤ maxThreads ≤ coreCount` when there is at least one core; calls of `render()` do not
change it.  `ProcessConfig::resolveDefaults` replaces a negative `maxThreads` by the
recommended count and changes nothing else: a configuration with `maxThreads ≥ 0` is
returned as it is, and `doubleBuffered` is always kept. -/
theorem maxThreads_resolved (K : Kernel) (coreCount : Int) (sampler : Sampler)
    (pixels : List ℚ) (config : ProcessConfig) (recommended : Int) :
    ((0 < config.maxThreads ∧ config.maxThreads < coreCount) →
        (InteractiveSceneProcess.create K coreCount sampler pixels config).maxThreads
          = config.maxThreads)
      ∧ (¬ (0 < config.maxThreads ∧ config.maxThreads < coreCount) →
        (InteractiveSceneProcess.create K coreCount sampler pixels config).maxThreads
          = coreCount)
      ∧ (config.maxThreads ≤ 0 →
        (InteractiveSceneProcess.create K coreCount sampler pixels config).maxThreads
          = coreCount)
      ∧ (1 ≤ coreCount →
        1 ≤ (InteractiveSceneProcess.create K coreCount sampler pixels config).maxThreads
          ∧ (InteractiveSceneProcess.create K coreCount sampler pixels config).maxThreads
              ≤ coreCount)
      ∧ (∀ calls q,
          renderMany calls (InteractiveSceneProcess.create K coreCount sampler pixels config)
            = some q →
          q.maxThreads
            = (InteractiveSceneProcess.create K coreCount sampler pixels config).maxThreads)
      ∧ (config.maxThreads < 0 →
          ProcessConfig.resolveDefaults recommended config
            = { config with maxThreads := recommended })
      ∧ (0 ≤ config.maxThreads → ProcessConfig.resolveDefaults recommended config = config)
      ∧ (ProcessConfig.resolveDefaults recommended config).doubleBuffered
          = config.doubleBuffered := by
  obtain ⟨h1, -⟩ := create_sets K coreCount sampler pixels config
  refine ⟨fun h => by rw [h1, if_pos h], fun h => by rw [h1, if_neg h],
    fun h => by rw [h1, if_neg (by omega)], fun hc => ?_,
    fun calls q hq => (renderMany_pool calls _ q hq).2.1, fun h => ?_, fun h => ?_, ?_⟩
  · rw [h1]
    split_ifs with h
    · exact ⟨by omega, by omega⟩
    · exact ⟨hc, le_refl _⟩
  · simp only [ProcessConfig.resolveDefaults, if_pos h]
  · simp only [ProcessConfig.resolveDefaults, if_neg (not_lt.mpr h)]
  · unfold ProcessConfig.resolveDefaults
    split_ifs <;> rfl

/-! ## Null control flags (C25) -/

/-- C26.  The method `render()` sets `paused` to false on entry, whatever the state before:
the flag is false when the first round starts, also when `pause(true)` was called just before
`render()`; no step of `render()` sets it again, so it is false after every round and on
return; and the interrupt callback of a worker that reads it as false does not wait. -/
theorem render_clears_paused (K : Kernel) (ctl : Nat → Controls)
    (p : InteractiveSceneProcess) (samples : Nat → ℚ) (numThreads : Int) :
    (p.renderAfter K ctl samples numThreads 0).proc.paused = false
      ∧ (p.renderAfter K ctl samples numThreads 0).rounds = 0
      ∧ ((p.pause true).1.paused = true
          ∧ ((p.pause true).1.renderAfter K ctl samples numThreads 0).proc.paused = false)
      ∧ (∀ k, (p.renderAfter K ctl samples numThreads k).proc.paused = false
          ∧ ((p.pause true).1.renderAfter K ctl samples numThreads k).proc.paused = false)
      ∧ (∀ fuel r, p.render K ctl samples numThreads fuel = some r → r.proc.paused = false)
      ∧ (∀ c, Interrupt.waitCondition false c = false)
      ∧ (∀ sppBase sppTarget spp obs fuel,
          Interrupt.progress sppBase sppTarget spp
              (p.renderAfter K ctl samples numThreads 0).proc.paused obs fuel
            = some ((Interrupt.store sppBase spp).getD sppTarget, 0)) := by
  have hk : ∀ (q : InteractiveSceneProcess) k,
      (q.renderAfter K ctl samples numThreads k).proc.paused = false := by
    intro q k
    have hst := renderRounds_statics K (clampThreads q.maxThreads numThreads) ctl k
      (renderBegin q samples numThreads)
    exact hst.1
  refine ⟨rfl, rfl, ⟨rfl, rfl⟩, fun k => ⟨hk p k, hk _ k⟩, fun fuel r hr => ?_,
    fun c => rfl, fun sppBase sppTarget spp obs fuel => rfl⟩
  obtain ⟨-, rfl⟩ := render_some K ctl p samples numThreads fuel r hr
  rw [(renderEnd_statics _ _).2.2.1]
  exact hk p fuel

/-! ## The polling loop of `runFrame` (C27) -/

theorem pollLoop_mono (upToDate : Nat → Bool) (fuel k : Nat) (w : Int) (l : List Int)
    (h : Integration.pollLoop upToDate fuel k w = some l) :
    Integration.pollLoop upToDate (fuel + 1) k w = some l := by
  induction fuel generalizing k w l with
  | zero => cases h
  | succ fuel ih =>
    rw [Integration.pollLoop] at h ⊢
    split_ifs at h ⊢ with hc
    · cases hr : Integration.pollLoop upToDate fuel (k + 1) (w + min (max w 5) 16) with
      | none => rw [hr] at h; cases h
      | some l2 =>
        rw [hr] at h
        rw [ih _ _ _ hr]
        exact h
    · exact h

theorem pollLoop_mono_le (upToDate : Nat → Bool) (fuel fuel2 k : Nat) (w : Int)
    (l : List Int) (h : Integration.pollLoop upToDate fuel k w = some l) (hle : fuel ≤ fuel2) :
    Integration.pollLoop upToDate fuel2 k w = some l := by
  induction fuel2 with
  | zero =>
    have : fuel = 0 := by omega
    subst this
    exact h
  | succ n ih =>
    by_cases hn : fuel ≤ n
    · exact pollLoop_mono upToDate n k w l (ih hn)
    · have : fuel = n + 1 := by omega
      subst this
      exact h

/-- Whatever the preview answers, the polling loop ends no later than when the preview is
never up to date, and its sleeps are the first sleeps of that case. -/
theorem pollLoop_prefix (upToDate : Nat → Bool) (fuel k k2 : Nat) (w : Int) (full : List Int)
    (h : Integration.pollLoop (fun _ => false) fuel k2 w = some full) :
    ∃ l, Integration.pollLoop upToDate fuel k w = some l ∧ l <+: full := by
  induction fuel generalizing k k2 w full with
  | zero => cases h
  | succ fuel ih =>
    rw [Integration.pollLoop] at h ⊢
    by_cases hw : w < 160
    · simp only [Bool.not_false, Bool.true_and, decide_eq_true_eq, if_pos hw] at h
      cases hr : Integration.pollLoop (fun _ => false) fuel (k2 + 1) (w + min (max w 5) 16) with
      | none => rw [hr] at h; cases h
      | some l2 =>
        rw [hr] at h
        simp only [Option.map_some', Option.some.injEq] at h
        subst h
        obtain ⟨l, h1, h2⟩ := ih (k + 1) (k2 + 1) _ l2 hr
        cases hu : upToDate k
        · simp only [Bool.not_false, Bool.true_and, decide_eq_true_eq, if_pos hw, h1,
            Option.map_some']
          exact ⟨_, rfl, (List.prefix_cons_inj _).mpr h2⟩
        · simp only [Bool.not_true, Bool.false_and]
          exact ⟨[], rfl, List.nil_prefix⟩
    · refine ⟨[], ?_, List.nil_prefix⟩
      simp [hw]

/-- C27.  The polling loop of `runFrame` ends for every behaviour of the preview: with 13
evaluations of its condition (and with any larger number) it has returned; it performed at
most 12 sleeps, which are the first sleeps of the sequence 5, 10, 20, 36, 52, …, 164, for a
total of at most 935 ms.  When the preview is never up to date the sleeps are exactly this
sequence: the counter passes 160 at 164, after 12 sleeps of 935 ms in total. -/
theorem pollLoop_terminates (upToDate : Nat → Bool) :
    (∃ sleeps, (∀ fuel, 13 ≤ fuel → Integration.pollLoop upToDate fuel 0 0 = some sleeps)
        ∧ sleeps <+: pollSleeps
        ∧ sleeps.length ≤ 12
        ∧ sleeps.sum ≤ 935)
      ∧ Integration.pollLoop (fun _ => false) 13 0 0 = some pollSleeps
      ∧ Integration.pollLoop (fun _ => false) 12 0 0 = none
      ∧ pollSleeps.length = 12
      ∧ pollSleeps.sum = 935
      ∧ (∀ v ∈ pollSleeps.dropLast, v < 160)
      ∧ pollSleeps.getLast? = some 164 := by
  have hfull : Integration.pollLoop (fun _ => false) 13 0 0 = some pollSleeps := by decide
  obtain ⟨l, h1, h2⟩ := pollLoop_prefix upToDate 13 0 0 0 pollSleeps hfull
  refine ⟨⟨l, fun fuel hfuel => pollLoop_mono_le upToDate 13 fuel 0 0 l h1 hfuel, h2, ?_, ?_⟩,
    hfull, by decide, by decide, by decide, by decide, by decide⟩
  · exact h2.length_le
  · have hsum : pollSleeps.sum = 935 := by decide
    rw [← hsum]
    exact h2.sublist.sum_le_sum (by decide)

/-! ## The thread budget of a session (C24) -/

theorem sum_shares (q r : Int) (j : Nat) :
    ((List.range j).map (fun (t : Nat) => if (t : Int) < r then q + 1 else q)).sum
      = q * j + min (max (j : Int) 0) (max r 0) := by
  induction j with
  | zero => simp
  | succ j ih =>
    rw [List.range_succ, List.map_append, List.sum_append, ih]
    simp only [List.map_cons, List.map_nil, List.sum_cons, List.sum_nil, add_zero]
    have e : q * ((j + 1 : Nat) : Int) = q * (j : Int) + q := by push_cast; ring
    rw [e]
    generalize q * (j : Int) = A
    split_ifs with h
    · push_cast; omega
    · push_cast; omega

theorem reconfigureLoop_eq (M q r maxT : Int) (n : Nat) (hq : M = q * n + r)
    (hmax : maxT = if r = 0 then q else q + 1) :
    ∀ (rem i : Nat), i + rem = n →
      Session.reconfigureLoop M q maxT rem (q * i + min (i : Int) r)
        = (List.range rem).map (fun (j : Nat) => if ((i + j : Nat) : Int) < r then q + 1 else q) := by
  intro rem
  induction rem with
  | zero => intro i _; rfl
  | succ rem ih =>
    intro i hi
    have hM : M = q * (i : Int) + q * (rem : Int) + q + r := by
      rw [hq, ← hi]; push_cast; ring
    have hnext : q * ((i + 1 : Nat) : Int) = q * (i : Int) + q := by push_cast; ring
    have key : (if q * (i : Int) + min (i : Int) r + maxT + q * (rem : Int) > M then
          (M - (q * (i : Int) + min (i : Int) r)).tdiv ((rem : Int) + 1)
        else maxT) = if (i : Int) < r then q + 1 else q := by
      by_cases hir : (i : Int) < r
      · have hr1 : r ≠ 0 := by omega
        rw [if_pos hir, hmax, if_neg hr1, if_neg]
        rw [hM]
        generalize q * (i : Int) = A
        generalize q * (rem : Int) = B
        omega
      · rw [if_neg hir]
        by_cases hr1 : r = 0
        · rw [hmax, if_pos hr1, if_neg]
          rw [hM]
          generalize q * (i : Int) = A
          generalize q * (rem : Int) = B
          omega
        · rw [hmax, if_neg hr1, if_pos]
          · have e : M - (q * (i : Int) + min (i : Int) r) = q * ((rem : Int) + 1) := by
              rw [hM, mul_add, mul_one]
              generalize q * (i : Int) = A
              generalize q * (rem : Int) = B
              omega
            rw [e, Int.mul_tdiv_cancel _ (by omega)]
          · rw [hM]
            generalize q * (i : Int) = A
            generalize q * (rem : Int) = B
            omega
    rw [Session.reconfigureLoop, key, List.range_succ_eq_map, List.map_cons, List.map_map]
    have hb : q * (i : Int) + min (i : Int) r + (if (i : Int) < r then q + 1 else q)
        = q * ((i + 1 : Nat) : Int) + min (((i + 1 : Nat) : Int)) r := by
      rw [hnext]
      generalize q * (i : Int) = A
      split_ifs with h
      · push_cast; omega
      · push_cast; omega
    rw [hb, ih (i + 1) (by omega)]
    congr 1
    apply List.map_congr_left
    intro j _
    simp only [Function.comp, Nat.succ_eq_add_one]
    have : i + 1 + j = i + (j + 1) := by omega
    rw [this]

theorem ceil_share (M : Int) (n : Nat) (hn : 1 ≤ n) :
    (M + ((n : Int) - 1)) / n = if M % n = 0 then M / n else M / n + 1 := by
  have hnpos : (0 : Int) < n := by exact_mod_cast hn
  have hdecomp : M = M / n * n + M % n := by
    have := Int.ediv_add_emod M n
    rw [mul_comm] at this
    exact this.symm
  have hr0 : 0 ≤ M % n := Int.emod_nonneg _ (by omega)
  have hrn : M % n < n := Int.emod_lt_of_pos _ hnpos
  by_cases hr : M % n = 0
  · rw [if_pos hr]
    refine ((@Int.ediv_emod_unique (M + ((n : Int) - 1)) n ((n : Int) - 1) (M / n)
      hnpos).mpr ⟨?_, ?_, ?_⟩).1
    · rw [hr, add_zero] at hdecomp
      rw [mul_comm] at hdecomp
      generalize (n : Int) * (M / n) = A at hdecomp ⊢
      omega
    · omega
    · omega
  · rw [if_neg hr]
    refine ((@Int.ediv_emod_unique (M + ((n : Int) - 1)) n (M % n - 1) (M / n + 1)
      hnpos).mpr ⟨?_, ?_, ?_⟩).1
    · rw [mul_add, mul_one]
      rw [mul_comm] at hdecomp
      generalize (n : Int) * (M / n) = A at hdecomp ⊢
      omega
    · omega
    · omega

/-- The budgets that `Session::reconfigure` hands out, in closed form: with `M` the resolved
total and `n ≥ 1` scenes, the first `M % n` scenes get `M / n + 1` threads and the others
`M / n`. -/
theorem reconfigure_shares (recommended : Int) (config : ProcessConfig) (n : Nat) (M : Int)
    (hn : 1 ≤ n) (hM0 : 0 ≤ M)
    (hM : (ProcessConfig.resolveDefaults recommended config).maxThreads = M) :
    Session.reconfigure recommended config n
      = (List.range n).map (fun (j : Nat) =>
          { ProcessConfig.resolveDefaults recommended config with
            maxThreads := if (j : Int) < M % n then M / n + 1 else M / n }) := by
  have hn0 : n ≠ 0 := by omega
  have hnpos : (0 : Int) < n := by exact_mod_cast hn
  have hdecomp : M = M / n * n + M % n := by
    have := Int.ediv_add_emod M n
    rw [mul_comm] at this
    exact this.symm
  have hr0 : 0 ≤ M % n := Int.emod_nonneg _ (by omega)
  have hrn : M % n < n := Int.emod_lt_of_pos _ hnpos
  have hmin : M.tdiv (n : Int) = M / n := Int.tdiv_eq_ediv hM0 (by omega)
  have hmaxT : (M + ((n : Int) - 1)).tdiv (n : Int) = if M % n = 0 then M / n else M / n + 1 := by
    rw [Int.tdiv_eq_ediv (by omega) (by omega)]
    exact ceil_share M n hn
  have hloop := reconfigureLoop_eq M (M / n) (M % n)
    (if M % n = 0 then M / n else M / n + 1) n hdecomp rfl n 0 (by omega)
  have hz : M / n * ((0 : Nat) : Int) + min (((0 : Nat) : Int)) (M % n) = 0 := by
    simp only [Nat.cast_zero, mul_zero, zero_add]
    omega
  rw [hz] at hloop
  simp only [Session.reconfigure, if_neg hn0, hM, hmin, hmaxT, hloop, List.map_map]
  apply List.map_congr_left
  intro j _
  simp only [Function.comp, zero_add]

/-- C24.  The method `Session::reconfigure` partitions the thread budget fairly and exactly.
For `n ≥ 1` scenes and a resolved total `M ≥ 0`, every scene gets a configuration, with
`maxThreads` either `⌊M / n⌋` or `⌈M / n⌉` (the first `M mod n` scenes get one thread more
than the others) and the other settings unchanged; the budgets sum to exactly `M`, and the
running total `blockedThreads` never exceeds `M`. -/
theorem reconfigure_partitions (recommended : Int) (config : ProcessConfig) (n : Nat) (M : Int)
    (hn : 1 ≤ n) (hM0 : 0 ≤ M)
    (hM : (ProcessConfig.resolveDefaults recommended config).maxThreads = M) :
    (Session.reconfigure recommended config n).length = n
      ∧ (∀ c ∈ Session.reconfigure recommended config n,
          (c.maxThreads = M / n ∨ c.maxThreads = (M + ((n : Int) - 1)) / n)
            ∧ c.doubleBuffered = config.doubleBuffered)
      ∧ (Session.reconfigure recommended config n).map (fun c => c.maxThreads)
          = (List.range n).map (fun (j : Nat) => if (j : Int) < M % n then M / n + 1 else M / n)
      ∧ ((Session.reconfigure recommended config n).map (fun c => c.maxThreads)).sum = M
      ∧ (∀ j, j ≤ n →
          (((Session.reconfigure recommended config n).map (fun c => c.maxThreads)).take j).sum
            ≤ M) := by
  have hnpos : (0 : Int) < n := by exact_mod_cast hn
  have hdecomp : M = M / n * n + M % n := by
    have := Int.ediv_add_emod M n
    rw [mul_comm] at this
    exact this.symm
  have hr0 : 0 ≤ M % n := Int.emod_nonneg _ (by omega)
  have hrn : M % n < n := Int.emod_lt_of_pos _ hnpos
  have hq0 : 0 ≤ M / n := Int.ediv_nonneg hM0 (by omega)
  have hsh := reconfigure_shares recommended config n M hn hM0 hM
  have hmap : (Session.reconfigure recommended config n).map (fun c => c.maxThreads)
      = (List.range n).map (fun (j : Nat) => if (j : Int) < M % n then M / n + 1 else M / n) := by
    rw [hsh, List.map_map]
    rfl
  have hdb : (ProcessConfig.resolveDefaults recommended config).doubleBuffered
      = config.doubleBuffered := by
    unfold ProcessConfig.resolveDefaults
    split_ifs <;> rfl
  refine ⟨by rw [hsh]; simp, fun c hc => ?_, hmap, ?_, fun j hj => ?_⟩
  · rw [hsh] at hc
    obtain ⟨j, -, rfl⟩ := List.mem_map.mp hc
    refine ⟨?_, hdb⟩
    show (if (j : Int) < M % n then M / n + 1 else M / n) = M / n ∨ _
    rw [ceil_share M n hn]
    split_ifs with h1 h2
    · omega
    · exact Or.inr rfl
    · exact Or.inl rfl
    · exact Or.inl rfl
  · rw [hmap, sum_shares]
    generalize M / (n : Int) * (n : Int) = A at hdecomp ⊢
    omega
  · rw [hmap, ← List.map_take, List.take_range, Nat.min_eq_left hj, sum_shares]
    have hmul : M / n * (j : Int) ≤ M / n * (n : Int) :=
      mul_le_mul_of_nonneg_left (by exact_mod_cast hj) hq0
    generalize M / (n : Int) * (n : Int) = A at hdecomp hmul
    generalize M / (n : Int) * (j : Int) = B at hmul ⊢
    omega

/-- C24 at a concrete input: eight threads for three scenes are handed out as 3, 3, 2. -/
theorem reconfigure_partitions_witness :
    (Session.reconfigure 8 { maxThreads := -1, doubleBuffered := true } 3).map
        (fun c => c.maxThreads) = [3, 3, 2]
      ∧ ((Session.reconfigure 8 { maxThreads := -1, doubleBuffered := true } 3).map
          (fun c => c.maxThreads)).sum = 8 :=
  ⟨by decide,
    (reconfigure_partitions 8 { maxThreads := -1, doubleBuffered := true } 3 8 (by decide)
      (by decide) (by decide)).2.2.2.1⟩

/-! ## The batch process (C21, C22) -/

/-- C22.  The batch pause delegates to the scheduler and is idempotent.  `pause(p)` calls the
scheduler only when its running state differs from the requested one, `sched->pause()` for
`p` true and `sched->start()` for `p` false, and otherwise does nothing; afterwards
`paused() = p`; the members of the process are untouched; and a second `pause(p)` makes no
call and changes nothing. -/
theorem batch_pause_idempotent (w : Batch) (p : Bool) :
    SceneProcess.paused (SceneProcess.pause p w) = p
      ∧ (SceneProcess.paused w = p → SceneProcess.pause p w = w)
      ∧ (SceneProcess.paused w ≠ p →
          (SceneProcess.pause p w).log
              = w.log ++ [if p then BatchEvent.schedulerPause else BatchEvent.schedulerStart]
            ∧ (SceneProcess.pause p w).scheduler
              = (if p then w.scheduler.pause else w.scheduler.start))
      ∧ SceneProcess.pause p (SceneProcess.pause p w) = SceneProcess.pause p w
      ∧ (SceneProcess.pause p (SceneProcess.pause p w)).log = (SceneProcess.pause p w).log
      ∧ (SceneProcess.pause p w).process = w.process
      ∧ (SceneProcess.pause p w).scheduler.workerCount = w.scheduler.workerCount := by
  obtain ⟨proc, ⟨run, wc, wpp⟩, jr, al, lg⟩ := w
  cases p <;> cases run <;>
    simp [SceneProcess.pause, SceneProcess.paused, Scheduler.pause, Scheduler.start]

theorem activeFrom_append (acc : List (Nat × Nat)) (l1 l2 : List BatchEvent) :
    activeFrom acc (l1 ++ l2) = activeFrom (activeFrom acc l1) l2 := by
  simp [activeFrom, List.foldl_append]

theorem pause_log (p : Bool) (w : Batch) :
    (SceneProcess.pause p w).process = w.process
      ∧ (SceneProcess.pause p w).allocated = w.allocated
      ∧ (SceneProcess.pause p w).scheduler.workerCount = w.scheduler.workerCount
      ∧ ((SceneProcess.pause p w).log = w.log
          ∨ (SceneProcess.pause p w).log = w.log ++ [BatchEvent.schedulerPause]
          ∨ (SceneProcess.pause p w).log = w.log ++ [BatchEvent.schedulerStart]) := by
  obtain ⟨proc, ⟨run, wc, wpp⟩, jr, al, lg⟩ := w
  cases p <;> cases run <;>
    simp [SceneProcess.pause, Scheduler.pause, Scheduler.start]

/-- The calls made by `renderAsync`, in order. -/
theorem renderAsync_log (m : Int) (w : Batch) :
    (SceneProcess.renderAsync m w).log
        = w.log ++ (if w.scheduler.isRunning then [] else [BatchEvent.schedulerStart])
          ++ (match w.process.currentJob with
              | some j => [BatchEvent.cancelJob j]
              | none => [])
          ++ (match w.process.currentQueue with
              | some q => [BatchEvent.waitLeft q true]
              | none => [])
          ++ [BatchEvent.newQueue w.allocated, BatchEvent.registerListener w.allocated]
          ++ (if m > 0 ∧ m < w.scheduler.workerCount then [BatchEvent.limitWorkers m] else [])
          ++ [BatchEvent.newJob (w.allocated + 1) w.allocated,
              BatchEvent.startJob (w.allocated + 1) w.allocated]
      ∧ (SceneProcess.renderAsync m w).process.currentJob = some (w.allocated + 1)
      ∧ (SceneProcess.renderAsync m w).process.currentQueue = some w.allocated
      ∧ (SceneProcess.renderAsync m w).process.isCancelled = false
      ∧ (SceneProcess.renderAsync m w).scheduler.isRunning = true := by
  obtain ⟨⟨cq, cj, ic, na⟩, ⟨run, wc, wpp⟩, jr, al, lg⟩ := w
  cases run <;> cases cj <;> cases cq <;>
    by_cases hl : m > 0 ∧ m < wc <;>
    simp [SceneProcess.renderAsync, SceneProcess.clean, SceneProcess.pause, Scheduler.start, hl]

theorem activeFrom_renderAsync (m : Int) (w : Batch)
    (h : (w.process.currentJob = none ∧ w.process.currentQueue = none
          ∧ activeFrom [] w.log = [])
      ∨ ∃ j q, w.process.currentJob = some j ∧ w.process.currentQueue = some q
          ∧ activeFrom [] w.log = [(j, q)]) :
    activeFrom [] (SceneProcess.renderAsync m w).log = [(w.allocated + 1, w.allocated)] := by
  rw [(renderAsync_log m w).1]
  simp only [activeFrom_append]
  rcases h with ⟨h1, h2, h3⟩ | ⟨j, q, h1, h2, h3⟩
  · rw [h1, h2, h3]
    by_cases hr : w.scheduler.isRunning = true <;>
      by_cases hl : m > 0 ∧ m < w.scheduler.workerCount <;>
      simp [activeFrom, hr, hl]
  · rw [h1, h2, h3]
    by_cases hr : w.scheduler.isRunning = true <;>
      by_cases hl : m > 0 ∧ m < w.scheduler.workerCount <;>
      simp [activeFrom, hr, hl]

/-- After any sequence of calls on a newly created batch process, the jobs that were started
and whose queue has not been waited for are the current job, if any. -/
theorem calls_active (ops : List BatchOp) (w t : Batch)
    (h : (w.process.currentJob = none ∧ w.process.currentQueue = none
          ∧ activeFrom [] w.log = [])
      ∨ ∃ j q, w.process.currentJob = some j ∧ w.process.currentQueue = some q
          ∧ activeFrom [] w.log = [(j, q)])
    (hrun : SceneProcess.calls ops w = some t) :
    (t.process.currentJob = none ∧ t.process.currentQueue = none
          ∧ activeFrom [] t.log = [])
      ∨ ∃ j q, t.process.currentJob = some j ∧ t.process.currentQueue = some q
          ∧ activeFrom [] t.log = [(j, q)] := by
  induction ops generalizing w with
  | nil =>
    simp only [SceneProcess.calls, Option.some.injEq] at hrun
    subst hrun
    exact h
  | cons op ops ih =>
    simp only [SceneProcess.calls] at hrun
    cases hc : SceneProcess.call op w with
    | none => rw [hc] at hrun; cases hrun
    | some u =>
      rw [hc] at hrun
      refine ih u ?_ hrun
      cases op with
      | renderAsync m =>
        simp only [SceneProcess.call, Option.some.injEq] at hc
        subst hc
        obtain ⟨-, l2, l3, -, -⟩ := renderAsync_log m w
        exact Or.inr ⟨_, _, l2, l3, activeFrom_renderAsync m w h⟩
      | pause p =>
        simp only [SceneProcess.call, Option.some.injEq] at hc
        subst hc
        obtain ⟨p1, -, -, p4⟩ := pause_log p w
        have hact : activeFrom [] (SceneProcess.pause p w).log = activeFrom [] w.log := by
          rcases p4 with e | e | e <;> rw [e]
          · rw [activeFrom_append]; rfl
          · rw [activeFrom_append]; rfl
        rw [p1, hact]
        exact h
      | cancel =>
        simp only [SceneProcess.call, SceneProcess.cancel] at hc
        cases hj : w.process.currentJob with
        | none => rw [hj] at hc; cases hc
        | some j =>
          rw [hj] at hc
          simp only [Option.some.injEq] at hc
          subst hc
          rcases h with ⟨h1, -, -⟩ | ⟨j2, q, h1, h2, h3⟩
          · rw [h1] at hj; cases hj
          · have hjj : j = j2 := by
              rw [h1] at hj
              exact (Option.some.inj hj).symm
            subst hjj
            refine Or.inr ⟨j, q, rfl, h2, ?_⟩
            show activeFrom [] (w.log ++ [BatchEvent.cancelJob j]) = _
            rw [activeFrom_append, h3]
            rfl

/-- C21.  Only one batch job is active per instance.  On an instance that has a job `j` with
queue `q`, `renderAsync` resumes the scheduler if it was paused, cancels `j`, waits until
`q` is drained, the scheduler running at that point, and only then creates the new queue and
the new job and starts it; on return `cancelled()` is false and the new job is the current
one.  After `cancel()`, `cancelled()` is true.  And after any sequence of calls of
`renderAsync`, `pause` and `cancel` on a newly created instance, at most one job has been
started without its queue having been waited for since, and it is the current job. -/
theorem renderAsync_drains_prior_job (m : Int) (w : Batch) (j q : Nat)
    (hj : w.process.currentJob = some j) (hq : w.process.currentQueue = some q) :
    (SceneProcess.renderAsync m w).log
        = w.log ++ (if w.scheduler.isRunning then [] else [BatchEvent.schedulerStart])
          ++ [BatchEvent.cancelJob j, BatchEvent.waitLeft q true,
              BatchEvent.newQueue w.allocated, BatchEvent.registerListener w.allocated]
          ++ (if m > 0 ∧ m < w.scheduler.workerCount then [BatchEvent.limitWorkers m] else [])
          ++ [BatchEvent.newJob (w.allocated + 1) w.allocated,
              BatchEvent.startJob (w.allocated + 1) w.allocated]
      ∧ SceneProcess.cancelled (SceneProcess.renderAsync m w) = false
      ∧ (SceneProcess.renderAsync m w).process.currentJob = some (w.allocated + 1)
      ∧ (SceneProcess.renderAsync m w).process.currentQueue = some w.allocated
      ∧ (∃ t, SceneProcess.cancel w = some t ∧ SceneProcess.cancelled t = true
          ∧ t.process.currentJob = some j)
      ∧ (activeFrom [] w.log = [(j, q)] →
          activeJobs (SceneProcess.renderAsync m w).log = [w.allocated + 1])
      ∧ (∀ (scheduler : Scheduler) (ops : List BatchOp) (t : Batch),
          SceneProcess.calls ops (SceneProcess.create scheduler) = some t →
          activeJobs t.log = t.process.currentJob.toList ∧ (activeJobs t.log).length ≤ 1) := by
  obtain ⟨l1, l2, l3, l4, -⟩ := renderAsync_log m w
  refine ⟨?_, l4, l2, l3, ?_, fun hact => ?_, fun scheduler ops t ht => ?_⟩
  · rw [l1, hj, hq]
    simp only [List.append_assoc, List.cons_append, List.nil_append]
  · exact ⟨{ w with process := { w.process with isCancelled := true }
                    log := w.log ++ [BatchEvent.cancelJob j] },
      by simp only [SceneProcess.cancel, hj], rfl, hj⟩
  · unfold activeJobs
    rw [activeFrom_renderAsync m w (Or.inr ⟨j, q, hj, hq, hact⟩)]
    rfl
  · have hinv := calls_active ops (SceneProcess.create scheduler) t
      (Or.inl ⟨rfl, rfl, rfl⟩) ht
    unfold activeJobs
    rcases hinv with ⟨h1, -, h3⟩ | ⟨j2, q2, h1, -, h3⟩
    · rw [h1, h3]; exact ⟨rfl, by simp⟩
    · rw [h1, h3]; exact ⟨rfl, by simp⟩

/-- C21 at a concrete input: a second `renderAsync` on an instance whose first job is
running and whose scheduler was paused. -/
theorem renderAsync_drains_prior_job_witness :
    (SceneProcess.renderAsync 4 batchPaused).log
        = batchPaused.log ++ [BatchEvent.schedulerStart, BatchEvent.cancelJob 1,
            BatchEvent.waitLeft 0 true, BatchEvent.newQueue 2, BatchEvent.registerListener 2,
            BatchEvent.limitWorkers 4, BatchEvent.newJob 3 2, BatchEvent.startJob 3 2]
      ∧ SceneProcess.cancelled (SceneProcess.renderAsync 4 batchPaused) = false
      ∧ activeJobs (SceneProcess.renderAsync 4 batchPaused).log = [3] :=
  ⟨by decide,
    (renderAsync_drains_prior_job 4 batchPaused 1 0 rfl rfl).2.1,
    (renderAsync_drains_prior_job 4 batchPaused 1 0 rfl rfl).2.2.2.2.2.1 (by decide)⟩

/-! ## Automatic pause of a document (C28) -/

theorem document_pause_fields (p : Bool) (d : Document) :
    (Document.pause p d).process = d.process.map (fun proc => (proc.pause p).1)
      ∧ (Document.pause p d).autoPaused = d.autoPaused := by
  simp only [Document.pause]
  split_ifs <;> exact ⟨rfl, rfl⟩

theorem document_paused_congr (d e : Document) (h : d.process = e.process) :
    d.paused = e.paused := by
  simp only [Document.paused, h]

theorem autoPause_of_paused (d : Document) (h : d.autoPaused = false) (hp : d.paused = true) :
    d.autoPause true = d ∧ d.autoPause false = d := by
  simp [Document.autoPause, hp, h]

theorem autoPause_of_running (d : Document) (hp : d.paused = false) :
    (d.autoPause true).autoPaused = true
      ∧ (d.autoPause true).process = d.process.map (fun proc => (proc.pause true).1)
      ∧ ((d.autoPause true).autoPause false).autoPaused = false
      ∧ ((d.autoPause true).autoPause false).process
          = (d.process.map (fun proc => (proc.pause true).1)).map
              (fun proc => (proc.pause false).1) := by
  have e1 : d.autoPause true = { Document.pause true d with autoPaused := true } := by
    simp [Document.autoPause, hp]
  have e2 : (d.autoPause true).autoPause false
      = { Document.pause false (d.autoPause true) with autoPaused := false } := by
    have gen : ∀ e : Document, e.autoPaused = true →
        e.autoPause false = { Document.pause false e with autoPaused := false } := by
      intro e he
      simp [Document.autoPause, he]
    exact gen _ (by rw [e1])
  have p1 : (d.autoPause true).process = d.process.map (fun proc => (proc.pause true).1) := by
    rw [e1]
    exact (document_pause_fields true d).1
  refine ⟨by rw [e1], p1, by rw [e2], ?_⟩
  rw [e2]
  show (Document.pause false (d.autoPause true)).process = _
  rw [(document_pause_fields false _).1, p1]

/-- C28.  The automatic pause of a document is a round trip on the pause state.  Starting
with `autoPaused = false`, `autoPause(true)` followed by `autoPause(false)` leaves the
interactive process as it was, in particular its flag `paused` (a document paused by the user
is not touched at all and stays paused, a running one is paused and resumed), and leaves
`autoPaused = false`. -/
theorem autoPause_round_trip (d : Document) (h : d.autoPaused = false) :
    ((d.autoPause true).autoPause false).paused = d.paused
      ∧ ((d.autoPause true).autoPause false).process = d.process
      ∧ ((d.autoPause true).autoPause false).autoPaused = false
      ∧ (d.paused = true → d.autoPause true = d ∧ (d.autoPause true).autoPause false = d)
      ∧ (d.paused = false →
          (d.autoPause true).autoPaused = true
            ∧ (d.autoPause true).paused = d.process.isSome) := by
  cases hp : d.paused
  · obtain ⟨r1, r2, r3, r4⟩ := autoPause_of_running d hp
    have hproc : ((d.autoPause true).autoPause false).process = d.process := by
      rw [r4]
      cases hd : d.process with
      | none => rfl
      | some q =>
        have hq : q.paused = false := by
          simp only [Document.paused, hd] at hp
          exact hp
        have hqq : ({ q with paused := false } : InteractiveSceneProcess) = q := by
          cases q
          simp only at hq
          subst hq
          rfl
        show some ({ q with paused := false } : InteractiveSceneProcess) = some q
        rw [hqq]
    refine ⟨?_, hproc, r3, fun hc => absurd hc (by decide), fun _ => ⟨r1, ?_⟩⟩
    · rw [document_paused_congr _ d hproc, hp]
    · simp only [Document.paused, r2]
      cases d.process <;> rfl
  · obtain ⟨a1, a2⟩ := autoPause_of_paused d h hp
    rw [a1, a2]
    exact ⟨hp, rfl, h, fun _ => ⟨rfl, rfl⟩, fun hc => absurd hc (by decide)⟩

/-- C28 at a concrete input: a running document is paused by `autoPause(true)` and runs
again after `autoPause(false)`. -/
theorem autoPause_round_trip_witness :
    documentRunning.paused = false
      ∧ (documentRunning.autoPause true).paused = true
      ∧ ((documentRunning.autoPause true).autoPause false).paused = documentRunning.paused
      ∧ ((documentRunning.autoPause true).autoPause false).autoPaused = false :=
  ⟨rfl, rfl, (autoPause_round_trip documentRunning rfl).1,
    (autoPause_round_trip documentRunning rfl).2.2.1⟩

/-! ## Equality of property records (C29) -/

/-- C29, evaluated at the failing input.  The left record has the single property `a`, a
boolean of value false; the right record has the same plugin name and id and the single
property `b`, an integer of value 5.  The sets of property names differ, yet `operator==`
returns true; and the right record is modified by the comparison: a value-initialised
property `a` has been inserted into it. -/
theorem properties_equals_inserts :
    Properties.equals propertiesA propertiesB
        = (true, { propertiesB with
            elements := ("a", PropertyElement.initial) :: propertiesB.elements })
      ∧ propertiesA.elements.map (fun e => e.1) ≠ propertiesB.elements.map (fun e => e.1)
      ∧ (Properties.equals propertiesA propertiesB).2 ≠ propertiesB
      ∧ (Properties.equals propertiesA propertiesB).2.elements.length = 2 := by
  decide

end Mitsuba
